import Mathlib

/-! # btop: collect-and-render scheduler, signal handling and argument parsing

A shallow embedding of `src/btop.cpp`.  Process-wide variables (the `Global`,
`Runner`, `Input`, `Config` and `Term` namespaces) are the fields of one record,
`World`; what the program sends to `cout`, and the calls it makes to external
collaborators, are appended to the `cout` and `events` fields.  Code that can end
the process returns a `Ctl` next to the new `World`.
-/

namespace Btop

/-! ## Data model -/

/-- Values of `Runner::runner_conf`. -/
structure runner_conf where
  boxes : List String
  no_update : Bool
  force_redraw : Bool
  overlay : String
  clock : String
deriving DecidableEq, Repr

/-- Calls made to code outside `btop.cpp`, in the order they are made. -/
inductive Event where
  | collect (ns : String) (no_update : Bool)
  | draw (ns : String) (force_redraw : Bool) (no_update : Bool)
  | thread_create (conf : runner_conf)
  | config_unlock
  | config_lock
  | config_write
  | input_clear
  | log_error (msg : String)
  | log_info
  | term_restore
  | term_init
  | sleep_ms (ms : Nat)
  | mutex_unlock
  | raise_sigstop
deriving DecidableEq, Repr

/-- How a function hands control back: it returns, or it ends the process. -/
inductive Ctl where
  | returned
  | exit (code : Int)
  | quick_exit (code : Int)
deriving DecidableEq, Repr

/-- The process-wide variables `btop.cpp` reads and writes, with the output streams. -/
structure World where
  /-- Variable `Global::overlay` -/
  overlay : String
  /-- Variable `Global::clock` -/
  clock : String
  /-- Variable `Global::exit_error_msg` -/
  exit_error_msg : String
  /-- Variable `Global::thread_exception` -/
  thread_exception : Bool
  /-- Variable `Global::debug` -/
  debug : Bool
  /-- Variable `Global::utf_force` -/
  utf_force : Bool
  /-- Variable `Global::resized` -/
  resized : Bool
  /-- Variable `Global::resizing` -/
  resizing : Int
  /-- Variable `Global::quitting` -/
  quitting : Bool
  /-- Variable `Global::arg_tty` -/
  arg_tty : Bool
  /-- Variable `Global::arg_low_color` -/
  arg_low_color : Bool
  /-- Setting `Config::set("tty_mode", _)`: the value last set, if any -/
  tty_mode : Option Bool
  /-- Variable `Config::current_boxes` -/
  current_boxes : List String
  /-- Variable `Term::initialized` -/
  term_initialized : Bool
  /-- Variable `Input::interrupt` -/
  interrupt : Bool
  /-- Variable `Runner::active` -/
  active : Bool
  /-- Variable `Runner::stopping` -/
  stopping : Bool
  /-- Variable `Runner::waiting` -/
  waiting : Bool
  /-- Variable `Runner::output` -/
  output : String
  /-- Variable `Runner::current_conf` -/
  current_conf : runner_conf
  /-- Everything sent to `cout`, oldest first -/
  cout : String
  /-- Everything sent to `cerr`, oldest first -/
  cerr : String
  /-- Calls to external collaborators, oldest first -/
  events : List Event
deriving DecidableEq, Repr

/-- A world in which no flag is set and nothing has been written. -/
def World.init : World :=
  { overlay := "", clock := "", exit_error_msg := "", thread_exception := false,
    debug := false, utf_force := false, resized := false, resizing := 0,
    quitting := false, arg_tty := false, arg_low_color := false, tty_mode := none,
    current_boxes := [], term_initialized := false, interrupt := false,
    active := false, stopping := false, waiting := false, output := "",
    current_conf := { boxes := [], no_update := false, force_redraw := false,
                      overlay := "", clock := "" },
    cout := "", cerr := "", events := [] }

/-- Errno values of Linux `errno.h`, the platform `btop.cpp` compiles for. -/
def EBUSY : Nat := 16

/-- Errno value of Linux `errno.h`: the previous owner of a robust mutex died. -/
def EOWNERDEAD : Nat := 130

/-- Errno value of Linux `errno.h`: the robust mutex can no longer be used. -/
def ENOTRECOVERABLE : Nat := 131

/-- Errno value of Linux `errno.h`: invalid argument, which `pthread_mutex_lock` returns
for a mutex it cannot use. -/
def EINVAL : Nat := 22

/-! ## The argument parser -/

/-- Constant `Global::Version` -/
def Version : String := "0.0.30"

/-- The text `argumentParser` prints for `-h` and `--help` (lines 104-113). -/
def usage : String :=
  "usage: btop [-h] [-v] [-/+t] [--debug]\n\n" ++
  "optional arguments:\n" ++
  "  -h, --help            show this help message and exit\n" ++
  "  -v, --version         show version info and exit\n" ++
  "  -lc, --low-color      disable truecolor, converts 24-bit colors to 256-color\n" ++
  "  -t, --tty_on          force (ON) tty mode, max 16 colors and tty friendly graph symbols\n" ++
  "  +t, --tty_off         force (OFF) tty mode\n" ++
  "  --utf-foce\t\t\tforce start even if no UTF-8 locale was detected" ++
  "  --debug               start with loglevel set to DEBUG, overriding value set in config\n" ++
  "\n"

/-- The text `argumentParser` prints for `-v` and `--version` (line 117). -/
def versionLine : String := "btop version: " ++ Version ++ "\n"

/-- The text `argumentParser` prints for an argument it does not know (lines 136-137). -/
def unknownHint (argument : String) : String :=
  " Unknown argument: " ++ argument ++ "\n" ++ " Use -h or --help for help." ++ "\n"

/-- Function `argumentParser` (lines 100-141) on `argv[1]`, ..., `argv[argc - 1]`.  It is called
in line 517, before the exit handler is registered. -/
def argumentParser : List String → World → World × Ctl
  | [], w => (w, .returned)
  | argument :: rest, w =>
    if argument = "-h" ∨ argument = "--help" then
      ({ w with cout := w.cout ++ usage }, .exit 0)
    else if argument = "-v" ∨ argument = "--version" then
      ({ w with cout := w.cout ++ versionLine }, .exit 0)
    else if argument = "-lc" ∨ argument = "--low-color" then
      argumentParser rest { w with arg_low_color := true }
    else if argument = "-t" ∨ argument = "--tty_on" then
      argumentParser rest { w with tty_mode := some true, arg_tty := true }
    else if argument = "+t" ∨ argument = "--tty_off" then
      argumentParser rest { w with tty_mode := some false, arg_tty := true }
    else if argument = "--utf-force" then
      argumentParser rest { w with utf_force := true }
    else if argument = "--debug" then
      argumentParser rest { w with debug := true }
    else
      ({ w with cout := w.cout ++ unknownHint argument }, .exit 1)

/-- The argument asks for the usage text. -/
def isHelp (a : String) : Prop := a = "-h" ∨ a = "--help"

/-- The argument asks for the version. -/
def isVersion (a : String) : Prop := a = "-v" ∨ a = "--version"

/-- The argument disables truecolor. -/
def isLowColor (a : String) : Prop := a = "-lc" ∨ a = "--low-color"

/-- The argument forces tty mode on. -/
def isTtyOn (a : String) : Prop := a = "-t" ∨ a = "--tty_on"

/-- The argument forces tty mode off. -/
def isTtyOff (a : String) : Prop := a = "+t" ∨ a = "--tty_off"

/-- The argument is one of the option flags, after which the scan goes on. -/
def isOption (a : String) : Prop :=
  isLowColor a ∨ isTtyOn a ∨ isTtyOff a ∨ a = "--utf-force" ∨ a = "--debug"

/-- What an option flag does to the globals (lines 120-134); other arguments do nothing
here. -/
def setOption (a : String) (w : World) : World :=
  if a = "-lc" ∨ a = "--low-color" then { w with arg_low_color := true }
  else if a = "-t" ∨ a = "--tty_on" then { w with tty_mode := some true, arg_tty := true }
  else if a = "+t" ∨ a = "--tty_off" then { w with tty_mode := some false, arg_tty := true }
  else if a = "--utf-force" then { w with utf_force := true }
  else if a = "--debug" then { w with debug := true }
  else w

namespace Tools

/-! ## Helpers of `btop_tools.hpp` -/

/-- Modelled from the spec: the constructor of `atomic_lock` (btop_tools.hpp, not under
src) sets the flag it is given; this is the value of the flag while the object lives. -/
@[reducible]
def atomic_lock_set : Bool := true

/-- Modelled from the spec: the destructor of `atomic_lock` (btop_tools.hpp, not under
src) clears the flag, on every exit path of the scope ("release the active-worker flag
on every exit path"). -/
@[reducible]
def atomic_lock_clear : Bool := false

/-- Modelled from the spec: `atomic_wait(flag)` (btop_tools.hpp, not under src) blocks
the caller until the flag is clear; this tells whether the wait can return. -/
@[reducible]
def atomic_wait_over (flag : Bool) : Bool := !flag

/-- Modelled from the spec: the constructor of `thread_lock` (btop_tools.hpp, not under
src) calls `pthread_mutex_lock` and keeps what the call returned in `status`; the
destructor releases the mutex, the lock being "scoped to the run", when it was acquired,
that is when `status` is 0.  This tells whether the destructor releases the mutex. -/
@[reducible]
def thread_lock_releases (status : Nat) : Bool := decide (status = 0)

/-- Modelled from the spec: `atomic_wait(active)` (btop_tools.hpp, not under src) returns
at once when `active` is clear and otherwise blocks the caller until the worker has
cleared it.  `others` gives the world in which the worker ends; the caller finds in it the
variables the worker writes. -/
def atomic_wait_active (others : World → World) (w : World) : World :=
  if w.active then
    { w with
      active := false,
      stopping := (others w).stopping,
      output := (others w).output,
      cout := (others w).cout,
      events := (others w).events,
      exit_error_msg := (others w).exit_error_msg,
      thread_exception := (others w).thread_exception,
      interrupt := (others w).interrupt }
  else w

end Tools

namespace Runner

/-! ## `Runner`: panels, bit masks -/

/-- Map `Runner::box_bits`: `none` where `box_bits.at(box)` throws `std::out_of_range`. -/
def box_bits (box : String) : Option Nat :=
  if box = "proc" then some 0b00000001
  else if box = "mem" then some 0b00000100
  else if box = "net" then some 0b00010000
  else if box = "cpu" then some 0b01000000
  else none

/-- Position in `enum bit_pos`, value 0. -/
def proc_present : Nat := 0
/-- Position in `enum bit_pos`, value 1. -/
def proc_running : Nat := 1
/-- Position in `enum bit_pos`, value 2. -/
def mem_present : Nat := 2
/-- Position in `enum bit_pos`, value 3. -/
def mem_running : Nat := 3
/-- Position in `enum bit_pos`, value 4. -/
def net_present : Nat := 4
/-- Position in `enum bit_pos`, value 5. -/
def net_running : Nat := 5
/-- Position in `enum bit_pos`, value 6. -/
def cpu_present : Nat := 6
/-- Position in `enum bit_pos`, value 7. -/
def cpu_running : Nat := 7

/-- Constant `Runner::proc_done` -/
def proc_done : Nat := 0b00000011
/-- Constant `Runner::mem_done` -/
def mem_done : Nat := 0b00001100
/-- Constant `Runner::net_done` -/
def net_done : Nat := 0b00110000
/-- Constant `Runner::cpu_done` -/
def cpu_done : Nat := 0b11000000

/-- The four blocks of the scheduling loop (`//* PROC`, `//* MEM`, `//* NET`, `//* CPU`). -/
inductive Panel where
  | proc
  | mem
  | net
  | cpu
deriving DecidableEq, Repr, Fintype

/-- The order in which one pass of the loop visits the blocks. -/
def Panel.order : List Panel := [.proc, .mem, .net, .cpu]

/-- The key of the block in `box_bits`. -/
def Panel.box : Panel → String
  | .proc => "proc"
  | .mem => "mem"
  | .net => "net"
  | .cpu => "cpu"

/-- The namespace of the block's `collect` and `draw`, as spelled in its messages. -/
def Panel.ns : Panel → String
  | .proc => "Proc"
  | .mem => "Mem"
  | .net => "Net"
  | .cpu => "Cpu"

/-- The `*_present` bit the block tests. -/
def Panel.present : Panel → Nat
  | .proc => proc_present
  | .mem => mem_present
  | .net => net_present
  | .cpu => cpu_present

/-- The `*_running` bit the block tests and sets. -/
def Panel.running : Panel → Nat
  | .proc => proc_running
  | .mem => mem_running
  | .net => net_running
  | .cpu => cpu_running

/-- The `*_done` mask the block applies with `^=`. -/
def Panel.done : Panel → Nat
  | .proc => proc_done
  | .mem => mem_done
  | .net => net_done
  | .cpu => cpu_done

/-- Method `bitset<8>::test(i)` -/
def bitset_test (box_mask i : Nat) : Bool := box_mask.testBit i

/-- Method `bitset<8>::set(i)` -/
def bitset_set (box_mask i : Nat) : Nat := box_mask ||| (1 <<< i)

/-- What lies outside `btop.cpp` and the worker depends on: the collectors and
renderers of the four panels, the polls of their futures, and terminal strings.
`collect` gives what `future::get()` returns or rethrows (`what()` of the exception),
`ready p k` is `wait_for(ZeroSec) == future_status::ready` in pass `k`. -/
structure Ext (Info : Type) where
  collect : Panel → Bool → Except String Info
  draw : Panel → Info → Bool → Bool → Except String String
  ready : Panel → Nat → Bool
  /-- String `Term::sync_start` -/
  sync_start : String
  /-- String `Term::sync_end` -/
  sync_end : String
  /-- String `Theme::c("inactive_fg")` -/
  inactive_fg : String
  /-- Function `Fx::uncolor` -/
  uncolor : String → String
  /-- The debug statistics line of lines 449-450, which depends on the clock -/
  debug_stats : String
  /-- String `Term::clear` -/
  clear : String
  /-- String `Mv::to(10, 10)` -/
  mv_to_10_10 : String

/-- Writes to `Runner::stopping` by the foreground thread that land just before the
worker reads the flag: before line 325, before the check of pass `k` (line 351),
before the check after the loop (line 439).  `none`: no write since the last read. -/
structure Env where
  atEntry : Option Bool
  atPass : Nat → Option Bool
  atFinal : Option Bool

/-- The foreground never touches `stopping` during the run. -/
def Env.quiet : Env := { atEntry := none, atPass := fun _ => none, atFinal := none }

/-- The flag after a foreground write. -/
def observe (write : Option Bool) (w : World) : World :=
  match write with
  | some b => { w with stopping := b }
  | none => w

/-- Local state of the scheduling loop: the globals, `box_mask`, and the four futures
(`none`: no shared state, `valid()` is false). -/
structure LoopState (Info : Type) where
  w : World
  box_mask : Nat
  fut : Panel → Option (Except String Info)

/-- One block of the loop body (lines 354-371 for PROC, and its three copies).
Returns the state reached and, when the block throws, `what()` of the
`std::runtime_error` that leaves it. -/
def panelStep {Info : Type} (x : Ext Info) (conf : runner_conf) (k : Nat) (p : Panel)
    (s : LoopState Info) : LoopState Info × Option String :=
  if bitset_test s.box_mask p.present then
    if !bitset_test s.box_mask p.running then
      ({ s with
          w := { s.w with events := s.w.events ++ [Event.collect p.ns conf.no_update] },
          fut := Function.update s.fut p (some (x.collect p conf.no_update)),
          box_mask := bitset_set s.box_mask p.running }, none)
    else
      match s.fut p with
      | none => (s, some (p.ns ++ "::collect() future not valid."))
      | some r =>
        if x.ready p k then
          match r with
          | .error e => ({ s with fut := Function.update s.fut p none },
                          some (p.ns ++ ":: -> " ++ e))
          | .ok info =>
            let s1 : LoopState Info :=
              { s with
                fut := Function.update s.fut p none,
                w := { s.w with
                  events := s.w.events ++ [Event.draw p.ns conf.force_redraw conf.no_update] } }
            match x.draw p info conf.force_redraw conf.no_update with
            | .error e => (s1, some (p.ns ++ ":: -> " ++ e))
            | .ok text =>
              ({ s1 with
                  w := { s1.w with output := s1.w.output ++ text },
                  box_mask := s1.box_mask ^^^ p.done }, none)
        else (s, none)
  else (s, none)

/-- The `try` block of one pass (lines 352-429): the blocks in order, up to the first
one that throws. -/
def passBody {Info : Type} (x : Ext Info) (conf : runner_conf) (k : Nat) :
    List Panel → LoopState Info → LoopState Info × Option String
  | [], s => (s, none)
  | p :: ps, s =>
    match panelStep x conf k p s with
    | (s1, some msg) => (s1, some msg)
    | (s1, none) => passBody x conf k ps s1

/-- The `catch` of lines 430-436. -/
def catchFault (msg : String) (w : World) : World :=
  { w with
    exit_error_msg := "Exception in runner thread -> " ++ msg,
    thread_exception := true,
    interrupt := true,
    stopping := true }

/-- The loop `while (box_mask.count() > 0)` of lines 350-437, from pass `k` on.
`none`: the loop is still running after `fuel` passes. -/
def schedLoop {Info : Type} (x : Ext Info) (e : Env) (conf : runner_conf) :
    Nat → Nat → LoopState Info → Option (LoopState Info)
  | 0, _, s => if s.box_mask = 0 then some s else none
  | fuel + 1, k, s =>
    if s.box_mask = 0 then some s
    else
      let s0 : LoopState Info := { s with w := observe (e.atPass k) s.w }
      if s0.w.stopping then some s0
      else
        match passBody x conf k Panel.order s0 with
        | (s1, some msg) => some { s1 with w := catchFault msg s1.w }
        | (s1, none) => schedLoop x e conf fuel (k + 1) s1

/-- Lines 338-341: `box_mask |= box_bits.at(box)` over the boxes; `none` when `at`
throws. -/
def build_mask : List String → Nat → Option Nat
  | [], m => some m
  | box :: rest, m =>
    match box_bits box with
    | none => none
    | some b => build_mask rest (m ||| b)

/-- How the worker thread ends. -/
inductive Outcome where
  /-- Exit by `pthread_exit(NULL)` at line 326, 440 or 452 -/
  | exited (w : World)
  /-- An exception left the thread function (`box_bits.at`): `std::terminate` -/
  | terminated (w : World)
deriving DecidableEq, Repr

/-- Lines 443-450: the composed frame and the debug statistics, sent to `cout`. -/
def writeFrame {Info : Type} (x : Ext Info) (conf : runner_conf) (w : World) : World :=
  { w with
    cout := w.cout ++ (x.sync_start ++
        (if conf.overlay.isEmpty then w.output ++ conf.clock
         else x.inactive_fg ++ x.uncolor (w.output ++ conf.clock) ++ conf.overlay)
        ++ x.sync_end) ++ x.debug_stats }

/-- Lines 317-323: `thread_lock pt_lck(mtx)`, where `status` is what
`pthread_mutex_lock` returned, and the fault recorded when it is not 0. -/
def lockFault (status : Nat) (w : World) : World :=
  if status ≠ 0 then
    { w with
      exit_error_msg :=
        "Exception in runner thread -> pthread_mutex_lock error id: " ++ toString status,
      thread_exception := true,
      interrupt := true,
      stopping := true }
  else w

/-- Lines 330-346: `atomic_lock lck(active)`, `output.clear()`, the mask built from the
boxes, and four futures without shared state. -/
def loopEntry {Info : Type} (w : World) (box_mask : Nat) : LoopState Info :=
  { w := { w with active := Tools.atomic_lock_set, output := "" }, box_mask := box_mask,
    fut := fun _ => none }

/-- Lines 439-452: the check after the loop, the write to the terminal, and the exit
of the thread, on which the destructor of `atomic_lock lck(active)` clears `active`. -/
def afterLoop {Info : Type} (x : Ext Info) (e : Env) (conf : runner_conf)
    (s : LoopState Info) : Outcome :=
  let w4 := observe e.atFinal s.w
  if w4.stopping then .exited { w4 with active := Tools.atomic_lock_clear }
  else .exited { writeFrame x conf w4 with active := Tools.atomic_lock_clear }

/-- Function `Runner::_runner` (lines 309-453).  `status` is what `pthread_mutex_lock` returned
in `thread_lock pt_lck(mtx)`.  `none`: the loop is still running after `fuel` passes. -/
def _runner {Info : Type} (x : Ext Info) (e : Env) (status : Nat) (conf : runner_conf)
    (fuel : Nat) (w : World) : Option Outcome :=
  let w2 := observe e.atEntry (lockFault status w)
  if w2.active || w2.stopping || w2.resized then some (.exited w2)
  else
    match build_mask conf.boxes 0 with
    | none => some (.terminated { w2 with active := Tools.atomic_lock_set, output := "" })
    | some m => (schedLoop x e conf fuel 0 (loopEntry w2 m)).map (afterLoop x e conf)

/-! ### The foreground: `stop` and `run` -/

/-- Lines 502-503: `sleep_ms(1); stopping = false;`. -/
def stopTail (w : World) : World × Ctl :=
  ({ w with events := w.events ++ [Event.sleep_ms 1], stopping := false }, .returned)

/-- Lines 494-495: `if (active) active = false;` and the message of the dead worker. -/
def markDead (w : World) : World :=
  { (if w.active then { w with active := false } else w) with
    exit_error_msg := "Runner thread died unexpectedly!" }

/-- Function `Runner::stop` (lines 490-504).  `ret` is what `pthread_mutex_trylock` returned and
`others` what the worker does while `atomic_wait(active)` waits for it. -/
def stop (ret : Nat) (others : World → World) (w : World) : World × Ctl :=
  let w1 : World := { w with stopping := true }
  if ret = EOWNERDEAD ∨ ret = ENOTRECOVERABLE then
    if !(markDead w1).quitting then (markDead w1, .exit 1)
    else stopTail (markDead w1)
  else if ret = EBUSY then stopTail (Tools.atomic_wait_active others w1)
  else if ret = 0 then stopTail { w1 with events := w1.events ++ [Event.mutex_unlock] }
  else stopTail w1

/-- What `Runner::run` meets outside `btop.cpp`: the worker that may still be active,
the results of `pthread_create` and `pthread_detach`, and the number of times the loop
of line 485 finds `active` still clear. -/
structure RunEnv where
  others : World → World
  create_status : Nat
  detach_status : Nat
  startup_polls : Nat

/-- Function `Runner::run` (lines 457-487).  The second component is `what()` of the exception the
call throws, if it throws.  `atomic_lock lck(waiting)` sets `waiting` on entry and clears
it on every way out. -/
def run {Info : Type} (x : Ext Info) (r : RunEnv) (box : String) (no_update : Bool)
    (force_redraw : Bool) (w : World) : World × Option String :=
  let w1 := Tools.atomic_wait_active r.others { w with waiting := Tools.atomic_lock_set }
  if w1.stopping || w1.resized then ({ w1 with waiting := Tools.atomic_lock_clear }, none)
  else if box = "overlay" then
    ({ w1 with
        cout := w1.cout ++ (x.sync_start ++ w1.overlay ++ x.sync_end),
        waiting := Tools.atomic_lock_clear }, none)
  else if box = "clock" then
    if !w1.clock.isEmpty then
      ({ w1 with
          cout := w1.cout ++ (x.sync_start ++ w1.clock ++ x.sync_end),
          waiting := Tools.atomic_lock_clear }, none)
    else ({ w1 with waiting := Tools.atomic_lock_clear }, none)
  else if box.isEmpty && w1.current_boxes.isEmpty then
    ({ w1 with
        cout := w1.cout ++
          (x.sync_start ++ (x.clear ++ x.mv_to_10_10) ++ "No boxes shown!" ++ x.sync_end),
        waiting := Tools.atomic_lock_clear }, none)
  else
    let conf : runner_conf :=
      { boxes := if box = "all" then w1.current_boxes else [box],
        no_update := no_update, force_redraw := force_redraw,
        overlay := w1.overlay, clock := w1.clock }
    let w2 : World :=
      { w1 with
        events := w1.events ++ [Event.config_unlock, Event.config_lock],
        current_conf := conf }
    if r.create_status ≠ 0 then
      ({ w2 with waiting := Tools.atomic_lock_clear }, some "Failed to create _runner thread!")
    else
      let w3 : World := { w2 with events := w2.events ++ [Event.thread_create conf] }
      if r.detach_status ≠ 0 then
        ({ w3 with waiting := Tools.atomic_lock_clear },
          some "Failed to detach _runner thread!")
      else
        ({ w3 with
            events := w3.events ++ List.replicate (min r.startup_polls 10) (Event.sleep_ms 1),
            waiting := Tools.atomic_lock_clear }, none)

/-! ### Reading the loop state -/

/-- The blocks a box list asks for. -/
def requested (boxes : List String) (p : Panel) : Bool := decide (p.box ∈ boxes)

/-- The `(present, running)` bit pair of a block in `box_mask`. -/
def pbits (box_mask : Nat) (p : Panel) : Bool × Bool :=
  (bitset_test box_mask p.present, bitset_test box_mask p.running)

/-- The text the block appends when its turn comes: what `draw` returns on what
`collect` returned (empty when either raises). -/
def rendered {Info : Type} (x : Ext Info) (conf : runner_conf) (p : Panel) : String :=
  match x.collect p conf.no_update with
  | .error _ => ""
  | .ok info =>
    match x.draw p info conf.force_redraw conf.no_update with
    | .error _ => ""
    | .ok text => text

/-- Neither `collect` nor `draw` of the block raises. -/
def noFault {Info : Type} (x : Ext Info) (conf : runner_conf) (p : Panel) : Prop :=
  ∃ info text, x.collect p conf.no_update = .ok info ∧
    x.draw p info conf.force_redraw conf.no_update = .ok text

/-- The requested blocks whose future first reports ready in pass `k`, in the order
the pass visits them. -/
def readyIn (boxes : List String) (readyAt : Panel → Nat) (k : Nat) : List Panel :=
  Panel.order.filter (fun p => requested boxes p && decide (readyAt p = k))

/-- The last pass in which a requested block becomes ready (0 when none is requested). -/
def lastPass (boxes : List String) (readyAt : Panel → Nat) : Nat :=
  ((Panel.order.filter (requested boxes)).map readyAt).foldr max 0

/-- The order in which the loop appends the blocks: pass by pass, and within a pass
in the order proc, mem, net, cpu. -/
def renderOrder (boxes : List String) (readyAt : Panel → Nat) : List Panel :=
  (List.range (lastPass boxes readyAt + 1)).flatMap (readyIn boxes readyAt)

/-- The output the specification states: the requested blocks in the fixed order
proc, mem, net, cpu, whatever the order of completion. -/
def fixedOrder (boxes : List String) : List Panel :=
  Panel.order.filter (requested boxes)

/-- Concatenation of the rendered texts of a list of blocks. -/
def textOf {Info : Type} (x : Ext Info) (conf : runner_conf) (ps : List Panel) : String :=
  String.join (ps.map (rendered x conf))

/-- The state of a block within one run, read off its bit pair. -/
inductive PStatus where
  /-- Pair `(0,0)`: not requested, or collected and rendered -/
  | absent
  /-- Pair `(1,0)`: requested, collector not started -/
  | pending
  /-- Pair `(1,1)`: collector started, not yet rendered -/
  | collecting
  /-- Pair `(0,1)` -/
  | invalid
deriving DecidableEq, Repr

/-- The state the bit pair of a block encodes. -/
def status (box_mask : Nat) (p : Panel) : PStatus :=
  match pbits box_mask p with
  | (false, false) => .absent
  | (true, false) => .pending
  | (true, true) => .collecting
  | (false, true) => .invalid

/-- The state of a block after its turn in a pass in which nothing raises. -/
def nextStatus (ready : Bool) : PStatus → PStatus
  | .absent => .absent
  | .pending => .collecting
  | .collecting => if ready then .absent else .collecting
  | .invalid => .invalid

/-- A loop state as the loop itself produces them: the mask fits in eight bits, no
block has the pair `(0,1)`, and a block that is collecting holds the future of its
collector. -/
def Tidy {Info : Type} (x : Ext Info) (conf : runner_conf) (s : LoopState Info) : Prop :=
  s.box_mask < 256 ∧
  ∀ p, status s.box_mask p ≠ .invalid ∧
    (status s.box_mask p = .collecting → s.fut p = some (x.collect p conf.no_update))

/-- The state of a block at the start of pass `k` of a run in which nothing raises
and `stopping` stays clear, when its future first reports ready in pass `readyAt`. -/
def expected (boxes : List String) (readyAt : Panel → Nat) (k : Nat) (p : Panel) : PStatus :=
  if requested boxes p then
    if k = 0 then .pending
    else if k ≤ readyAt p then .collecting
    else .absent
  else .absent

/-- The world in which the worker thread ends. -/
def Outcome.world : Outcome → World
  | .exited w => w
  | .terminated w => w

/-- The blocks a pass visits before block `p`. -/
def Panel.before : Panel → List Panel
  | .proc => []
  | .mem => [.proc]
  | .net => [.proc, .mem]
  | .cpu => [.proc, .mem, .net]

/-- The blocks a pass visits after block `p`. -/
def Panel.after : Panel → List Panel
  | .proc => [.mem, .net, .cpu]
  | .mem => [.net, .cpu]
  | .net => [.cpu]
  | .cpu => []

/-- The collector of the block raises, or its renderer does on what was collected;
`what` is the `what()` of the exception. -/
def raises {Info : Type} (x : Ext Info) (conf : runner_conf) (p : Panel) (what : String) :
    Prop :=
  x.collect p conf.no_update = .error what ∨
  ∃ info, x.collect p conf.no_update = .ok info ∧
    x.draw p info conf.force_redraw conf.no_update = .error what

/-! ### The states a run goes through -/

/-- The states the `try` block of pass `k` (lines 352-429) leaves behind, one for each
block it enters: the state after the block, the last one being that of the block that
throws when one does. -/
def passTrace {Info : Type} (x : Ext Info) (conf : runner_conf) (k : Nat) :
    List Panel → LoopState Info → List (LoopState Info)
  | [], _ => []
  | p :: ps, s =>
    match panelStep x conf k p s with
    | (s1, some _) => [s1]
    | (s1, none) => s1 :: passTrace x conf k ps s1

/-- The states the loop of lines 350-437 goes through from pass `k` on, during at most
`fuel` passes: in each pass the state after the read of `stopping` (line 351), the state
after each block, and the state after the `catch` when a block throws. -/
def schedTrace {Info : Type} (x : Ext Info) (e : Env) (conf : runner_conf) :
    Nat → Nat → LoopState Info → List (LoopState Info)
  | 0, _, _ => []
  | fuel + 1, k, s =>
    if s.box_mask = 0 then []
    else
      let s0 : LoopState Info := { s with w := observe (e.atPass k) s.w }
      if s0.w.stopping then [s0]
      else
        match passBody x conf k Panel.order s0 with
        | (s1, some msg) =>
          s0 :: (passTrace x conf k Panel.order s0 ++ [{ s1 with w := catchFault msg s1.w }])
        | (s1, none) =>
          s0 :: (passTrace x conf k Panel.order s0 ++ schedTrace x e conf fuel (k + 1) s1)

/-- The state at the head of the loop (line 350) `n` passes after pass `k` began in
state `s`; `none` when the loop has left before. -/
def passStart {Info : Type} (x : Ext Info) (e : Env) (conf : runner_conf) :
    Nat → Nat → LoopState Info → Option (LoopState Info)
  | 0, _, s => some s
  | n + 1, k, s =>
    if s.box_mask = 0 then none
    else
      let s0 : LoopState Info := { s with w := observe (e.atPass k) s.w }
      if s0.w.stopping then none
      else
        match passBody x conf k Panel.order s0 with
        | (_, some _) => none
        | (s1, none) => passStart x e conf n (k + 1) s1

/-- How often the collector of a block was started: the `async(...::collect, ...)` calls
of its namespace among the events. -/
def started (p : Panel) (evs : List Event) : Nat :=
  evs.countP (fun ev =>
    match ev with
    | .collect ns _ => decide (ns = p.ns)
    | _ => false)

/-- How often the renderer of a block was invoked: the `...::draw(...)` calls of its
namespace among the events. -/
def drawn (p : Panel) (evs : List Event) : Nat :=
  evs.countP (fun ev =>
    match ev with
    | .draw ns _ _ => decide (ns = p.ns)
    | _ => false)

/-- Place of a state in the order Pending, Collecting, Collected and rendered. -/
def PStatus.rank : PStatus → Nat
  | .pending => 0
  | .collecting => 1
  | .absent => 2
  | .invalid => 3

/-- No move, or one move forward: Pending to Collecting, Collecting to `(0,0)`. -/
def forward (a b : PStatus) : Prop :=
  b = a ∨ (a = .pending ∧ b = .collecting) ∨ (a = .collecting ∧ b = .absent)

/-- What one step does to `box_mask`: nothing, `set(running)` of a block whose pair is
`(1,0)`, or `^= done` of a block whose two bits are set. -/
def maskStep (m m1 : Nat) : Prop :=
  m1 = m ∨
  ∃ p : Panel,
    (bitset_test m p.present = true ∧ bitset_test m p.running = false ∧
      m1 = bitset_set m p.running) ∨
    (bitset_test m p.present = true ∧ bitset_test m p.running = true ∧
      m1 = m ^^^ p.done)

/-- What holds of every state of a run that began with the events `ev0` for the boxes
`boxes`: no block has the pair `(0,1)`, a block not asked for has the pair `(0,0)` and
was never started or drawn, and the calls made since are those the pair allows: none for
`(1,0)`, one start for `(1,1)` (and a draw only when the future was consumed), one start
and one draw for a block asked for whose pair is `(0,0)`. -/
def Once {Info : Type} (boxes : List String) (ev0 : List Event) (s : LoopState Info) : Prop :=
  ∃ new, s.w.events = ev0 ++ new ∧
    ∀ p, status s.box_mask p ≠ .invalid ∧
      started p new ≤ 1 ∧ drawn p new ≤ 1 ∧
      (requested boxes p = false →
        status s.box_mask p = .absent ∧ started p new = 0 ∧ drawn p new = 0) ∧
      (status s.box_mask p = .pending → started p new = 0 ∧ drawn p new = 0) ∧
      (status s.box_mask p = .collecting →
        started p new = 1 ∧ (drawn p new = 1 → s.fut p = none)) ∧
      (requested boxes p = true → status s.box_mask p = .absent →
        started p new = 1 ∧ drawn p new = 1)

/-- One step of a run, from state `a` to state `b`: `b` is again as `Once` requires, the
pair of every block stays or moves forward, and the mask changes by one operation. -/
def Moves {Info : Type} (boxes : List String) (ev0 : List Event) (a b : LoopState Info) :
    Prop :=
  Once boxes ev0 b ∧ (∀ p, forward (status a.box_mask p) (status b.box_mask p)) ∧
    maskStep a.box_mask b.box_mask

/-! ### Sample collaborators -/

/-- Collaborators that never raise: each renderer returns the name of its namespace,
and the future of block `p` reports ready from pass `readyAt p` on. -/
def sampleExt (readyAt : Panel → Nat) : Ext Unit :=
  { collect := fun _ _ => .ok (),
    draw := fun p _ _ _ => .ok p.ns,
    ready := fun p k => decide (readyAt p ≤ k),
    sync_start := "<", sync_end := ">", inactive_fg := "", uncolor := id,
    debug_stats := "", clear := "", mv_to_10_10 := "" }

/-- Collaborators as in `sampleExt`, every future ready from pass 1 on, except that
`Proc::collect` raises an error with `what()` equal to "boom". -/
def procFails : Ext Unit :=
  { sampleExt (fun _ => 1) with
    collect := fun p _ => if p = .proc then .error "boom" else .ok () }

/-- The foreground raises `stopping` just before the check of pass 0 and clears it just
before the check after the loop. -/
def stopThenClear : Env :=
  { atEntry := none, atPass := fun k => if k = 0 then some true else none,
    atFinal := some false }

/-- The foreground raises `stopping` just before the check of pass 1 and leaves it set. -/
def stopInPassOne : Env :=
  { atEntry := none, atPass := fun k => if k = 1 then some true else none, atFinal := none }

/-- A loop state in which the cpu block is collecting and nothing has been rendered. -/
def cpuCollecting : LoopState Unit :=
  { w := { World.init with active := true }, box_mask := 0b11000000,
    fut := fun p => if p = .cpu then some (.ok ()) else none }

/-- A `run` that meets no active worker and a thread library that works. -/
def quietRun : RunEnv :=
  { others := id, create_status := 0, detach_status := 0, startup_polls := 0 }

/-- A world in which a menu overlay is set and nothing else. -/
def menuShown : World := { World.init with overlay := "MENU" }

/-- A run request for the given boxes, no overlay, no clock. -/
def sampleConf (boxes : List String) : runner_conf :=
  { boxes := boxes, no_update := false, force_redraw := false, overlay := "", clock := "" }

/-- The memory collector finishes first: ready in pass 1, the others in pass 2. -/
def memFirst : Panel → Nat
  | .mem => 1
  | _ => 2

/-- The cpu collector finishes first: ready in pass 1, the others in pass 2. -/
def cpuFirst : Panel → Nat
  | .cpu => 1
  | _ => 2

end Runner

/-! ## Quitting -/

/-- What `clean_quit` meets outside `btop.cpp`: the result of the `pthread_mutex_trylock`
in `Runner::stop`, the worker that may still be active, and the value of
`Tools::active_locks` at each of its reads (numbered from 0). -/
structure QuitEnv where
  trylock : Nat
  others : World → World
  active_locks : Nat → Int

/-- The loop of lines 180-182: the number of times `sleep_ms(10)` is called, starting
with the counter at `i`. -/
def lockWait (active_locks : Nat → Int) : Nat → Nat → Nat
  | 0, i => i
  | fuel + 1, i =>
    if active_locks i > 0 ∧ i < 100 then lockWait active_locks fuel (i + 1) else i

/-- Function `clean_quit` (lines 165-194). -/
def clean_quit (q : QuitEnv) (sig : Int) (w : World) : World × Ctl :=
  if w.quitting then (w, .returned)
  else
    match Runner.stop q.trylock q.others { w with quitting := true } with
    | (w1, .exit code) => (w1, .exit code)
    | (w1, .quick_exit code) => (w1, .quick_exit code)
    | (w1, .returned) =>
      let failed : Bool := !w1.exit_error_msg.isEmpty
      let sig1 : Int := if failed then 1 else sig
      let w2 : World :=
        if failed then
          { w1 with
            events := w1.events ++ [Event.log_error w1.exit_error_msg],
            cerr := w1.cerr ++ ("ERROR: " ++ w1.exit_error_msg ++ "\n") }
        else w1
      let n := lockWait q.active_locks 100 0
      let w3 : World :=
        { w2 with
          events := w2.events ++ [Event.config_write, Event.input_clear, Event.log_info]
            ++ List.replicate n (Event.sleep_ms 10) }
      let w4 : World :=
        if w3.term_initialized then { w3 with events := w3.events ++ [Event.term_restore] }
        else w3
      if q.active_locks (n + 1) > 0 then (w4, .quick_exit (if sig1 ≠ -1 then sig1 else 0))
      else if sig1 ≠ -1 then (w4, .exit sig1)
      else (w4, .returned)

/-- Function `_exit_handler` (lines 209-211), registered with `std::atexit` in line 520. -/
def _exit_handler (q : QuitEnv) (w : World) : World × Ctl :=
  clean_quit q (-1) w

/-- A call of `exit(code)` once `_exit_handler` is registered: the handler runs, and the
process ends with `code`, or with the status of the `exit` or `quick_exit` the handler
itself calls. -/
def exit_process (q : QuitEnv) (code : Int) (w : World) : World × Int :=
  match _exit_handler q w with
  | (w1, .returned) => (w1, code)
  | (w1, .exit code1) => (w1, code1)
  | (w1, .quick_exit code1) => (w1, code1)

/-- A quit that meets a free mutex, no active worker and no outstanding lock. -/
def quietQuit : QuitEnv :=
  { trylock := 0, others := id, active_locks := fun _ => 0 }

/-! ## Resizing: `term_resize` and the notifications that interrupt it

`term_resize` runs in the foreground, from the main loop and from the handlers of
`SIGWINCH` and `SIGCONT`.  A notification delivered while a call is running interrupts it
between two statements; the handler runs a nested call to its end, then the interrupted
call goes on.  `RState` holds the variables `term_resize` writes, the place of the first
call (`outer`) and of the calls nested in it (innermost first), and counts the calls of
`Runner::stop` and the executions of line 152. -/

namespace Resize

/-- Where a call of `term_resize` is; `rez_state` is its local variable. -/
inductive RPc where
  /-- before `Term::refresh()` (line 145) -/
  | entry
  /-- Variable `refreshed` is set; before the test `refreshed or force` -/
  | tested (refreshed : Bool)
  /-- before `++Global::resizing` (line 150) -/
  | incr
  /-- before `if (rez_state > 1) return` (line 151) -/
  | check (rez_state : Int)
  /-- before `Global::resized = true` (line 152) -/
  | mark (rez_state : Int)
  /-- before `Runner::stop()` (line 153) -/
  | callStop (rez_state : Int)
  /-- at `while (not force)` (line 154) -/
  | loopTest (rez_state : Int)
  /-- before `sleep_ms(100)` (line 155) -/
  | sleep (rez_state : Int)
  /-- before `if (rez_state != Global::resizing)` (line 156) -/
  | compare (rez_state : Int)
  /-- before `Term::refresh()` in line 157 -/
  | poll (rez_state : Int)
  /-- before `Input::interrupt = true` (line 160) -/
  | interrupt
  /-- before `Global::resizing = 0` (line 161) -/
  | reset
  /-- about to return -/
  | done
deriving DecidableEq, Repr

/-- A call of `term_resize`: its place and its parameter `force`. -/
structure Frame where
  pc : RPc
  force : Bool
deriving DecidableEq, Repr

/-- The variables `term_resize` writes, the first call and the calls nested in it
(innermost first), the number of calls of `Runner::stop` and of executions of line 152. -/
structure RState where
  resizing : Int
  resized : Bool
  interrupt : Bool
  outer : Frame
  nested : List Frame
  stops : Nat
  marks : Nat
deriving DecidableEq, Repr

/-- What can happen next. -/
inductive RAct where
  /-- a notification is delivered: the handler calls `term_resize(force)` (`SIGWINCH`
  with `force` false, `SIGCONT` with `force` true) -/
  | signal (force : Bool)
  /-- the innermost call executes its next statement; `refresh` is what `Term::refresh()`
  returns if the statement calls it -/
  | step (refresh : Bool)
deriving DecidableEq, Repr

/-- One statement of `term_resize` (lines 144-162) executed by a call at `f`: the globals
and counters after it, and the call after it. -/
def stmt (s : RState) (f : Frame) (refresh : Bool) : RState × Frame :=
  match f.pc with
  | .entry => (s, { f with pc := .tested refresh })
  | .tested refreshed =>
    if refreshed || f.force then
      (s, { pc := .incr, force := if f.force && refreshed then false else f.force })
    else (s, { f with pc := .done })
  | .incr => ({ s with resizing := s.resizing + 1 }, { f with pc := .check (s.resizing + 1) })
  | .check rez_state =>
    if rez_state > 1 then (s, { f with pc := .done })
    else (s, { f with pc := .mark rez_state })
  | .mark rez_state =>
    ({ s with resized := true, marks := s.marks + 1 }, { f with pc := .callStop rez_state })
  | .callStop rez_state =>
    ({ s with stops := s.stops + 1 }, { f with pc := .loopTest rez_state })
  | .loopTest rez_state =>
    if !f.force then (s, { f with pc := .sleep rez_state })
    else (s, { f with pc := .interrupt })
  | .sleep rez_state => (s, { f with pc := .compare rez_state })
  | .compare rez_state =>
    if rez_state ≠ s.resizing then
      ({ s with resizing := s.resizing - 1 }, { f with pc := .loopTest (s.resizing - 1) })
    else (s, { f with pc := .poll rez_state })
  | .poll rez_state =>
    if !refresh then (s, { f with pc := .interrupt })
    else (s, { f with pc := .loopTest rez_state })
  | .interrupt => ({ s with interrupt := true }, { f with pc := .reset })
  | .reset => ({ s with resizing := 0 }, { f with pc := .done })
  | .done => (s, f)

/-- One step of the foreground; `none` when the first call has returned. -/
def rstep (s : RState) : RAct → Option RState
  | .signal force => some { s with nested := { pc := .entry, force := force } :: s.nested }
  | .step refresh =>
    match s.nested with
    | [] =>
      if s.outer.pc = .done then none
      else
        some { (stmt s s.outer refresh).1 with outer := (stmt s s.outer refresh).2 }
    | f :: rest =>
      if f.pc = .done then some { s with nested := rest }
      else
        some { (stmt s f refresh).1 with nested := (stmt s f refresh).2 :: rest }

/-- The state a schedule leads to; `none` when it steps a call that has returned. -/
def rexec (s : RState) : List RAct → Option RState
  | [] => some s
  | a :: rest =>
    match rstep s a with
    | none => none
    | some s1 => rexec s1 rest

/-- A call `term_resize(false)` begins with `Global::resizing` at 0. -/
def atEntry : RState :=
  { resizing := 0, resized := false, interrupt := false,
    outer := { pc := .entry, force := false }, nested := [], stops := 0, marks := 0 }

/-- The first call has found the dimensions changed and has taken `Global::resizing`
from 0 to 1 (line 150). -/
def afterIncrement : RState :=
  { resizing := 1, resized := false, interrupt := false,
    outer := { pc := .check 1, force := false }, nested := [], stops := 0, marks := 0 }

/-- A nested call that does no more than read the dimensions, count itself and return. -/
def harmless : RPc → Prop
  | .entry => True
  | .tested _ => True
  | .incr => True
  | .check rez_state => rez_state > 1
  | .done => True
  | _ => False

/-- What holds of the first call between its increment and its return. -/
def outerOk (s : RState) : Prop :=
  match s.outer.pc with
  | .check r => r = 1 ∧ 1 ≤ s.resizing ∧ s.marks = 0 ∧ s.stops = 0
  | .mark r => 1 ≤ r ∧ r ≤ s.resizing ∧ s.marks = 0 ∧ s.stops = 0
  | .callStop r => 1 ≤ r ∧ r ≤ s.resizing ∧ s.marks = 1 ∧ s.stops = 0
  | .loopTest r => 1 ≤ r ∧ r ≤ s.resizing ∧ s.marks = 1 ∧ s.stops = 1
  | .sleep r => 1 ≤ r ∧ r ≤ s.resizing ∧ s.marks = 1 ∧ s.stops = 1
  | .compare r => 1 ≤ r ∧ r ≤ s.resizing ∧ s.marks = 1 ∧ s.stops = 1
  | .poll r => 1 ≤ r ∧ r ≤ s.resizing ∧ s.marks = 1 ∧ s.stops = 1
  | .interrupt => 1 ≤ s.resizing ∧ s.marks = 1 ∧ s.stops = 1
  | .reset => 1 ≤ s.resizing ∧ s.marks = 1 ∧ s.stops = 1 ∧ s.interrupt = true
  | .done => True
  | .entry => False
  | .tested _ => False
  | .incr => False

/-- What every state reached from `afterIncrement` satisfies. -/
structure RInv (s : RState) : Prop where
  outer : outerOk s
  nested : s.outer.pc ≠ .done → ∀ f ∈ s.nested, harmless f.pc

/-- The first call reads the dimensions and passes the test; before it counts itself a
notification is delivered and the nested call coordinates a whole stabilization wait;
then the first call goes on and coordinates another. -/
def earlyNotification : List RAct :=
  [.step true, .step true,
   .signal false,
   .step true, .step true, .step true, .step true, .step true, .step true, .step true,
   .step true, .step true, .step false, .step true, .step true, .step true,
   .step true, .step true, .step true, .step true, .step true, .step true, .step true,
   .step false, .step true, .step true]

/-- Two notifications are delivered while the first call coordinates, one before line 152
and one during the wait; the dimensions are stable at the second poll. -/
def burstSchedule : List RAct :=
  [.signal false, .step true, .step true, .step true, .step true, .step true,
   .step true, .step true, .step true, .step true,
   .signal false, .step true, .step true, .step true, .step true, .step true,
   .step true, .step true, .step true, .step true, .step true, .step false, .step true]

end Resize

/-! ## Threads: workers and `stop()` calls interleaved

The flags `active`, `stopping`, `Global::resized`, `Global::quitting` and the mutex `mtx`
are shared by the worker threads that `run()` creates and by the foreground, which calls
`stop()` from the main loop and from signal handlers.  `Sys` holds the shared variables,
a program counter for every thread, and for every worker the status its `pt_lck` holds;
an `Act` lets one thread take its next atomic step.  `pthread_mutex_lock` returns 0 once
the mutex is free and `pthread_mutex_trylock` returns 0 or `EBUSY`, unless the action
says that the call fails, and then it names the error the call returns; a call that
fails leaves `mtx` as it was.  The class `thread_lock` is not part of `btop.cpp`; what
its constructor and destructor do is taken from `Tools.thread_lock_releases`. -/

namespace Threads

/-- The holder of `Runner::mtx`. -/
inductive Owner where
  | worker (i : Nat)
  | stop (j : Nat)
deriving DecidableEq, Repr

/-- The flags the worker reads in the condition of line 325. -/
inductive Flag where
  | active
  | stopping
  | resized
deriving DecidableEq, Repr

/-- Where a worker thread is in `Runner::_runner`. -/
inductive WPc where
  /-- not created -/
  | idle
  /-- created by `pthread_create` (line 479), before `thread_lock pt_lck(mtx)` -/
  | created
  /-- lines 317-323 done: `mtx` taken, or the lock failed and `stopping` was set; next:
  read `active` (line 325) -/
  | locked
  /-- Flag `active` read false; next: read `stopping` -/
  | readActive
  /-- Flag `stopping` read false; next: read `Global::resized` -/
  | readStopping
  /-- the condition of line 325 is false; next: `atomic_lock lck(active)` (line 330) -/
  | passed
  /-- line 330 done, in lines 331-452 -/
  | running
  /-- the destructor of `lck` has cleared `active`; next: the destructor of `pt_lck` -/
  | cleared
  /-- line 326: `pthread_exit`, `active` untouched; next: the destructor of `pt_lck` -/
  | aborting
  /-- the destructor of `pt_lck` has run -/
  | exited
deriving DecidableEq, Repr

/-- Where a call of `Runner::stop` is. -/
inductive SPc where
  /-- not called -/
  | idle
  /-- called; next: `stopping = true` (line 491) -/
  | entry
  /-- next: `pthread_mutex_trylock` (line 492) -/
  | raised
  /-- trylock returned `EOWNERDEAD` or `ENOTRECOVERABLE`; next: lines 494-495 -/
  | dead
  /-- lines 494-495 done; next: `if (not Global::quitting) exit(1)` (line 496) -/
  | marked
  /-- in `exit(1)` (line 496): the process is ending -/
  | exiting
  /-- trylock returned `EBUSY`; in `atomic_wait(active)` (line 499) -/
  | busy
  /-- trylock returned 0; next: `pthread_mutex_unlock` (line 501) -/
  | acquired
  /-- in `sleep_ms(1)` (line 502); next: `stopping = false` (line 503) -/
  | pause
  /-- returned -/
  | returned
deriving DecidableEq, Repr

/-- The shared variables, the program counters, the status `pt_lck.status` of every
worker, and the reads of the flags made by the workers in line 325 (worker, flag, value
read), oldest first. -/
structure Sys where
  active : Bool
  stopping : Bool
  resized : Bool
  quitting : Bool
  mtx : Option Owner
  worker : Nat → WPc
  lock : Nat → Nat
  stop : Nat → SPc
  reads : List (Nat × Flag × Bool)

/-- No thread exists, no flag is set, the mutex is free. -/
def Sys.init : Sys :=
  { active := false, stopping := false, resized := false, quitting := false, mtx := none,
    worker := fun _ => .idle, lock := fun _ => 0, stop := fun _ => .idle, reads := [] }

/-- One atomic step of one thread. -/
inductive Act where
  /-- Thread creation: `run()` creates worker `i` (line 479) -/
  | spawn (i : Nat)
  /-- worker `i` takes its next step; when that is `pthread_mutex_lock`, the call
  returns 0 once `mtx` is free -/
  | work (i : Nat)
  /-- worker `i` calls `pthread_mutex_lock` (line 317) and the call returns the error
  `status` -/
  | lockFails (i : Nat) (status : Nat)
  /-- worker `i`, in the loop, executes the `catch` of lines 430-436 -/
  | fault (i : Nat)
  /-- the foreground calls `stop()`; this is call number `j` -/
  | call (j : Nat)
  /-- call `j` of `stop()` takes its next step; when that is `pthread_mutex_trylock`,
  the call returns 0 or `EBUSY` -/
  | stopStep (j : Nat)
  /-- call `j` of `stop()` calls `pthread_mutex_trylock` (line 492) and the call returns
  the error `err` -/
  | trylockFails (j : Nat) (err : Nat)
  /-- the foreground writes `Global::resized` (lines 152 and 668) -/
  | resize (b : Bool)
  /-- the foreground sets `Global::quitting` (line 167) -/
  | quit
deriving DecidableEq, Repr

/-- The next step of worker `i` in lines 317-330 and at the end of the thread, where
`status` is the error `pthread_mutex_lock` returns when the step is that call (0: the
call does not fail); `none` when the thread cannot move (not created, exited, or blocked
in `pthread_mutex_lock` because another thread holds `mtx`).  Of the assignments of
lines 319-322 only `stopping = true` touches a variable of `Sys`. -/
def workStep (s : Sys) (i : Nat) (status : Nat) : Option Sys :=
  match s.worker i with
  | .idle => none
  | .created =>
    if status ≠ 0 then
      some { s with
        stopping := true, lock := Function.update s.lock i status,
        worker := Function.update s.worker i .locked }
    else
      match s.mtx with
      | none =>
        some { s with
          mtx := some (.worker i), lock := Function.update s.lock i 0,
          worker := Function.update s.worker i .locked }
      | some _ => none
  | .locked =>
    some { s with
      reads := s.reads ++ [(i, .active, s.active)],
      worker := Function.update s.worker i (if s.active then .aborting else .readActive) }
  | .readActive =>
    some { s with
      reads := s.reads ++ [(i, .stopping, s.stopping)],
      worker := Function.update s.worker i (if s.stopping then .aborting else .readStopping) }
  | .readStopping =>
    some { s with
      reads := s.reads ++ [(i, .resized, s.resized)],
      worker := Function.update s.worker i (if s.resized then .aborting else .passed) }
  | .passed =>
    some { s with active := Tools.atomic_lock_set, worker := Function.update s.worker i .running }
  | .running =>
    some { s with
      active := Tools.atomic_lock_clear, worker := Function.update s.worker i .cleared }
  | .cleared =>
    some { s with
      mtx := if Tools.thread_lock_releases (s.lock i) then none else s.mtx,
      worker := Function.update s.worker i .exited }
  | .aborting =>
    some { s with
      mtx := if Tools.thread_lock_releases (s.lock i) then none else s.mtx,
      worker := Function.update s.worker i .exited }
  | .exited => none

/-- What `pthread_mutex_trylock` returns in line 492: the error `err` when the call
fails (`err` is not 0), and otherwise 0 when `mtx` is free and `EBUSY` when it is held. -/
def trylock (s : Sys) (err : Nat) : Nat :=
  if err ≠ 0 then err
  else
    match s.mtx with
    | none => 0
    | some _ => EBUSY

/-- The next step of call `j` of `stop()` (lines 491-503), where `err` is the error
`pthread_mutex_trylock` returns when the step is that call (0: the call does not fail);
`none` when the call cannot move (not made, returned, in `exit`, or waiting in
`atomic_wait(active)` while `active` is set). -/
def stopStep (s : Sys) (j : Nat) (err : Nat) : Option Sys :=
  match s.stop j with
  | .idle => none
  | .entry => some { s with stopping := true, stop := Function.update s.stop j .raised }
  | .raised =>
    if trylock s err = EOWNERDEAD ∨ trylock s err = ENOTRECOVERABLE then
      some { s with stop := Function.update s.stop j .dead }
    else if trylock s err = EBUSY then some { s with stop := Function.update s.stop j .busy }
    else if trylock s err = 0 then
      some { s with mtx := some (.stop j), stop := Function.update s.stop j .acquired }
    else some { s with stop := Function.update s.stop j .pause }
  | .dead =>
    some { s with
      active := if s.active then false else s.active,
      stop := Function.update s.stop j .marked }
  | .marked =>
    some { s with stop := Function.update s.stop j (if !s.quitting then .exiting else .pause) }
  | .exiting => none
  | .busy =>
    if Tools.atomic_wait_over s.active then some { s with stop := Function.update s.stop j .pause }
    else none
  | .acquired => some { s with mtx := none, stop := Function.update s.stop j .pause }
  | .pause => some { s with stopping := false, stop := Function.update s.stop j .returned }
  | .returned => none

/-- One step of the system; `none` when the action is not enabled. -/
def step (s : Sys) : Act → Option Sys
  | .spawn i =>
    if s.worker i = .idle then some { s with worker := Function.update s.worker i .created }
    else none
  | .work i => workStep s i 0
  | .lockFails i status =>
    if s.worker i = .created ∧ status ≠ 0 then workStep s i status else none
  | .fault i => if s.worker i = .running then some { s with stopping := true } else none
  | .call j =>
    if s.stop j = .idle then some { s with stop := Function.update s.stop j .entry } else none
  | .stopStep j => stopStep s j 0
  | .trylockFails j err =>
    if s.stop j = .raised ∧ err ≠ 0 then stopStep s j err else none
  | .resize b => some { s with resized := b }
  | .quit => some { s with quitting := true }

/-- The state a schedule leads to; `none` when one of its actions is not enabled. -/
def exec (s : Sys) : List Act → Option Sys
  | [] => some s
  | a :: rest =>
    match step s a with
    | none => none
    | some s1 => exec s1 rest

/-- The action is not a lock call that fails. -/
def Act.clean : Act → Bool
  | .lockFails _ _ => false
  | .trylockFails _ _ => false
  | _ => true

/-- The worker is between line 317 and the destructor of `pt_lck` at its exit: it holds
`mtx` when its lock did not fail. -/
def WPc.holds : WPc → Bool
  | .locked | .readActive | .readStopping | .passed | .running | .cleared | .aborting => true
  | .idle | .created | .exited => false

/-- The worker has read `active` as false in line 325. -/
def WPc.sawActive : WPc → Bool
  | .readActive | .readStopping | .passed | .running | .cleared => true
  | _ => false

/-- The worker has read `stopping` as false in line 325. -/
def WPc.sawStopping : WPc → Bool
  | .readStopping | .passed | .running | .cleared => true
  | _ => false

/-- The worker has read `Global::resized` as false in line 325. -/
def WPc.sawResized : WPc → Bool
  | .passed | .running | .cleared => true
  | _ => false

/-- What every state satisfies that is reached without a lock call that fails. -/
structure Inv (s : Sys) : Prop where
  holds_iff : ∀ i, (s.worker i).holds = true ↔ s.mtx = some (.worker i)
  active_iff : s.active = true ↔ ∃ i, s.worker i = .running
  acquired_iff : ∀ j, s.stop j = .acquired ↔ s.mtx = some (.stop j)
  saw_active : ∀ i, (s.worker i).sawActive = true → (i, Flag.active, false) ∈ s.reads
  saw_stopping : ∀ i, (s.worker i).sawStopping = true → (i, Flag.stopping, false) ∈ s.reads
  saw_resized : ∀ i, (s.worker i).sawResized = true → (i, Flag.resized, false) ∈ s.reads
  lock_ok : ∀ i, s.lock i = 0
  not_dead : ∀ j, s.stop j ≠ .dead ∧ s.stop j ≠ .marked

/-- A schedule in which `stop()` returns while the worker it was to stop is active:
the worker has passed the condition of line 325 when `stop()` raises `stopping`, and
sets `active` after `atomic_wait(active)` has returned. -/
def raceSchedule : List Act :=
  [.spawn 0, .work 0, .work 0, .work 0, .work 0,
   .call 0, .stopStep 0, .stopStep 0, .stopStep 0,
   .work 0,
   .stopStep 0]

/-- A schedule in which one worker becomes active. -/
def oneWorkerSchedule : List Act :=
  [.spawn 0, .spawn 1, .work 0, .work 0, .work 0, .work 0, .work 0]

/-- A schedule in which two workers are active at once.  Two calls of `run()` have
created workers 0 and 1.  A call of `stop()` finds `mtx` free, releases it and sleeps
(line 502).  The lock of worker 1 fails with `EINVAL`, so the worker sets `stopping`
(line 322); `stop()` then clears `stopping` (line 503).  Worker 0 takes `mtx`; both
workers read the three flags of line 325 as false, and both execute
`atomic_lock lck(active)`. -/
def failedLockSchedule : List Act :=
  [.spawn 0, .spawn 1,
   .call 0, .stopStep 0, .stopStep 0, .stopStep 0,
   .lockFails 1 EINVAL,
   .stopStep 0,
   .work 0, .work 0, .work 0, .work 0,
   .work 1, .work 1, .work 1,
   .work 0, .work 1]

/-- A schedule in which the mutex is not recoverable for any caller while the process is
quitting: `stop()`, called by `clean_quit`, gets `ENOTRECOVERABLE` from the trylock,
does not exit because `Global::quitting` is set, and sleeps; the locks of both workers
fail with `ENOTRECOVERABLE` and each sets `stopping`; `stop()` clears `stopping`; both
workers read the three flags as false and both execute `atomic_lock lck(active)`. -/
def unrecoverableSchedule : List Act :=
  [.spawn 0, .spawn 1, .quit,
   .call 0, .stopStep 0, .trylockFails 0 ENOTRECOVERABLE, .stopStep 0, .stopStep 0,
   .lockFails 0 ENOTRECOVERABLE, .lockFails 1 ENOTRECOVERABLE,
   .stopStep 0,
   .work 0, .work 0, .work 0, .work 1, .work 1, .work 1,
   .work 0, .work 1]

end Threads

/-! # Theorems -/

namespace Runner

/-! ## Bit pairs of `box_mask` -/

theorem test_set (m i j : Nat) :
    bitset_test (bitset_set m i) j = (bitset_test m j || decide (i = j)) := by
  simp [bitset_test, bitset_set, Nat.testBit_or, Nat.one_shiftLeft, Nat.testBit_two_pow]

theorem done_present (p q : Panel) : Nat.testBit p.done q.present = decide (p = q) := by
  cases p <;> cases q <;> decide

theorem done_running (p q : Panel) : Nat.testBit p.done q.running = decide (p = q) := by
  cases p <;> cases q <;> decide

theorem running_ne_present (p q : Panel) : p.running ≠ q.present := by
  cases p <;> cases q <;> decide

theorem running_eq_iff (p q : Panel) : p.running = q.running ↔ p = q := by
  cases p <;> cases q <;> decide

theorem running_lt (p : Panel) : p.running < 8 := by
  cases p <;> decide

theorem done_lt (p : Panel) : p.done < 2 ^ 8 := by
  cases p <;> decide

theorem pbits_set (m : Nat) (p q : Panel) :
    pbits (bitset_set m p.running) q =
      ((pbits m q).1, (pbits m q).2 || decide (p = q)) := by
  simp only [pbits, test_set, running_eq_iff]
  have h := running_ne_present p q
  simp [h]

theorem pbits_xor (m : Nat) (p q : Panel) :
    pbits (m ^^^ p.done) q =
      (xor (pbits m q).1 (decide (p = q)), xor (pbits m q).2 (decide (p = q))) := by
  simp only [pbits, bitset_test, Nat.testBit_xor, done_present, done_running]

theorem set_lt (m : Nat) (p : Panel) (hm : m < 256) : bitset_set m p.running < 256 := by
  have h1 : (1 <<< p.running) < 2 ^ 8 := by cases p <;> decide
  exact Nat.or_lt_two_pow (by simpa using hm) h1

theorem xor_lt (m : Nat) (p : Panel) (hm : m < 256) : m ^^^ p.done < 256 :=
  Nat.xor_lt_two_pow (by simpa using hm) (done_lt p)

theorem status_set_self (m : Nat) (p : Panel) (h : status m p = .pending) :
    status (bitset_set m p.running) p = .collecting := by
  unfold status at *
  rw [pbits_set]
  rcases hb : pbits m p with ⟨a, b⟩
  rw [hb] at h
  cases a <;> cases b <;> simp_all

theorem status_set_other (m : Nat) (p q : Panel) (h : p ≠ q) :
    status (bitset_set m p.running) q = status m q := by
  unfold status
  rw [pbits_set]
  simp [h]

theorem status_xor_self (m : Nat) (p : Panel) (h : status m p = .collecting) :
    status (m ^^^ p.done) p = .absent := by
  unfold status at *
  rw [pbits_xor]
  rcases hb : pbits m p with ⟨a, b⟩
  rw [hb] at h
  cases a <;> cases b <;> simp_all

theorem status_xor_other (m : Nat) (p q : Panel) (h : p ≠ q) :
    status (m ^^^ p.done) q = status m q := by
  unfold status
  rw [pbits_xor]
  simp [h]

theorem status_bits (m : Nat) (p : Panel) :
    (status m p = .absent ↔ bitset_test m p.present = false ∧ bitset_test m p.running = false) ∧
    (status m p = .pending ↔ bitset_test m p.present = true ∧ bitset_test m p.running = false) ∧
    (status m p = .collecting ↔ bitset_test m p.present = true ∧ bitset_test m p.running = true) := by
  unfold status pbits
  cases bitset_test m p.present <;> cases bitset_test m p.running <;> simp

/-! ## One block, one pass -/

theorem rendered_eq {Info : Type} (x : Ext Info) (conf : runner_conf) (p : Panel)
    (info : Info) (text : String) (hc : x.collect p conf.no_update = .ok info)
    (hd : x.draw p info conf.force_redraw conf.no_update = .ok text) :
    rendered x conf p = text := by
  simp [rendered, hc, hd]

theorem panelStep_start {Info : Type} (x : Ext Info) (conf : runner_conf) (k : Nat) (p : Panel)
    (s : LoopState Info) (h1 : bitset_test s.box_mask p.present = true)
    (h2 : bitset_test s.box_mask p.running = false) :
    panelStep x conf k p s =
      ({ s with
          w := { s.w with events := s.w.events ++ [Event.collect p.ns conf.no_update] },
          fut := Function.update s.fut p (some (x.collect p conf.no_update)),
          box_mask := bitset_set s.box_mask p.running }, none) := by
  simp [panelStep, h1, h2]

theorem panelStep_draw {Info : Type} (x : Ext Info) (conf : runner_conf) (k : Nat) (p : Panel)
    (s : LoopState Info) (info : Info) (text : String)
    (h1 : bitset_test s.box_mask p.present = true)
    (h2 : bitset_test s.box_mask p.running = true)
    (hf : s.fut p = some (.ok info)) (hr : x.ready p k = true)
    (hd : x.draw p info conf.force_redraw conf.no_update = .ok text) :
    panelStep x conf k p s =
      ({ s with
          fut := Function.update s.fut p none,
          w := { s.w with
            events := s.w.events ++ [Event.draw p.ns conf.force_redraw conf.no_update],
            output := s.w.output ++ text },
          box_mask := s.box_mask ^^^ p.done }, none) := by
  simp [panelStep, h1, h2, hf, hr, hd]

theorem panelStep_ok {Info : Type} (x : Ext Info) (conf : runner_conf) (k : Nat) (p : Panel)
    (s : LoopState Info) (ht : Tidy x conf s)
    (hok : status s.box_mask p = .collecting → x.ready p k = true → noFault x conf p) :
    ∃ s1, panelStep x conf k p s = (s1, none) ∧ Tidy x conf s1 ∧
      status s1.box_mask p = nextStatus (x.ready p k) (status s.box_mask p) ∧
      (∀ q, q ≠ p → status s1.box_mask q = status s.box_mask q) ∧
      s1.w.output = s.w.output ++
        (if status s.box_mask p = .collecting ∧ x.ready p k = true
          then rendered x conf p else "") ∧
      s1.w = { s.w with output := s1.w.output, events := s1.w.events } := by
  obtain ⟨hlt, hall⟩ := ht
  obtain ⟨hA, hP, hC⟩ := status_bits s.box_mask p
  rcases hst : status s.box_mask p with _ | _ | _ | _
  · -- absent
    obtain ⟨h1, _⟩ := hA.mp hst
    refine ⟨s, ?_, ⟨hlt, hall⟩, ?_, fun _ _ => rfl, ?_, rfl⟩
    · simp [panelStep, h1]
    · simp [nextStatus, hst]
    · simp
  · -- pending
    obtain ⟨h1, h2⟩ := hP.mp hst
    refine ⟨_, panelStep_start x conf k p s h1 h2, ⟨?_, ?_⟩, ?_, ?_, ?_, rfl⟩
    · exact set_lt _ _ hlt
    · intro q
      by_cases hq : p = q
      · subst hq
        simp [status_set_self _ _ hst]
      · simp only [status_set_other _ _ _ hq]
        refine ⟨(hall q).1, fun h => ?_⟩
        simp only [Function.update_noteq (Ne.symm hq)]
        exact (hall q).2 h
    · simp [status_set_self _ _ hst, nextStatus]
    · intro q hq
      exact status_set_other _ _ _ (Ne.symm hq)
    · simp
  · -- collecting
    obtain ⟨h1, h2⟩ := hC.mp hst
    have hf := (hall p).2 hst
    cases hr : x.ready p k
    · refine ⟨s, ?_, ⟨hlt, hall⟩, ?_, fun _ _ => rfl, ?_, rfl⟩
      · simp [panelStep, h1, h2, hf, hr]
      · simp [nextStatus, hst]
      · simp
    · obtain ⟨info, text, hc, hd⟩ := hok hst hr
      rw [hc] at hf
      refine ⟨_, panelStep_draw x conf k p s info text h1 h2 hf hr hd, ⟨?_, ?_⟩, ?_, ?_, ?_, rfl⟩
      · exact xor_lt _ _ hlt
      · intro q
        by_cases hq : p = q
        · subst hq
          simp [status_xor_self _ _ hst]
        · simp only [status_xor_other _ _ _ hq]
          refine ⟨(hall q).1, fun h => ?_⟩
          simp only [Function.update_noteq (Ne.symm hq)]
          exact (hall q).2 h
      · simp [status_xor_self _ _ hst, nextStatus]
      · intro q hq
        exact status_xor_other _ _ _ (Ne.symm hq)
      · simp [rendered_eq x conf p info text hc hd]
  · exact absurd hst (hall p).1


theorem foldl_append_string (l : List String) (acc : String) :
    l.foldl (fun r s => r ++ s) acc = acc ++ l.foldl (fun r s => r ++ s) "" := by
  induction l generalizing acc with
  | nil => simp
  | cons a l ih =>
    simp only [List.foldl_cons]
    rw [ih (acc ++ a), ih ("" ++ a)]
    simp [String.append_assoc]

theorem join_cons (a : String) (l : List String) : String.join (a :: l) = a ++ String.join l := by
  simp only [String.join, List.foldl_cons]
  rw [foldl_append_string]
  simp

theorem join_append (l1 l2 : List String) :
    String.join (l1 ++ l2) = String.join l1 ++ String.join l2 := by
  induction l1 with
  | nil => simp [String.join]
  | cons a l ih => simp [join_cons, ih, String.append_assoc]

theorem textOf_nil {Info : Type} (x : Ext Info) (conf : runner_conf) : textOf x conf [] = "" := by
  simp [textOf, String.join]

theorem textOf_cons {Info : Type} (x : Ext Info) (conf : runner_conf) (p : Panel)
    (ps : List Panel) : textOf x conf (p :: ps) = rendered x conf p ++ textOf x conf ps := by
  simp [textOf, join_cons]

theorem textOf_append {Info : Type} (x : Ext Info) (conf : runner_conf) (l1 l2 : List Panel) :
    textOf x conf (l1 ++ l2) = textOf x conf l1 ++ textOf x conf l2 := by
  simp [textOf, join_append]

theorem passBody_ok {Info : Type} (x : Ext Info) (conf : runner_conf) (k : Nat)
    (ps : List Panel) (hnd : ps.Nodup) (s : LoopState Info) (ht : Tidy x conf s)
    (hok : ∀ p ∈ ps, status s.box_mask p = .collecting → x.ready p k = true →
      noFault x conf p) :
    ∃ s', passBody x conf k ps s = (s', none) ∧ Tidy x conf s' ∧
      (∀ p, status s'.box_mask p =
        if p ∈ ps then nextStatus (x.ready p k) (status s.box_mask p)
        else status s.box_mask p) ∧
      s'.w.output = s.w.output ++ textOf x conf
        (ps.filter (fun p => decide (status s.box_mask p = .collecting) && x.ready p k)) ∧
      s'.w = { s.w with output := s'.w.output, events := s'.w.events } := by
  induction ps generalizing s with
  | nil =>
    exact ⟨s, rfl, ht, fun _ => by simp, by simp [textOf_nil], rfl⟩
  | cons p ps ih =>
    obtain ⟨hp, hnd'⟩ := List.nodup_cons.mp hnd
    obtain ⟨s1, h1, ht1, hsp, hso, hout1, hw1⟩ :=
      panelStep_ok x conf k p s ht (hok p (List.mem_cons_self _ _))
    have hne : ∀ q ∈ ps, q ≠ p := fun q hq hqp => hp (hqp ▸ hq)
    obtain ⟨s', h2, ht2, hs2, hout2, hw2⟩ := ih hnd' s1 ht1 (by
      intro q hq hqs hqr
      rw [hso q (hne q hq)] at hqs
      exact hok q (List.mem_cons_of_mem _ hq) hqs hqr)
    refine ⟨s', ?_, ht2, ?_, ?_, ?_⟩
    · simp only [passBody, h1, h2]
    · intro q
      rw [hs2 q]
      by_cases hq : q ∈ ps
      · simp [hq, hso q (hne q hq)]
      · by_cases hqp : q = p
        · subst hqp
          simp [hq, hsp]
        · simp [hq, hqp, hso q hqp]
    · rw [hout2, hout1]
      have hfil : ps.filter (fun q => decide (status s1.box_mask q = .collecting) && x.ready q k)
          = ps.filter (fun q => decide (status s.box_mask q = .collecting) && x.ready q k) := by
        apply List.filter_congr
        intro q hq
        rw [hso q (hne q hq)]
      rw [hfil, List.filter_cons]
      by_cases hc : status s.box_mask p = .collecting ∧ x.ready p k = true
      · simp [hc.1, hc.2, textOf_cons, String.append_assoc]
      · rw [if_neg hc]
        have : (decide (status s.box_mask p = .collecting) && x.ready p k) = false := by
          simpa using hc
        simp [this]
    · rw [hw2]
      rw [hw1]

/-! ## Building the mask -/

theorem box_bits_spec (b : String) (v : Nat) (h : box_bits b = some v) :
    v < 256 ∧ ∀ p : Panel, Nat.testBit v p.present = decide (p.box = b) ∧
      Nat.testBit v p.running = false := by
  unfold box_bits at h
  split_ifs at h with h1 h2 h3 h4
  all_goals
    simp only [Option.some.injEq] at h
    subst h
    first
      | subst h1
      | subst h2
      | subst h3
      | subst h4
    refine ⟨by decide, fun p => ?_⟩
    cases p <;> decide

theorem build_mask_ok (boxes : List String) (m0 : Nat) (hm0 : m0 < 256)
    (hvalid : ∀ b ∈ boxes, (box_bits b).isSome = true) :
    ∃ m, build_mask boxes m0 = some m ∧ m < 256 ∧
      ∀ p : Panel,
        bitset_test m p.present = (bitset_test m0 p.present || requested boxes p) ∧
        bitset_test m p.running = bitset_test m0 p.running := by
  induction boxes generalizing m0 with
  | nil => exact ⟨m0, rfl, hm0, fun p => by simp [requested]⟩
  | cons b rest ih =>
    obtain ⟨v, hv⟩ := Option.isSome_iff_exists.mp (hvalid b (List.mem_cons_self _ _))
    obtain ⟨hvlt, hvb⟩ := box_bits_spec b v hv
    have hlt : m0 ||| v < 256 := Nat.or_lt_two_pow (n := 8) (by simpa using hm0) (by simpa using hvlt)
    obtain ⟨m, hm, hmlt, hmb⟩ := ih (m0 ||| v) hlt
      (fun b' hb' => hvalid b' (List.mem_cons_of_mem _ hb'))
    refine ⟨m, by simp [build_mask, hv, hm], hmlt, fun p => ?_⟩
    obtain ⟨h1, h2⟩ := hmb p
    obtain ⟨h3, h4⟩ := hvb p
    constructor
    · rw [h1]
      simp only [bitset_test, Nat.testBit_or, h3, requested, List.mem_cons]
      by_cases hpb : p.box = b <;> simp [hpb]
    · rw [h2]
      simp only [bitset_test, Nat.testBit_or, h4, Bool.or_false]

/-! ## The scheduling loop when nothing raises and `stopping` stays clear -/

theorem observe_eq (wr : Option Bool) (w : World) (h : wr ≠ some true)
    (hs : w.stopping = false) : observe wr w = w := by
  cases wr with
  | none => rfl
  | some b =>
    cases b with
    | true => exact absurd rfl h
    | false =>
      cases w
      simp_all [observe]

theorem status_zero (p : Panel) : status 0 p = .absent := by
  cases p <;> decide

theorem mask_zero_of_absent (m : Nat) (hm : m < 256)
    (h : ∀ p : Panel, status m p = .absent) : m = 0 := by
  have hb : ∀ p : Panel, bitset_test m p.present = false ∧ bitset_test m p.running = false :=
    fun p => (status_bits m p).1.mp (h p)
  apply Nat.eq_of_testBit_eq
  intro i
  simp only [Nat.zero_testBit]
  by_cases hi : i < 8
  · have h0 := hb .proc
    have h1 := hb .mem
    have h2 := hb .net
    have h3 := hb .cpu
    simp only [bitset_test, Panel.present, Panel.running, proc_present, proc_running,
      mem_present, mem_running, net_present, net_running, cpu_present, cpu_running]
      at h0 h1 h2 h3
    interval_cases i <;> simp_all
  · apply Nat.testBit_lt_two_pow
    calc m < 256 := hm
      _ = 2 ^ 8 := by norm_num
      _ ≤ 2 ^ i := Nat.pow_le_pow_right (by norm_num) (by omega)

theorem mem_order (p : Panel) : p ∈ Panel.order := by
  cases p <;> simp [Panel.order]

theorem order_nodup : Panel.order.Nodup := by decide

theorem le_foldr_max (l : List Nat) (a : Nat) (h : a ∈ l) : a ≤ l.foldr max 0 := by
  induction l with
  | nil => simp at h
  | cons b l ih =>
    simp only [List.foldr_cons, List.mem_cons] at *
    rcases h with h | h
    · subst h
      exact le_max_left _ _
    · exact le_trans (ih h) (le_max_right _ _)

theorem readyAt_le_lastPass (boxes : List String) (readyAt : Panel → Nat) (p : Panel)
    (h : requested boxes p = true) : readyAt p ≤ lastPass boxes readyAt := by
  apply le_foldr_max
  exact List.mem_map.mpr ⟨p, List.mem_filter.mpr ⟨mem_order p, h⟩, rfl⟩

theorem readyIn_eq_nil (boxes : List String) (readyAt : Panel → Nat) (j : Nat)
    (h : ∀ p, requested boxes p = true → readyAt p ≠ j) : readyIn boxes readyAt j = [] := by
  simp only [readyIn, List.filter_eq_nil_iff]
  intro p _
  simp only [Bool.and_eq_true, decide_eq_true_eq, not_and]
  exact h p

theorem flatMap_range'_nil (f : Nat → List Panel) (k n : Nat)
    (h : ∀ j, k ≤ j → f j = []) : (List.range' k n).flatMap f = [] := by
  induction n generalizing k with
  | zero => simp
  | succ n ih =>
    simp only [List.range'_succ, List.flatMap_cons, h k le_rfl, List.nil_append]
    exact ih (k + 1) (fun j hj => h j (by omega))


theorem expected_next {Info : Type} (x : Ext Info) (boxes : List String) (readyAt : Panel → Nat)
    (hready : ∀ p, requested boxes p = true → 1 ≤ readyAt p ∧ x.ready p (readyAt p) = true ∧
      ∀ k, 1 ≤ k → k < readyAt p → x.ready p k = false)
    (k : Nat) (p : Panel) :
    nextStatus (x.ready p k) (expected boxes readyAt k p) = expected boxes readyAt (k + 1) p := by
  unfold expected
  by_cases hr : requested boxes p = true
  · obtain ⟨h1, h2, h3⟩ := hready p hr
    simp only [hr, if_true]
    by_cases hk : k = 0
    · subst hk
      simp [nextStatus, h1]
    · simp only [hk, if_false, Nat.succ_ne_zero]
      by_cases hle : k ≤ readyAt p
      · simp only [hle, if_true, nextStatus]
        by_cases heq : k = readyAt p
        · subst heq
          simp [h2]
        · have hlt : k < readyAt p := lt_of_le_of_ne hle heq
          rw [h3 k (by omega) hlt]
          have : k + 1 ≤ readyAt p := hlt
          simp [this]
      · simp only [hle, if_false, nextStatus]
        have : ¬ k + 1 ≤ readyAt p := by omega
        simp [this]
  · simp [hr, nextStatus]

theorem collecting_ready_iff {Info : Type} (x : Ext Info) (boxes : List String)
    (readyAt : Panel → Nat)
    (hready : ∀ p, requested boxes p = true → 1 ≤ readyAt p ∧ x.ready p (readyAt p) = true ∧
      ∀ k, 1 ≤ k → k < readyAt p → x.ready p k = false)
    (k : Nat) (p : Panel) :
    (decide (expected boxes readyAt k p = .collecting) && x.ready p k) =
      (requested boxes p && decide (readyAt p = k)) := by
  unfold expected
  by_cases hr : requested boxes p = true
  · obtain ⟨h1, h2, h3⟩ := hready p hr
    simp only [hr, if_true, Bool.true_and]
    by_cases hk : k = 0
    · subst hk
      have : readyAt p ≠ 0 := by omega
      simp [this]
    · simp only [hk, if_false]
      by_cases hle : k ≤ readyAt p
      · by_cases heq : k = readyAt p
        · subst heq
          simp [h2]
        · have hlt : k < readyAt p := lt_of_le_of_ne hle heq
          rw [h3 k (by omega) hlt]
          simp [hle, Ne.symm heq]
      · have : readyAt p ≠ k := by omega
        simp [hle, this]
  · simp [hr]

theorem schedLoop_ok {Info : Type} (x : Ext Info) (e : Env) (conf : runner_conf)
    (readyAt : Panel → Nat)
    (hpass : ∀ k, e.atPass k ≠ some true)
    (hok : ∀ p, requested conf.boxes p = true → noFault x conf p)
    (hready : ∀ p, requested conf.boxes p = true →
      1 ≤ readyAt p ∧ x.ready p (readyAt p) = true ∧
      ∀ k, 1 ≤ k → k < readyAt p → x.ready p k = false)
    (fuel k : Nat) (s : LoopState Info) (ht : Tidy x conf s)
    (hst : ∀ p, status s.box_mask p = expected conf.boxes readyAt k p)
    (hstop : s.w.stopping = false)
    (hfuel : lastPass conf.boxes readyAt + 1 ≤ fuel + k) :
    ∃ s', schedLoop x e conf fuel k s = some s' ∧ s'.box_mask = 0 ∧
      s'.w.output = s.w.output ++ textOf x conf
        ((List.range' k (lastPass conf.boxes readyAt + 1 - k)).flatMap
          (readyIn conf.boxes readyAt)) ∧
      s'.w = { s.w with output := s'.w.output, events := s'.w.events } := by
  -- a block that is not absent bounds the pass number by the last pass
  have hbound : ∀ (k : Nat) (s : LoopState Info), Tidy x conf s →
      (∀ p, status s.box_mask p = expected conf.boxes readyAt k p) →
      s.box_mask ≠ 0 → k ≤ lastPass conf.boxes readyAt := by
    intro k s ht hst hne
    by_contra hcon
    apply hne
    apply mask_zero_of_absent _ ht.1
    intro p
    rw [hst p]
    unfold expected
    by_cases hr : requested conf.boxes p = true
    · have := readyAt_le_lastPass conf.boxes readyAt p hr
      have h0 : k ≠ 0 := by omega
      have h1 : ¬ k ≤ readyAt p := by omega
      simp [hr, h0, h1]
    · simp [hr]
  -- when the mask is empty nothing is left to append
  have hdone : ∀ (k : Nat) (s : LoopState Info),
      (∀ p, status s.box_mask p = expected conf.boxes readyAt k p) → s.box_mask = 0 →
      (List.range' k (lastPass conf.boxes readyAt + 1 - k)).flatMap
        (readyIn conf.boxes readyAt) = [] := by
    intro k s hst h0
    apply flatMap_range'_nil
    intro j hj
    apply readyIn_eq_nil
    intro p hr heq
    have hp := hst p
    rw [h0, status_zero] at hp
    obtain ⟨h1, _, _⟩ := hready p hr
    unfold expected at hp
    simp only [hr, if_true] at hp
    by_cases hk : k = 0
    · simp [hk] at hp
    · simp only [hk, if_false] at hp
      by_cases hle : k ≤ readyAt p
      · simp [hle] at hp
      · omega
  induction fuel generalizing k s with
  | zero =>
    by_cases h0 : s.box_mask = 0
    · refine ⟨s, by simp [schedLoop, h0], h0, ?_, rfl⟩
      rw [hdone k s hst h0, textOf_nil]
      simp
    · have := hbound k s ht hst h0
      omega
  | succ fuel ih =>
    by_cases h0 : s.box_mask = 0
    · refine ⟨s, by simp [schedLoop, h0], h0, ?_, rfl⟩
      rw [hdone k s hst h0, textOf_nil]
      simp
    · have hk := hbound k s ht hst h0
      have hobs : observe (e.atPass k) s.w = s.w := observe_eq _ _ (hpass k) hstop
      obtain ⟨s1, h1, ht1, hs1, hout1, hw1⟩ :=
        passBody_ok x conf k Panel.order order_nodup s ht (by
          intro p _ hp _
          apply hok p
          have := hst p
          unfold expected at this
          by_contra hr
          simp only [hr] at this
          rw [hp] at this
          simp at this)
      have hst1 : ∀ p, status s1.box_mask p = expected conf.boxes readyAt (k + 1) p := by
        intro p
        rw [hs1 p, if_pos (mem_order p), hst p]
        exact expected_next x conf.boxes readyAt hready k p
      have hstop1 : s1.w.stopping = false := by rw [hw1]; exact hstop
      obtain ⟨s', h2, hm2, hout2, hw2⟩ := ih (k + 1) s1 ht1 hst1 hstop1 (by omega)
      refine ⟨s', ?_, hm2, ?_, ?_⟩
      · simp only [schedLoop, h0, if_false, hobs, hstop]
        have : ({ s with w := s.w } : LoopState Info) = s := rfl
        simp only [this, h1]
        exact h2
      · rw [hout2, hout1]
        have hfil : Panel.order.filter
            (fun p => decide (status s.box_mask p = .collecting) && x.ready p k)
            = readyIn conf.boxes readyAt k := by
          unfold readyIn
          apply List.filter_congr
          intro p _
          rw [hst p]
          exact collecting_ready_iff x conf.boxes readyAt hready k p
        have hlen : lastPass conf.boxes readyAt + 1 - k
            = (lastPass conf.boxes readyAt + 1 - (k + 1)) + 1 := by omega
        rw [hfil, hlen, List.range'_succ, List.flatMap_cons, textOf_append, String.append_assoc]
      · rw [hw2]
        rw [hw1]

theorem flatMap_filter_sorted (l : List Panel) (r : Panel → Bool) (t : Panel → Nat) (K : Nat)
    (hK : ∀ p ∈ l, r p = true → t p ≤ K)
    (hs : l.Pairwise (fun a b => r a = true → r b = true → t a ≤ t b)) :
    (List.range' 0 (K + 1)).flatMap (fun k => l.filter (fun p => r p && decide (t p = k)))
      = l.filter r := by
  induction l with
  | nil =>
    simp
  | cons a l ih =>
    obtain ⟨ha, hl⟩ := List.pairwise_cons.mp hs
    have ih' := ih (fun p hp => hK p (List.mem_cons_of_mem _ hp)) hl
    by_cases hra : r a = true
    · have hta : t a ≤ K := hK a (List.mem_cons_self _ _) hra
      -- split the passes at the one in which `a` becomes ready
      have hsplit : List.range' 0 (K + 1)
          = List.range' 0 (t a) ++ (t a :: List.range' (t a + 1) (K - t a)) := by
        have h1 : K + 1 = (K - t a + 1) + t a := by omega
        rw [h1, ← List.range'_append 0 (t a) (K - t a + 1) 1]
        simp [List.range'_succ]
      have hbefore : ∀ k ∈ List.range' 0 (t a),
          l.filter (fun p => r p && decide (t p = k)) = [] := by
        intro k hk
        have hk' : k < t a := by
          have := List.mem_range'_1.mp hk
          omega
        rw [List.filter_eq_nil_iff]
        intro p hp
        simp only [Bool.and_eq_true, decide_eq_true_eq, not_and]
        intro hrp
        have := ha p hp hra hrp
        omega
      rw [List.filter_cons, if_pos hra, ← ih', hsplit]
      simp only [List.flatMap_append, List.flatMap_cons]
      have e1 : (List.range' 0 (t a)).flatMap
          (fun k => (a :: l).filter (fun p => r p && decide (t p = k))) = [] := by
        rw [List.flatMap_eq_nil_iff]
        intro k hk
        have hk' : t a ≠ k := by
          have := List.mem_range'_1.mp hk
          omega
        rw [List.filter_cons]
        simp [hk', hbefore k hk]
      have e2 : (List.range' 0 (t a)).flatMap
          (fun k => l.filter (fun p => r p && decide (t p = k))) = [] := by
        rw [List.flatMap_eq_nil_iff]
        exact hbefore
      have e3 : (List.range' (t a + 1) (K - t a)).flatMap
          (fun k => (a :: l).filter (fun p => r p && decide (t p = k)))
          = (List.range' (t a + 1) (K - t a)).flatMap
          (fun k => l.filter (fun p => r p && decide (t p = k))) := by
        apply List.flatMap_congr
        intro k hk
        have hk' : t a ≠ k := by
          have := List.mem_range'_1.mp hk
          omega
        rw [List.filter_cons]
        simp [hk']
      rw [e1, e2, e3, List.filter_cons]
      simp [hra]
    · have hfa : ∀ k, (a :: l).filter (fun p => r p && decide (t p = k))
          = l.filter (fun p => r p && decide (t p = k)) := by
        intro k
        rw [List.filter_cons]
        simp [hra]
      simp only [hfa, ih', List.filter_cons, hra]
      simp

theorem renderOrder_eq_fixedOrder (boxes : List String) (readyAt : Panel → Nat)
    (hmono : Panel.order.Pairwise
      (fun a b => requested boxes a = true → requested boxes b = true → readyAt a ≤ readyAt b)) :
    renderOrder boxes readyAt = fixedOrder boxes := by
  unfold renderOrder fixedOrder readyIn
  rw [List.range_eq_range']
  exact flatMap_filter_sorted Panel.order (requested boxes) readyAt _
    (fun p _ hp => readyAt_le_lastPass boxes readyAt p hp) hmono

/-! ## C1: the order of the composed output -/

/-- C1 (amended): for every box list over proc, mem, net, cpu and every assignment
`readyAt` of the pass in which each requested future first reports ready, a run that
passes the entry check, in which no collector or renderer raises and `stopping` is never
raised, finishes (any fuel of at least the last ready pass plus one is enough) with the
output buffer equal to the concatenation of the rendered texts in the order in which the
futures report ready: pass by pass, and within one pass in the order proc, mem, net, cpu.
When no requested block becomes ready in an earlier pass than a block before it in that
order, this is the fixed-order concatenation restricted to the requested set.  The frame
and the debug line are then written to `cout`, and `active` is cleared. -/
theorem runner_output_in_ready_order {Info : Type} (x : Ext Info) (e : Env)
    (conf : runner_conf) (w : World) (readyAt : Panel → Nat) (fuel : Nat)
    (hboxes : ∀ b ∈ conf.boxes, (box_bits b).isSome = true)
    (hflags : w.active = false ∧ w.stopping = false ∧ w.resized = false)
    (hentry : e.atEntry ≠ some true) (hpass : ∀ k, e.atPass k ≠ some true)
    (hfinal : e.atFinal ≠ some true)
    (hok : ∀ p, requested conf.boxes p = true → noFault x conf p)
    (hready : ∀ p, requested conf.boxes p = true →
      1 ≤ readyAt p ∧ x.ready p (readyAt p) = true ∧
      ∀ k, 1 ≤ k → k < readyAt p → x.ready p k = false)
    (hfuel : lastPass conf.boxes readyAt + 1 ≤ fuel) :
    ∃ w', _runner x e 0 conf fuel w = some (.exited w') ∧
      w'.output = textOf x conf (renderOrder conf.boxes readyAt) ∧
      (Panel.order.Pairwise (fun a b => requested conf.boxes a = true →
          requested conf.boxes b = true → readyAt a ≤ readyAt b) →
        w'.output = textOf x conf (fixedOrder conf.boxes)) ∧
      w' = { writeFrame x conf { w with output := w'.output, events := w'.events } with
             active := false } := by
  obtain ⟨hact, hstp, hrsz⟩ := hflags
  obtain ⟨m, hm, hmlt, hmb⟩ := build_mask_ok conf.boxes 0 (by norm_num) hboxes
  have hobs : observe e.atEntry w = w := observe_eq _ _ hentry hstp
  have hbit0 : ∀ i, bitset_test 0 i = false := fun i => by simp [bitset_test]
  have hst0 : ∀ p, status m p = expected conf.boxes readyAt 0 p := by
    intro p
    obtain ⟨h1, h2⟩ := hmb p
    rw [hbit0, Bool.false_or] at h1
    rw [hbit0] at h2
    unfold expected
    by_cases hr : requested conf.boxes p = true
    · rw [hr] at h1
      simp only [hr, if_true]
      exact (status_bits m p).2.1.mpr ⟨h1, h2⟩
    · simp only [hr]
      have hr' : requested conf.boxes p = false := by simpa using hr
      rw [hr'] at h1
      exact (status_bits m p).1.mpr ⟨h1, h2⟩
  have ht0 : Tidy x conf (loopEntry w m : LoopState Info) := by
    refine ⟨hmlt, fun p => ?_⟩
    show status m p ≠ .invalid ∧ (status m p = .collecting → _)
    rw [hst0 p]
    unfold expected
    by_cases hr : requested conf.boxes p = true <;> simp [hr]
  obtain ⟨s', hloop, hzero, hout, hw⟩ :=
    schedLoop_ok x e conf readyAt hpass hok hready fuel 0 (loopEntry w m) ht0 hst0 hstp
      (by omega)
  have hstp' : s'.w.stopping = false := by rw [hw]; exact hstp
  have hobs' : observe e.atFinal s'.w = s'.w := observe_eq _ _ hfinal hstp'
  have houtput : s'.w.output = textOf x conf (renderOrder conf.boxes readyAt) := by
    rw [hout]
    simp only [Nat.sub_zero, renderOrder, List.range_eq_range', loopEntry]
    simp
  refine ⟨{ writeFrame x conf s'.w with active := false }, ?_, houtput, ?_, ?_⟩
  · have hlf : lockFault 0 w = w := by simp [lockFault]
    unfold _runner
    simp only [hlf, hobs, hact, hstp, hrsz, Bool.or_self, hm, hloop, Option.map_some',
      afterLoop, hobs', hstp']
    simp
  · intro hmono
    show s'.w.output = _
    rw [houtput, renderOrder_eq_fixedOrder conf.boxes readyAt hmono]
  · rw [hw]
    simp [writeFrame, loopEntry]


/-- C1, counterexample: boxes = [cpu, mem] with the cpu future ready in pass 1 and the mem
future in pass 2.  The run ends without a fault and without `stopping`, writes the frame,
and the output buffer holds the Cpu text before the Mem text, while the fixed order
proc, mem, net, cpu restricted to the request gives the Mem text before the Cpu text. -/
theorem output_follows_completion_order :
    (_runner (sampleExt cpuFirst) Env.quiet 0 (sampleConf ["cpu", "mem"]) 3 World.init).map
        (fun o => (o.world.output, o.world.stopping, o.world.thread_exception, o.world.cout))
      = some ("CpuMem", false, false, "<CpuMem>") ∧
    textOf (sampleExt cpuFirst) (sampleConf ["cpu", "mem"]) (fixedOrder ["cpu", "mem"])
      = "MemCpu" ∧
    (_runner (sampleExt cpuFirst) Env.quiet 0 (sampleConf ["cpu", "mem"]) 3 World.init).map
        (fun o => o.world.output)
      ≠ some (textOf (sampleExt cpuFirst) (sampleConf ["cpu", "mem"])
          (fixedOrder ["cpu", "mem"])) := by
  decide

/-- C1, witness: boxes = [cpu, mem] with mem ready in pass 1 and cpu in pass 2 gives the
Mem text followed by the Cpu text. -/
theorem runner_output_in_ready_order_witness :
    ∃ w', _runner (sampleExt memFirst) Env.quiet 0 (sampleConf ["cpu", "mem"]) 3 World.init
        = some (.exited w') ∧
      w'.output = textOf (sampleExt memFirst) (sampleConf ["cpu", "mem"])
        (renderOrder ["cpu", "mem"] memFirst) ∧
      textOf (sampleExt memFirst) (sampleConf ["cpu", "mem"])
        (renderOrder ["cpu", "mem"] memFirst) = "MemCpu" := by
  obtain ⟨w', h1, h2, _, _⟩ :=
    runner_output_in_ready_order (sampleExt memFirst) Env.quiet (sampleConf ["cpu", "mem"])
      World.init memFirst 3
      (by decide) (by decide) (by decide) (by intro k; simp [Env.quiet]) (by decide)
      (by intro p _; exact ⟨(), p.ns, rfl, rfl⟩)
      (by
        intro p _
        refine ⟨by cases p <;> decide, by simp [sampleExt], ?_⟩
        intro k _ hk
        simp only [sampleExt, decide_eq_false_iff_not, not_le]
        exact hk)
      (by decide)
  exact ⟨w', h1, h2, by decide⟩

/-! ## C4: a block raises -/

theorem order_split (p : Panel) : Panel.order = p.before ++ p :: p.after := by
  cases p <;> rfl

theorem not_mem_before (p : Panel) : p ∉ p.before := by
  cases p <;> decide

theorem before_nodup (p : Panel) : p.before.Nodup := by
  cases p <;> decide

theorem passBody_append {Info : Type} (x : Ext Info) (conf : runner_conf) (k : Nat)
    (l1 l2 : List Panel) (s : LoopState Info) :
    passBody x conf k (l1 ++ l2) s =
      match passBody x conf k l1 s with
      | (s1, some msg) => (s1, some msg)
      | (s1, none) => passBody x conf k l2 s1 := by
  induction l1 generalizing s with
  | nil => simp [passBody]
  | cons a l ih =>
    simp only [List.cons_append, passBody]
    rcases h : panelStep x conf k a s with ⟨s1, _ | msg⟩
    · exact ih s1
    · simp

theorem panelStep_collect_error {Info : Type} (x : Ext Info) (conf : runner_conf) (k : Nat)
    (p : Panel) (s : LoopState Info) (what : String)
    (h1 : bitset_test s.box_mask p.present = true)
    (h2 : bitset_test s.box_mask p.running = true)
    (hf : s.fut p = some (.error what)) (hr : x.ready p k = true) :
    panelStep x conf k p s =
      ({ s with fut := Function.update s.fut p none }, some (p.ns ++ ":: -> " ++ what)) := by
  simp [panelStep, h1, h2, hf, hr]

theorem panelStep_draw_error {Info : Type} (x : Ext Info) (conf : runner_conf) (k : Nat)
    (p : Panel) (s : LoopState Info) (info : Info) (what : String)
    (h1 : bitset_test s.box_mask p.present = true)
    (h2 : bitset_test s.box_mask p.running = true)
    (hf : s.fut p = some (.ok info)) (hr : x.ready p k = true)
    (hd : x.draw p info conf.force_redraw conf.no_update = .error what) :
    panelStep x conf k p s =
      ({ s with
          fut := Function.update s.fut p none,
          w := { s.w with
            events := s.w.events ++ [Event.draw p.ns conf.force_redraw conf.no_update] } },
        some (p.ns ++ ":: -> " ++ what)) := by
  simp [panelStep, h1, h2, hf, hr, hd]

theorem panelStep_fault {Info : Type} (x : Ext Info) (conf : runner_conf) (k : Nat) (p : Panel)
    (s : LoopState Info) (ht : Tidy x conf s) (what : String)
    (hst : status s.box_mask p = .collecting) (hr : x.ready p k = true)
    (hbad : raises x conf p what) :
    ∃ s1, panelStep x conf k p s = (s1, some (p.ns ++ ":: -> " ++ what)) ∧
      s1.w = { s.w with events := s1.w.events } := by
  obtain ⟨h1, h2⟩ := (status_bits s.box_mask p).2.2.mp hst
  have hf := (ht.2 p).2 hst
  rcases hbad with hc | ⟨info, hc, hd⟩
  · rw [hc] at hf
    exact ⟨_, panelStep_collect_error x conf k p s what h1 h2 hf hr, rfl⟩
  · rw [hc] at hf
    exact ⟨_, panelStep_draw_error x conf k p s info what h1 h2 hf hr hd, rfl⟩

theorem passBody_fault {Info : Type} (x : Ext Info) (conf : runner_conf) (k : Nat) (p : Panel)
    (s : LoopState Info) (ht : Tidy x conf s) (what : String)
    (hst : status s.box_mask p = .collecting) (hr : x.ready p k = true)
    (hbad : raises x conf p what)
    (hok : ∀ q ∈ p.before, status s.box_mask q = .collecting → x.ready q k = true →
      noFault x conf q) :
    ∃ s1, passBody x conf k Panel.order s = (s1, some (p.ns ++ ":: -> " ++ what)) ∧
      s1.w = { s.w with output := s1.w.output, events := s1.w.events } := by
  obtain ⟨sm, hm, htm, hsm, _, hwm⟩ := passBody_ok x conf k p.before (before_nodup p) s ht hok
  have hstm : status sm.box_mask p = .collecting := by
    rw [hsm p, if_neg (not_mem_before p)]
    exact hst
  obtain ⟨s1, h1, hw1⟩ := panelStep_fault x conf k p sm htm what hstm hr hbad
  refine ⟨s1, ?_, ?_⟩
  · rw [order_split p, passBody_append, hm]
    simp only [passBody, h1]
  · rw [hw1]
    rw [hwm]


theorem observe_fields (wr : Option Bool) (w : World) :
    (observe wr w).cout = w.cout ∧ (observe wr w).thread_exception = w.thread_exception ∧
    (observe wr w).interrupt = w.interrupt ∧
    (observe wr w).exit_error_msg = w.exit_error_msg ∧
    (observe wr w).output = w.output ∧ (observe wr w).events = w.events ∧
    (observe wr w).active = w.active ∧ (observe wr w).resized = w.resized := by
  cases wr <;> simp [observe]

theorem observe_stopping (wr : Option Bool) (w : World) :
    (observe wr w).stopping = (match wr with | some b => b | none => w.stopping) := by
  cases wr <;> rfl

theorem schedLoop_fault {Info : Type} (x : Ext Info) (e : Env) (conf : runner_conf)
    (p : Panel) (what : String) (kf : Nat)
    (hkf : 1 ≤ kf)
    (hpass : ∀ k, k ≤ kf → e.atPass k ≠ some true)
    (hrp : x.ready p kf = true)
    (hnr : ∀ k, 1 ≤ k → k < kf → x.ready p k = false)
    (hbad : raises x conf p what)
    (hfirst : ∀ q k, requested conf.boxes q = true → q ≠ p → x.ready q k = true →
      (k < kf ∨ (k = kf ∧ q ∈ p.before)) → noFault x conf q)
    (fuel k : Nat) (s : LoopState Info) (ht : Tidy x conf s)
    (hsp : status s.box_mask p = if k = 0 then .pending else .collecting)
    (hreq : ∀ q, requested conf.boxes q = false → status s.box_mask q = .absent)
    (hstop : s.w.stopping = false) (hk : k ≤ kf) (hfuel : kf + 1 ≤ fuel + k) :
    ∃ s' out ev, schedLoop x e conf fuel k s = some s' ∧
      s'.w = catchFault (p.ns ++ ":: -> " ++ what) { s.w with output := out, events := ev } := by
  induction fuel generalizing k s with
  | zero => omega
  | succ fuel ih =>
    have h0 : s.box_mask ≠ 0 := by
      intro h0
      rw [h0, status_zero] at hsp
      split at hsp <;> cases hsp
    have hobs : observe (e.atPass k) s.w = s.w := observe_eq _ _ (hpass k hk) hstop
    have hself : ({ s with w := s.w } : LoopState Info) = s := rfl
    -- a block that is polled ready in this pass and is not the failing one is sound
    have hothers : ∀ q, q ≠ p → status s.box_mask q = .collecting → x.ready q k = true →
        (k < kf ∨ (k = kf ∧ q ∈ p.before)) → noFault x conf q := by
      intro q hqp hqs hqr hlt
      apply hfirst q k _ hqp hqr hlt
      by_contra hr
      have := hreq q (by simpa using hr)
      rw [this] at hqs
      cases hqs
    by_cases hlt : k < kf
    · obtain ⟨s1, h1, ht1, hs1, _, hw1⟩ :=
        passBody_ok x conf k Panel.order order_nodup s ht (by
          intro q _ hqs hqr
          by_cases hqp : q = p
          · subst hqp
            rw [hsp] at hqs
            by_cases hk0 : k = 0
            · simp [hk0] at hqs
            · rw [hnr k (by omega) hlt] at hqr
              cases hqr
          · exact hothers q hqp hqs hqr (Or.inl hlt))
      have hsp1 : status s1.box_mask p = if k + 1 = 0 then .pending else .collecting := by
        rw [hs1 p, if_pos (mem_order p), hsp]
        by_cases hk0 : k = 0
        · simp [hk0, nextStatus]
        · simp [hk0, nextStatus, hnr k (by omega) hlt]
      have hreq1 : ∀ q, requested conf.boxes q = false → status s1.box_mask q = .absent := by
        intro q hq
        rw [hs1 q, if_pos (mem_order q), hreq q hq]
        rfl
      have hstop1 : s1.w.stopping = false := by rw [hw1]; exact hstop
      obtain ⟨s', out, ev, h2, hw2⟩ :=
        ih (k + 1) s1 ht1 hsp1 hreq1 hstop1 (by omega) (by omega)
      refine ⟨s', out, ev, ?_, ?_⟩
      · simp only [schedLoop, h0, if_false, hobs, hstop, hself, h1]
        exact h2
      · rw [hw2]
        rw [hw1]
    · have hkeq : k = kf := by omega
      subst hkeq
      have hk0 : k ≠ 0 := by omega
      simp only [hk0, if_false] at hsp
      obtain ⟨s1, h1, hw1⟩ := passBody_fault x conf k p s ht what hsp hrp hbad (by
        intro q hq hqs hqr
        have hqp : q ≠ p := by
          rintro rfl
          exact not_mem_before q hq
        exact hothers q hqp hqs hqr (Or.inr ⟨rfl, hq⟩))
      refine ⟨{ s1 with w := catchFault (p.ns ++ ":: -> " ++ what) s1.w },
        s1.w.output, s1.w.events, ?_, ?_⟩
      · simp only [schedLoop, h0, if_false, hobs, hstop, hself, h1]
        simp
      · show catchFault _ s1.w = _
        rw [hw1]


theorem isInfix_message (tag what : String) :
    tag.toList <:+: ("Exception in runner thread -> " ++ (tag ++ ":: -> " ++ what)).toList := by
  refine ⟨"Exception in runner thread -> ".toList, (":: -> " ++ what).toList, ?_⟩
  simp [String.toList, String.data_append, List.append_assoc]

/-- C4 (amended): in a run that passes the entry check, let block `p` be requested, let
its collector or its renderer raise with message `what`, let its future first report
ready in pass `kf`, let every other requested block polled ready before it (in an earlier
pass, or earlier in pass `kf`) be sound, and let the foreground not raise `stopping` up to
pass `kf`.  Then the worker ends (fuel `kf + 1` is enough) with the fault flag, the input
interrupt and `stopping` set, and with `Global::exit_error_msg` equal to
"Exception in runner thread -> " followed by the namespace of the block ("Proc", "Mem",
"Net", "Cpu"), ":: -> " and `what`; the namespace occurs in the message.  Nothing is written
to `cout`, provided `stopping` is not cleared before the check after the loop. -/
theorem runner_fault_recorded {Info : Type} (x : Ext Info) (e : Env) (conf : runner_conf)
    (w : World) (p : Panel) (what : String) (kf fuel : Nat)
    (hboxes : ∀ b ∈ conf.boxes, (box_bits b).isSome = true)
    (hflags : w.active = false ∧ w.stopping = false ∧ w.resized = false)
    (hentry : e.atEntry ≠ some true)
    (hpass : ∀ k, k ≤ kf → e.atPass k ≠ some true)
    (hfinal : e.atFinal ≠ some false)
    (hp : requested conf.boxes p = true)
    (hkf : 1 ≤ kf)
    (hrp : x.ready p kf = true)
    (hnr : ∀ k, 1 ≤ k → k < kf → x.ready p k = false)
    (hbad : raises x conf p what)
    (hfirst : ∀ q k, requested conf.boxes q = true → q ≠ p → x.ready q k = true →
      (k < kf ∨ (k = kf ∧ q ∈ p.before)) → noFault x conf q)
    (hfuel : kf + 1 ≤ fuel) :
    ∃ w', _runner x e 0 conf fuel w = some (.exited w') ∧
      w'.cout = w.cout ∧
      w'.thread_exception = true ∧ w'.interrupt = true ∧ w'.stopping = true ∧
      w'.exit_error_msg = "Exception in runner thread -> " ++ (p.ns ++ ":: -> " ++ what) ∧
      p.ns.toList <:+: w'.exit_error_msg.toList ∧
      w'.active = false := by
  obtain ⟨hact, hstp, hrsz⟩ := hflags
  obtain ⟨m, hm, hmlt, hmb⟩ := build_mask_ok conf.boxes 0 (by norm_num) hboxes
  have hobs : observe e.atEntry w = w := observe_eq _ _ hentry hstp
  have hbit0 : ∀ i, bitset_test 0 i = false := fun i => by simp [bitset_test]
  have hst0 : ∀ q, status m q = if requested conf.boxes q = true then .pending else .absent := by
    intro q
    obtain ⟨h1, h2⟩ := hmb q
    rw [hbit0, Bool.false_or] at h1
    rw [hbit0] at h2
    by_cases hr : requested conf.boxes q = true
    · rw [hr] at h1
      simp only [hr, if_true]
      exact (status_bits m q).2.1.mpr ⟨h1, h2⟩
    · simp only [hr]
      have hr' : requested conf.boxes q = false := by simpa using hr
      rw [hr'] at h1
      exact (status_bits m q).1.mpr ⟨h1, h2⟩
  have ht0 : Tidy x conf (loopEntry w m : LoopState Info) := by
    refine ⟨hmlt, fun q => ?_⟩
    show status m q ≠ .invalid ∧ (status m q = .collecting → _)
    rw [hst0 q]
    by_cases hr : requested conf.boxes q = true <;> simp [hr]
  obtain ⟨s', out, ev, hloop, hw⟩ :=
    schedLoop_fault x e conf p what kf hkf hpass hrp hnr hbad hfirst fuel 0 (loopEntry w m) ht0
      (by show status m p = _; rw [hst0 p]; simp [hp])
      (by intro q hq; show status m q = _; rw [hst0 q]; simp [hq])
      hstp (by omega) (by omega)
  have hstp' : (observe e.atFinal s'.w).stopping = true := by
    rw [observe_stopping, hw]
    rcases hf : e.atFinal with _ | b
    · rfl
    · cases b
      · exact absurd hf hfinal
      · rfl
  obtain ⟨hc, hte, hin, hmsg, _, _, _, _⟩ := observe_fields e.atFinal s'.w
  have hlf : lockFault 0 w = w := by simp [lockFault]
  refine ⟨{ observe e.atFinal s'.w with active := Tools.atomic_lock_clear }, ?_, ?_, ?_, ?_,
    hstp', ?_, ?_, rfl⟩
  · unfold _runner
    simp only [hlf, hobs, hact, hstp, hrsz, Bool.or_self, hm, hloop, Option.map_some',
      afterLoop, hstp']
    simp
  · show (observe e.atFinal s'.w).cout = _
    rw [hc, hw]
    rfl
  · show (observe e.atFinal s'.w).thread_exception = _
    rw [hte, hw]
    rfl
  · show (observe e.atFinal s'.w).interrupt = _
    rw [hin, hw]
    rfl
  · show (observe e.atFinal s'.w).exit_error_msg = _
    rw [hmsg, hw]
    rfl
  · show _ <:+: (observe e.atFinal s'.w).exit_error_msg.toList
    rw [hmsg, hw]
    exact isInfix_message p.ns what


/-- C4, counterexample: boxes = [proc, cpu] and `Proc::collect` raises "boom".  Nothing is
written and the three flags are set, but the recorded message is
"Exception in runner thread -> Proc:: -> boom", in which the string "proc" does not occur. -/
theorem fault_message_lacks_box_name :
    (_runner procFails Env.quiet 0 (sampleConf ["proc", "cpu"]) 3 World.init).map
        (fun o => (o.world.cout, o.world.thread_exception, o.world.interrupt,
          o.world.stopping, o.world.exit_error_msg))
      = some ("", true, true, true, "Exception in runner thread -> Proc:: -> boom") ∧
    ¬ ("proc".toList <:+: "Exception in runner thread -> Proc:: -> boom".toList) := by
  decide

/-- C4, witness: the scenario boxes = [proc, cpu] with a failing `Proc::collect`. -/
theorem runner_fault_recorded_witness :
    ∃ w', _runner procFails Env.quiet 0 (sampleConf ["proc", "cpu"]) 3 World.init
        = some (.exited w') ∧
      w'.cout = "" ∧ w'.thread_exception = true ∧ w'.interrupt = true ∧
      w'.stopping = true ∧
      w'.exit_error_msg = "Exception in runner thread -> Proc:: -> boom" := by
  obtain ⟨w', h1, h2, h3, h4, h5, h6, _, _⟩ :=
    runner_fault_recorded procFails Env.quiet (sampleConf ["proc", "cpu"]) World.init
      .proc "boom" 1 3
      (by decide) (by decide) (by decide) (by intro k _; simp [Env.quiet]) (by decide)
      (by decide) (by decide) (by decide) (by intro k h1 h2; omega) (Or.inl rfl)
      (by
        intro q k _ hq _ _
        exact ⟨(), q.ns, by simp [procFails, hq], rfl⟩)
      (by decide)
  exact ⟨w', h1, h2, h3, h4, h5, h6⟩

/-! ## C5: the checks of `stopping` -/

theorem panelStep_frame {Info : Type} (x : Ext Info) (conf : runner_conf) (k : Nat) (p : Panel)
    (s : LoopState Info) :
    (panelStep x conf k p s).1.w =
      { s.w with output := (panelStep x conf k p s).1.w.output,
                 events := (panelStep x conf k p s).1.w.events } := by
  unfold panelStep
  split
  · split
    · rfl
    · split
      · rfl
      · split
        · split
          · rfl
          · split <;> rfl
        · rfl
  · rfl

theorem passBody_frame {Info : Type} (x : Ext Info) (conf : runner_conf) (k : Nat)
    (ps : List Panel) (s : LoopState Info) :
    (passBody x conf k ps s).1.w =
      { s.w with output := (passBody x conf k ps s).1.w.output,
                 events := (passBody x conf k ps s).1.w.events } := by
  induction ps generalizing s with
  | nil => rfl
  | cons p ps ih =>
    have hp := panelStep_frame x conf k p s
    simp only [passBody]
    rcases h : panelStep x conf k p s with ⟨s1, _ | msg⟩
    · rw [h] at hp
      simp only at hp ⊢
      rw [ih s1]
      rw [hp]
    · rw [h] at hp
      exact hp

theorem schedLoop_exit {Info : Type} (x : Ext Info) (e : Env) (conf : runner_conf)
    (fuel k : Nat) (s s' : LoopState Info) (h : schedLoop x e conf fuel k s = some s') :
    (s'.box_mask = 0 ∨ s'.w.stopping = true) ∧ s'.w.cout = s.w.cout := by
  induction fuel generalizing k s with
  | zero =>
    simp only [schedLoop] at h
    split at h
    · rename_i h0
      simp only [Option.some.injEq] at h
      subst h
      exact ⟨Or.inl h0, rfl⟩
    · simp at h
  | succ fuel ih =>
    simp only [schedLoop] at h
    split at h
    · rename_i h0
      simp only [Option.some.injEq] at h
      subst h
      exact ⟨Or.inl h0, rfl⟩
    · split at h
      · rename_i hst
        simp only [Option.some.injEq] at h
        subst h
        exact ⟨Or.inr hst, (observe_fields _ _).1⟩
      · have hf := passBody_frame x conf k Panel.order
          { s with w := observe (e.atPass k) s.w }
        split at h
        · rename_i s1 msg h1
          simp only [Option.some.injEq] at h
          subst h
          rw [h1] at hf
          refine ⟨Or.inr rfl, ?_⟩
          show s1.w.cout = _
          rw [hf]
          exact (observe_fields _ _).1
        · rename_i s1 h1
          rw [h1] at hf
          obtain ⟨ha, hb⟩ := ih (k + 1) s1 h
          refine ⟨ha, ?_⟩
          rw [hb, hf]
          exact (observe_fields _ _).1


/-- What the two checks of `stopping` (lines 351 and 439) give, for every loop state,
whatever has been rendered so far: a worker that has read `stopping` as true does not
write in any run in which `stopping` is not cleared between the two checks.  If the worker
reads `stopping` as true at the check at the start of a pass, it leaves the loop at once,
with mask, futures and output buffer as they were, and if `stopping` is not cleared before
the check after the loop it exits without writing.  If it reads `stopping` as true at the
check after the loop it exits without writing.  The loop never writes to `cout` and is
left only with every requested block done or with `stopping` set.  The terminal is written
only when `stopping` was read false at the check after the loop, and then, unless the
foreground cleared the flag just before that check, every requested block is done. -/
theorem stopping_checks {Info : Type} (x : Ext Info) (e : Env) (conf : runner_conf) :
    -- the check at the start of a pass
    (∀ (fuel k : Nat) (s : LoopState Info), s.box_mask ≠ 0 →
      (observe (e.atPass k) s.w).stopping = true →
      schedLoop x e conf (fuel + 1) k s = some { s with w := observe (e.atPass k) s.w } ∧
      (e.atFinal ≠ some false →
        (afterLoop x e conf { s with w := observe (e.atPass k) s.w }).world.cout = s.w.cout)) ∧
    -- the check after the loop
    (∀ s : LoopState Info, (observe e.atFinal s.w).stopping = true →
      (afterLoop x e conf s).world.cout = s.w.cout) ∧
    (∀ s : LoopState Info, (afterLoop x e conf s).world.cout ≠ s.w.cout →
      (observe e.atFinal s.w).stopping = false ∧
      (afterLoop x e conf s).world.stopping = false) ∧
    -- how the loop is left
    (∀ (fuel k : Nat) (s s' : LoopState Info), schedLoop x e conf fuel k s = some s' →
      (s'.box_mask = 0 ∨ s'.w.stopping = true) ∧ s'.w.cout = s.w.cout) ∧
    -- the whole run
    (∀ (status fuel : Nat) (w : World) (out : Outcome),
      _runner x e status conf fuel w = some out → out.world.cout ≠ w.cout →
      out.world.stopping = false ∧
      (e.atFinal ≠ some false →
        ∃ m s', build_mask conf.boxes 0 = some m ∧
          schedLoop x e conf fuel 0 (loopEntry (observe e.atEntry (lockFault status w)) m)
            = some s' ∧
          s'.box_mask = 0)) := by
  have hfinal : ∀ s : LoopState Info, (observe e.atFinal s.w).stopping = true →
      (afterLoop x e conf s).world.cout = s.w.cout := by
    intro s hs
    simp only [afterLoop, hs, if_true, Outcome.world]
    exact (observe_fields _ _).1
  have hwritten : ∀ s : LoopState Info, (afterLoop x e conf s).world.cout ≠ s.w.cout →
      (observe e.atFinal s.w).stopping = false ∧
      (afterLoop x e conf s).world.stopping = false := by
    intro s hne
    cases hs : (observe e.atFinal s.w).stopping
    · refine ⟨rfl, ?_⟩
      simp only [afterLoop, hs, Outcome.world]
      simp [writeFrame, hs]
    · exact absurd (hfinal s hs) hne
  refine ⟨?_, hfinal, hwritten, schedLoop_exit x e conf, ?_⟩
  · intro fuel k s h0 hobs
    refine ⟨by simp [schedLoop, h0, hobs], fun hf => ?_⟩
    have : (observe e.atFinal (observe (e.atPass k) s.w)).stopping = true := by
      rw [observe_stopping]
      rcases hfe : e.atFinal with _ | b
      · exact hobs
      · cases b
        · exact absurd hfe hf
        · rfl
    rw [hfinal _ this]
    exact (observe_fields _ _).1
  · intro status fuel w out hrun hne
    have hlf : (observe e.atEntry (lockFault status w)).cout = w.cout := by
      rw [(observe_fields _ _).1]
      unfold lockFault
      split <;> rfl
    unfold _runner at hrun
    simp only at hrun
    split at hrun
    · simp only [Option.some.injEq] at hrun
      subst hrun
      exact absurd hlf hne
    · split at hrun
      · simp only [Option.some.injEq] at hrun
        subst hrun
        exact absurd hlf hne
      · rename_i m hm
        rcases hl : schedLoop x e conf fuel 0
            (loopEntry (observe e.atEntry (lockFault status w)) m) with _ | s'
        · rw [hl] at hrun
          simp at hrun
        · rw [hl] at hrun
          simp only [Option.map_some', Option.some.injEq] at hrun
          subst hrun
          obtain ⟨hexit, hcout⟩ := schedLoop_exit x e conf fuel 0 _ s' hl
          have hc0 : s'.w.cout = w.cout := by
            rw [hcout]
            exact hlf
          have hne' : (afterLoop x e conf s').world.cout ≠ s'.w.cout := by
            rw [hc0]
            exact hne
          obtain ⟨hobs, hst⟩ := hwritten s' hne'
          refine ⟨hst, fun hf => ⟨m, s', hm, hl, ?_⟩⟩
          rcases hexit with hz | hs
          · exact hz
          · exfalso
            rw [observe_stopping] at hobs
            rcases hfe : e.atFinal with _ | b
            · rw [hfe] at hobs
              simp only at hobs
              rw [hs] at hobs
              cases hobs
            · cases b
              · exact hf hfe
              · rw [hfe] at hobs
                cases hobs

/-- C5, the code at the failing input: a worker that reads `stopping` as true at the check
at the start of a pass is to exit without writing to the terminal.  Here boxes = [cpu];
`stop()`, called while the worker was between line 325 and line 330, has raised `stopping`
(line 491) and, not waiting for the worker, clears it (line 503) between the worker's check
of pass 0 and its check after the loop.  The worker reads `stopping` as true at the start
of the pass and leaves the loop with the cpu block not even started, then reads it as
false and writes the frame. -/
theorem write_after_stop_seen :
    stopThenClear.atPass 0 = some true ∧
    (_runner (sampleExt (fun _ => 1)) stopThenClear 0 (sampleConf ["cpu"]) 3 World.init).map
        (fun o => (o.world.cout, o.world.output, o.world.events, o.world.stopping))
      = some ("<>", "", [], false) ∧
    (schedLoop (sampleExt (fun _ => 1)) stopThenClear (sampleConf ["cpu"]) 3 0
        (loopEntry World.init 0b01000000)).map (fun s => (s.box_mask, s.w.stopping))
      = some (0b01000000, true) := by
  decide

/-- An instance of `stopping_checks`: the cpu block is collecting when `stopping` is raised
before the check of pass 1; the loop is left at once and nothing is written. -/
theorem stopping_checks_witness :
    schedLoop (sampleExt (fun _ => 1)) stopInPassOne (sampleConf ["cpu"]) 1 1 cpuCollecting
      = some { cpuCollecting with w := observe (stopInPassOne.atPass 1) cpuCollecting.w } ∧
    (afterLoop (sampleExt (fun _ => 1)) stopInPassOne (sampleConf ["cpu"])
        { cpuCollecting with
          w := observe (stopInPassOne.atPass 1) cpuCollecting.w }).world.cout = "" :=
  have h := (stopping_checks (sampleExt (fun _ => 1)) stopInPassOne (sampleConf ["cpu"])).1
    0 1 cpuCollecting (by decide) (by decide)
  ⟨h.1, h.2 (by decide)⟩

/-! ## `stop()` in the foreground -/

theorem markDead_fields (w : World) :
    (markDead w).exit_error_msg = "Runner thread died unexpectedly!" ∧
    (markDead w).active = false ∧ (markDead w).quitting = w.quitting ∧
    (markDead w).stopping = w.stopping ∧
    (markDead w).thread_exception = w.thread_exception ∧
    (markDead w).interrupt = w.interrupt ∧ (markDead w).cout = w.cout ∧
    (markDead w).events = w.events := by
  unfold markDead
  cases h : w.active <;> simp [h]

theorem wait_fields (others : World → World) (w : World) :
    (Tools.atomic_wait_active others w).active = false ∧
    (Tools.atomic_wait_active others w).quitting = w.quitting ∧
    (w.active = false → Tools.atomic_wait_active others w = w) := by
  unfold Tools.atomic_wait_active
  cases h : w.active <;> simp [h]

/-- A call of `stop()` made while a quit is in progress returns. -/
theorem stop_returns_when_quitting (ret : Nat) (others : World → World) (w : World)
    (hq : w.quitting = true) :
    (stop ret others w).2 = .returned ∧ (stop ret others w).1.quitting = true := by
  unfold stop
  simp only
  split
  · have : (markDead { w with stopping := true }).quitting = true := by
      rw [(markDead_fields _).2.2.1]
      exact hq
    simp only [this, Bool.not_true, Bool.false_eq_true, if_false]
    exact ⟨rfl, this⟩
  · split
    · refine ⟨rfl, ?_⟩
      show (Tools.atomic_wait_active others _).quitting = true
      rw [(wait_fields _ _).2.1]
      exact hq
    · split
      · exact ⟨rfl, hq⟩
      · exact ⟨rfl, hq⟩

/-- With `active` clear and a message recorded, `stop()` leaves the message in place
or replaces it by that of the dead worker. -/
theorem stop_keeps_message (ret : Nat) (others : World → World) (w : World)
    (ha : w.active = false) (hm : w.exit_error_msg.isEmpty = false) :
    (stop ret others w).1.exit_error_msg.isEmpty = false := by
  unfold stop
  simp only
  split
  · have h1 := (markDead_fields { w with stopping := true }).1
    split
    · show (markDead { w with stopping := true }).exit_error_msg.isEmpty = false
      rw [h1]
      rfl
    · show (markDead { w with stopping := true }).exit_error_msg.isEmpty = false
      rw [h1]
      rfl
  · split
    · show (Tools.atomic_wait_active others { w with stopping := true }).exit_error_msg.isEmpty
        = false
      rw [(wait_fields others { w with stopping := true }).2.2 ha]
      exact hm
    · split
      · exact hm
      · exact hm

/-! ## C9: `run("overlay")` -/

/-- C9 (amended): `Runner::run("overlay")` never throws and bypasses the collectors: it
makes no call to a collaborator (no thread is created, no `collect`, no `draw`) and leaves
`current_conf` and the output buffer as they are once `atomic_wait(active)` has returned
(as they were on entry when no worker was active).  If neither `stopping` nor
`Global::resized` is set at that point it writes `Term::sync_start`, the overlay text and
`Term::sync_end` to `cout` and nothing else; if one of them is set it writes nothing.
In both cases `waiting` is clear on return. -/
theorem run_overlay {Info : Type} (x : Ext Info) (r : RunEnv) (no_update force_redraw : Bool)
    (w : World) :
    (run x r "overlay" no_update force_redraw w).2 = none ∧
    ((Tools.atomic_wait_active r.others { w with waiting := true }).stopping = false →
      (Tools.atomic_wait_active r.others { w with waiting := true }).resized = false →
      run x r "overlay" no_update force_redraw w =
        ({ Tools.atomic_wait_active r.others { w with waiting := true } with
            cout := (Tools.atomic_wait_active r.others { w with waiting := true }).cout ++
              (x.sync_start ++
                (Tools.atomic_wait_active r.others { w with waiting := true }).overlay ++
                x.sync_end),
            waiting := false }, none)) ∧
    ((Tools.atomic_wait_active r.others { w with waiting := true }).stopping = true ∨
      (Tools.atomic_wait_active r.others { w with waiting := true }).resized = true →
      run x r "overlay" no_update force_redraw w =
        ({ Tools.atomic_wait_active r.others { w with waiting := true } with
            waiting := false }, none)) ∧
    (run x r "overlay" no_update force_redraw w).1.events
      = (Tools.atomic_wait_active r.others { w with waiting := true }).events ∧
    (run x r "overlay" no_update force_redraw w).1.current_conf
      = (Tools.atomic_wait_active r.others { w with waiting := true }).current_conf ∧
    (run x r "overlay" no_update force_redraw w).1.output
      = (Tools.atomic_wait_active r.others { w with waiting := true }).output ∧
    (w.active = false →
      (run x r "overlay" no_update force_redraw w).1.events = w.events ∧
      (run x r "overlay" no_update force_redraw w).1.current_conf = w.current_conf ∧
      (run x r "overlay" no_update force_redraw w).1.output = w.output) := by
  generalize hw1 : Tools.atomic_wait_active r.others { w with waiting := true } = w1
  have hrun : run x r "overlay" no_update force_redraw w =
      if w1.stopping || w1.resized then ({ w1 with waiting := false }, none)
      else ({ w1 with
              cout := w1.cout ++ (x.sync_start ++ w1.overlay ++ x.sync_end),
              waiting := false }, none) := by
    unfold run
    simp only [hw1, if_true]
  have hidle : w.active = false → w1.events = w.events ∧ w1.current_conf = w.current_conf ∧
      w1.output = w.output := by
    intro ha
    rw [← hw1, (wait_fields r.others { w with waiting := true }).2.2 ha]
    exact ⟨rfl, rfl, rfl⟩
  rw [hrun]
  by_cases hg : (w1.stopping || w1.resized) = true
  · rw [if_pos hg]
    refine ⟨rfl, ?_, fun _ => rfl, rfl, rfl, rfl, hidle⟩
    intro h1 h2
    rw [h1, h2] at hg
    cases hg
  · rw [if_neg hg]
    refine ⟨rfl, fun _ _ => rfl, ?_, rfl, rfl, rfl, hidle⟩
    intro h
    exfalso
    apply hg
    rcases h with h | h <;> simp [h]

/-- C9, counterexample: the overlay is "MENU" and a resize is pending (`Global::resized`
is set).  `run("overlay")` returns without writing anything. -/
theorem overlay_not_written_when_resized :
    run (sampleExt (fun _ => 1)) quietRun "overlay" false false
        { menuShown with resized := true }
      = ({ menuShown with resized := true }, none) ∧
    ({ menuShown with resized := true } : World).overlay = "MENU" ∧
    (run (sampleExt (fun _ => 1)) quietRun "overlay" false false
        { menuShown with resized := true }).1.cout = "" := by
  decide

/-- C9, witness: the overlay is "MENU", no flag is set; the overlay is written inside the
synchronized-update bracket and nothing else changes. -/
theorem run_overlay_witness :
    run (sampleExt (fun _ => 1)) quietRun "overlay" false false menuShown
      = ({ menuShown with cout := "<MENU>" }, none) :=
  ((run_overlay (sampleExt (fun _ => 1)) quietRun false false menuShown).2.1
    (by decide) (by decide)).trans (by decide)

end Runner

/-! ## C6: `stop()` and an abandoned lock -/

/-- A first call of `clean_quit` that finds a message recorded ends the process with
status 1. -/
theorem clean_quit_failed (q : QuitEnv) (sig : Int) (w : World)
    (hq : w.quitting = false) (ha : w.active = false)
    (hm : w.exit_error_msg.isEmpty = false) :
    (clean_quit q sig w).2 = .exit 1 ∨ (clean_quit q sig w).2 = .quick_exit 1 := by
  have hs := Runner.stop_returns_when_quitting q.trylock q.others { w with quitting := true } rfl
  have hk := Runner.stop_keeps_message q.trylock q.others { w with quitting := true } ha hm
  unfold clean_quit
  simp only [hq, Bool.false_eq_true, if_false]
  rcases hst : Runner.stop q.trylock q.others { w with quitting := true } with ⟨w1, c⟩
  rw [hst] at hs hk
  simp only at hs hk
  obtain ⟨hc, _⟩ := hs
  subst hc
  simp only [hk, Bool.not_false, if_true]
  by_cases hl : q.active_locks (lockWait q.active_locks 100 0 + 1) > 0
  · right
    simp [hl]
  · left
    simp [hl]

theorem exit_process_failed (q : QuitEnv) (code : Int) (w : World)
    (hq : w.quitting = false) (ha : w.active = false)
    (hm : w.exit_error_msg.isEmpty = false) : (exit_process q code w).2 = 1 := by
  unfold exit_process _exit_handler
  rcases hc : clean_quit q (-1) w with ⟨w1, c⟩
  have h := clean_quit_failed q (-1) w hq ha hm
  rw [hc] at h
  simp only at h
  rcases h with h | h <;> subst h <;> rfl

/-- C6 (amended): when `pthread_mutex_trylock` inside `stop()` reports lock abandonment
(`EOWNERDEAD` or `ENOTRECOVERABLE`), `stop()` clears `active` and records the message
"Runner thread died unexpectedly!"; the fault flag `Global::thread_exception` and
`Input::interrupt` are left as they were.  If `Global::quitting` is false it calls
`exit(1)` (with `stopping` still set), and the process ends with status 1 whatever the exit
handler meets; if a quit is in progress it does not end the process: it clears `stopping`
and returns. -/
theorem stop_on_abandoned_lock (ret : Nat) (others : World → World) (w : World)
    (h : ret = EOWNERDEAD ∨ ret = ENOTRECOVERABLE) :
    (Runner.stop ret others w).1.exit_error_msg = "Runner thread died unexpectedly!" ∧
    (Runner.stop ret others w).1.active = false ∧
    (Runner.stop ret others w).1.thread_exception = w.thread_exception ∧
    (Runner.stop ret others w).1.interrupt = w.interrupt ∧
    (w.quitting = false →
      (Runner.stop ret others w).2 = .exit 1 ∧
      ∀ q : QuitEnv, (exit_process q 1 (Runner.stop ret others w).1).2 = 1) ∧
    (w.quitting = true →
      (Runner.stop ret others w).2 = .returned ∧
      (Runner.stop ret others w).1.stopping = false) := by
  have heq : Runner.stop ret others w =
      if !(Runner.markDead { w with stopping := true }).quitting then
        (Runner.markDead { w with stopping := true }, .exit 1)
      else Runner.stopTail (Runner.markDead { w with stopping := true }) := by
    unfold Runner.stop
    simp only [h, if_true]
  obtain ⟨hmsg, hact, hquit, _, hte, hin, _, _⟩ :=
    Runner.markDead_fields { w with stopping := true }
  have hquit' : (Runner.markDead { w with stopping := true }).quitting = w.quitting := hquit
  have hte' : (Runner.markDead { w with stopping := true }).thread_exception
      = w.thread_exception := hte
  have hin' : (Runner.markDead { w with stopping := true }).interrupt = w.interrupt := hin
  rw [heq]
  generalize Runner.markDead { w with stopping := true } = d at *
  by_cases hq : w.quitting = true
  · have hdq : d.quitting = true := by rw [hquit', hq]
    have hres : (if (!d.quitting) = true then (d, Ctl.exit 1) else Runner.stopTail d)
        = Runner.stopTail d := by simp [hdq]
    rw [hres]
    refine ⟨hmsg, hact, hte', hin', ?_, ?_⟩
    · intro hc
      rw [hq] at hc
      cases hc
    · intro _
      exact ⟨rfl, rfl⟩
  · have hq' : w.quitting = false := by simpa using hq
    have hdq : d.quitting = false := by rw [hquit', hq']
    have hres : (if (!d.quitting) = true then (d, Ctl.exit 1) else Runner.stopTail d)
        = (d, Ctl.exit 1) := by simp [hdq]
    rw [hres]
    refine ⟨hmsg, hact, hte', hin', ?_, ?_⟩
    · intro _
      refine ⟨rfl, fun q => ?_⟩
      apply exit_process_failed q 1 d hdq hact
      rw [hmsg]
      rfl
    · intro hc
      rw [hq'] at hc
      cases hc

/-- C6, counterexample: `pthread_mutex_trylock` returns `EOWNERDEAD` with no flag set and
no quit in progress.  `stop()` calls `exit(1)` with the message recorded, but the fault
flag and `Input::interrupt` are still false. -/
theorem abandoned_lock_leaves_flags :
    Runner.stop EOWNERDEAD id World.init =
      ({ World.init with
          stopping := true, exit_error_msg := "Runner thread died unexpectedly!" },
        .exit 1) ∧
    (Runner.stop EOWNERDEAD id World.init).1.thread_exception = false ∧
    (Runner.stop EOWNERDEAD id World.init).1.interrupt = false := by
  decide

/-- C6, witness: `EOWNERDEAD` with no quit in progress. -/
theorem stop_on_abandoned_lock_witness :
    (Runner.stop EOWNERDEAD id World.init).1.exit_error_msg
      = "Runner thread died unexpectedly!" ∧
    (Runner.stop EOWNERDEAD id World.init).2 = .exit 1 :=
  have h := stop_on_abandoned_lock EOWNERDEAD id World.init (Or.inl rfl)
  ⟨h.1, (h.2.2.2.2.1 rfl).1⟩

/-! ## C10: the argument parser -/

/-- The scan after an option flag: the rest of the arguments, with the option set. -/
theorem argumentParser_cons_option (a : String) (rest : List String) (w : World)
    (h : isOption a) :
    argumentParser (a :: rest) w = argumentParser rest (setOption a w) := by
  unfold isOption isLowColor isTtyOn isTtyOff at h
  rcases h with (h | h) | (h | h) | (h | h) | h | h <;> subst h
  all_goals
    simp only [argumentParser]
    rfl

theorem argumentParser_option (a : String) (rest : List String) (w : World)
    (h : isOption a) :
    ∃ w1 : World, argumentParser (a :: rest) w = argumentParser rest w1 ∧
      w1.cout = w.cout ∧
      (w1.arg_low_color = true ↔ w.arg_low_color = true ∨ isLowColor a) ∧
      (w1.arg_tty = true ↔ w.arg_tty = true ∨ isTtyOn a ∨ isTtyOff a) ∧
      (w1.utf_force = true ↔ w.utf_force = true ∨ a = "--utf-force") ∧
      (w1.debug = true ↔ w.debug = true ∨ a = "--debug") ∧
      (isTtyOn a → w1.tty_mode = some true) ∧
      (isTtyOff a → w1.tty_mode = some false) ∧
      (¬isTtyOn a → ¬isTtyOff a → w1.tty_mode = w.tty_mode) := by
  refine ⟨setOption a w, argumentParser_cons_option a rest w h, ?_⟩
  unfold isOption isLowColor isTtyOn isTtyOff at h
  rcases h with (h | h) | (h | h) | (h | h) | h | h <;> subst h
  all_goals simp [setOption, isLowColor, isTtyOn, isTtyOff]

/-- The scan at an argument that is not an option flag. -/
theorem argumentParser_stop (a : String) (rest : List String) (w : World)
    (h : ¬isOption a) :
    (isHelp a → argumentParser (a :: rest) w = ({ w with cout := w.cout ++ usage }, .exit 0)) ∧
    (¬isHelp a → isVersion a →
      argumentParser (a :: rest) w = ({ w with cout := w.cout ++ versionLine }, .exit 0)) ∧
    (¬isHelp a → ¬isVersion a →
      argumentParser (a :: rest) w
        = ({ w with cout := w.cout ++ unknownHint a }, .exit 1)) := by
  unfold isOption isLowColor isTtyOn isTtyOff at h
  simp only [not_or] at h
  obtain ⟨h1, h2, h3, h4, h5⟩ := h
  unfold isHelp isVersion
  refine ⟨fun hh => ?_, fun hh hv => ?_, fun hh hv => ?_⟩
  · simp only [argumentParser, hh, if_true]
  · simp only [argumentParser, hh, hv, if_true, if_false]
  · have h1' : ¬(a = "-lc" ∨ a = "--low-color") := not_or.mpr h1
    have h2' : ¬(a = "-t" ∨ a = "--tty_on") := not_or.mpr h2
    have h3' : ¬(a = "+t" ∨ a = "--tty_off") := not_or.mpr h3
    simp only [argumentParser, hh, hv, h1', h2', h3', h4, h5, if_false]

theorem isOption_not_stop (a : String) (h : isOption a) : ¬isHelp a ∧ ¬isVersion a := by
  unfold isOption isLowColor isTtyOn isTtyOff at h
  unfold isHelp isVersion
  rcases h with (h | h) | (h | h) | (h | h) | h | h <;> subst h <;> decide

/-- The scan when every argument is an option flag. -/
theorem argumentParser_options (args : List String) (w : World)
    (h : ∀ a ∈ args, isOption a) :
    (argumentParser args w).2 = .returned ∧
    (argumentParser args w).1.cout = w.cout ∧
    ((argumentParser args w).1.arg_low_color = true ↔
      w.arg_low_color = true ∨ ∃ a ∈ args, isLowColor a) ∧
    ((argumentParser args w).1.arg_tty = true ↔
      w.arg_tty = true ∨ ∃ a ∈ args, isTtyOn a ∨ isTtyOff a) ∧
    ((argumentParser args w).1.utf_force = true ↔
      w.utf_force = true ∨ "--utf-force" ∈ args) ∧
    ((argumentParser args w).1.debug = true ↔ w.debug = true ∨ "--debug" ∈ args) ∧
    ((∀ a ∈ args, ¬isTtyOn a ∧ ¬isTtyOff a) →
      (argumentParser args w).1.tty_mode = w.tty_mode) ∧
    (∀ pre a post, args = pre ++ a :: post → (∀ b ∈ post, ¬isTtyOn b ∧ ¬isTtyOff b) →
      (isTtyOn a → (argumentParser args w).1.tty_mode = some true) ∧
      (isTtyOff a → (argumentParser args w).1.tty_mode = some false)) := by
  induction args generalizing w with
  | nil =>
    refine ⟨rfl, rfl, by simp [argumentParser], by simp [argumentParser],
      by simp [argumentParser], by simp [argumentParser], fun _ => rfl, ?_⟩
    intro pre a post hsplit
    simp at hsplit
  | cons a rest ih =>
    obtain ⟨w1, hstep, hc, hlc, htty, hutf, hdbg, hon, hoff, hkeep⟩ :=
      argumentParser_option a rest w (h a (List.mem_cons_self _ _))
    obtain ⟨i1, i2, i3, i4, i5, i6, i7, i8⟩ :=
      ih w1 (fun b hb => h b (List.mem_cons_of_mem _ hb))
    rw [hstep]
    refine ⟨?_, ?_, ?_, ?_, ?_, ?_, ?_, ?_⟩
    · exact i1
    · rw [i2]
      exact hc
    · rw [i3, hlc]
      simp only [List.mem_cons, exists_eq_or_imp, or_assoc]
    · rw [i4, htty]
      simp only [List.mem_cons, exists_eq_or_imp, or_assoc]
    · rw [i5, hutf]
      simp only [List.mem_cons]
      constructor
      · rintro ((h1 | h1) | h1)
        · exact Or.inl h1
        · exact Or.inr (Or.inl h1.symm)
        · exact Or.inr (Or.inr h1)
      · rintro (h1 | h1 | h1)
        · exact Or.inl (Or.inl h1)
        · exact Or.inl (Or.inr h1.symm)
        · exact Or.inr h1
    · rw [i6, hdbg]
      simp only [List.mem_cons]
      constructor
      · rintro ((h1 | h1) | h1)
        · exact Or.inl h1
        · exact Or.inr (Or.inl h1.symm)
        · exact Or.inr (Or.inr h1)
      · rintro (h1 | h1 | h1)
        · exact Or.inl (Or.inl h1)
        · exact Or.inl (Or.inr h1.symm)
        · exact Or.inr h1
    · intro hno
      rw [i7 (fun b hb => hno b (List.mem_cons_of_mem _ hb))]
      exact hkeep (hno a (List.mem_cons_self _ _)).1 (hno a (List.mem_cons_self _ _)).2
    · intro pre b post hsplit hpost
      cases pre with
      | nil =>
        simp only [List.nil_append, List.cons.injEq] at hsplit
        obtain ⟨hab, hrest⟩ := hsplit
        subst hab
        subst hrest
        rw [i7 hpost]
        exact ⟨hon, hoff⟩
      | cons c pre =>
        simp only [List.cons_append, List.cons.injEq] at hsplit
        obtain ⟨_, hrest⟩ := hsplit
        exact i8 pre b post hrest hpost

/-- The scan of a list that begins with option flags goes on after them. -/
theorem argumentParser_append (pre l : List String) (w : World)
    (h : ∀ b ∈ pre, isOption b) :
    argumentParser (pre ++ l) w = argumentParser l (argumentParser pre w).1 := by
  induction pre generalizing w with
  | nil => rfl
  | cons a pre ih =>
    have ha := h a (List.mem_cons_self _ _)
    rw [List.cons_append, argumentParser_cons_option a (pre ++ l) w ha,
      argumentParser_cons_option a pre w ha]
    exact ih (setOption a w) (fun b hb => h b (List.mem_cons_of_mem _ hb))

theorem argumentParser_returns_iff (args : List String) (w : World) :
    (argumentParser args w).2 = .returned ↔ ∀ a ∈ args, isOption a := by
  induction args generalizing w with
  | nil => simp [argumentParser]
  | cons a rest ih =>
    by_cases ha : isOption a
    · rw [argumentParser_cons_option a rest w ha, ih]
      simp [ha]
    · obtain ⟨h1, h2, h3⟩ := argumentParser_stop a rest w ha
      have hne : (argumentParser (a :: rest) w).2 ≠ .returned := by
        by_cases hh : isHelp a
        · rw [h1 hh]
          simp
        · by_cases hv : isVersion a
          · rw [h2 hh hv]
            simp
          · rw [h3 hh hv]
            simp
      constructor
      · intro hr
        exact absurd hr hne
      · intro hall
        exact absurd (hall a (List.mem_cons_self _ _)) ha

theorem versionLine_text : versionLine = "btop version: 0.0.30\n" := by decide

set_option maxRecDepth 100000 in
theorem usage_text :
    World.init.cout ++ usage
      = "usage: btop [-h] [-v] [-/+t] [--debug]\n\noptional arguments:\n  -h, --help            show this help message and exit\n  -v, --version         show version info and exit\n  -lc, --low-color      disable truecolor, converts 24-bit colors to 256-color\n  -t, --tty_on          force (ON) tty mode, max 16 colors and tty friendly graph symbols\n  +t, --tty_off         force (OFF) tty mode\n  --utf-foce\t\t\tforce start even if no UTF-8 locale was detected  --debug               start with loglevel set to DEBUG, overriding value set in config\n\n" := by
  decide

/-- C10: for every argument list, `argumentParser` scans from left to right.  It returns
normally exactly when every argument is one of `-lc`/`--low-color`, `-t`/`--tty_on`,
`+t`/`--tty_off`, `--utf-force`, `--debug`; then nothing is printed and the option of each
flag present is set, flags that do not occur leaving their variable as it was:
`arg_low_color`, `arg_tty` (for either tty flag), `utf_force`, `debug`, and `tty_mode` as
the last tty flag says.  Otherwise the first argument that is not such a flag decides:
at `-h`/`--help` the usage text of lines 104-113 is printed and the process exits with
status 0, at `-v`/`--version` the line "btop version: 0.0.30" is printed and it exits with
status 0, and at any other argument the hint naming it is printed and it exits with
status 1.  The texts are stated as the program prints them. -/
theorem argumentParser_scan (args : List String) (w : World) :
    ((argumentParser args w).2 = .returned ↔ ∀ a ∈ args, isOption a) ∧
    ((∀ a ∈ args, isOption a) →
      (argumentParser args w).1.cout = w.cout ∧
      ((argumentParser args w).1.arg_low_color = true ↔
        w.arg_low_color = true ∨ ∃ a ∈ args, isLowColor a) ∧
      ((argumentParser args w).1.arg_tty = true ↔
        w.arg_tty = true ∨ ∃ a ∈ args, isTtyOn a ∨ isTtyOff a) ∧
      ((argumentParser args w).1.utf_force = true ↔
        w.utf_force = true ∨ "--utf-force" ∈ args) ∧
      ((argumentParser args w).1.debug = true ↔ w.debug = true ∨ "--debug" ∈ args) ∧
      ((∀ a ∈ args, ¬isTtyOn a ∧ ¬isTtyOff a) →
        (argumentParser args w).1.tty_mode = w.tty_mode) ∧
      (∀ pre a post, args = pre ++ a :: post → (∀ b ∈ post, ¬isTtyOn b ∧ ¬isTtyOff b) →
        (isTtyOn a → (argumentParser args w).1.tty_mode = some true) ∧
        (isTtyOff a → (argumentParser args w).1.tty_mode = some false))) ∧
    (∀ pre a rest, args = pre ++ a :: rest → (∀ b ∈ pre, isOption b) → ¬isOption a →
      (isHelp a →
        (argumentParser args w).2 = .exit 0 ∧
        (argumentParser args w).1.cout = w.cout ++
          ("usage: btop [-h] [-v] [-/+t] [--debug]\n\n" ++
           "optional arguments:\n" ++
           "  -h, --help            show this help message and exit\n" ++
           "  -v, --version         show version info and exit\n" ++
           "  -lc, --low-color      disable truecolor, converts 24-bit colors to 256-color\n" ++
           "  -t, --tty_on          force (ON) tty mode, max 16 colors and tty friendly graph symbols\n" ++
           "  +t, --tty_off         force (OFF) tty mode\n" ++
           "  --utf-foce\t\t\tforce start even if no UTF-8 locale was detected" ++
           "  --debug               start with loglevel set to DEBUG, overriding value set in config\n" ++
           "\n")) ∧
      (¬isHelp a → isVersion a →
        (argumentParser args w).2 = .exit 0 ∧
        (argumentParser args w).1.cout = w.cout ++ "btop version: 0.0.30\n") ∧
      (¬isHelp a → ¬isVersion a →
        (argumentParser args w).2 = .exit 1 ∧
        (argumentParser args w).1.cout = w.cout ++
          (" Unknown argument: " ++ a ++ "\n" ++ " Use -h or --help for help." ++ "\n"))) := by
  refine ⟨argumentParser_returns_iff args w, fun h => (argumentParser_options args w h).2, ?_⟩
  intro pre a rest hsplit hpre ha
  have hc : (argumentParser pre w).1.cout = w.cout := (argumentParser_options pre w hpre).2.1
  obtain ⟨h1, h2, h3⟩ := argumentParser_stop a rest (argumentParser pre w).1 ha
  rw [hsplit, argumentParser_append pre (a :: rest) w hpre]
  refine ⟨fun hh => ?_, fun hh hv => ?_, fun hh hv => ?_⟩
  · rw [h1 hh]
    exact ⟨rfl, by show _ ++ usage = _; rw [hc]; rfl⟩
  · rw [h2 hh hv]
    exact ⟨rfl, by show _ ++ versionLine = _; rw [hc, versionLine_text]⟩
  · rw [h3 hh hv]
    exact ⟨rfl, by show _ ++ unknownHint a = _; rw [hc]; rfl⟩

/-- C10, witness: four option flags give a normal return with `tty_mode` as the last tty
flag says; an unknown flag after two options gives the hint and status 1, although `-h`
follows it; `-h` after an option prints the usage text and exits with status 0, although
an unknown flag follows it; `--version` after an option prints the version line and exits
with status 0. -/
theorem argumentParser_scan_witness :
    (argumentParser ["-lc", "-t", "+t", "--debug"] World.init).2 = .returned ∧
    (argumentParser ["-lc", "-t", "+t", "--debug"] World.init).1.tty_mode = some false ∧
    (argumentParser ["-lc", "+t", "--bogus", "-h"] World.init).2 = .exit 1 ∧
    (argumentParser ["-lc", "+t", "--bogus", "-h"] World.init).1.cout
      = " Unknown argument: --bogus\n Use -h or --help for help.\n" ∧
    (argumentParser ["--debug", "-h", "--bogus"] World.init).2 = .exit 0 ∧
    (argumentParser ["--debug", "-h", "--bogus"] World.init).1.cout
      = "usage: btop [-h] [-v] [-/+t] [--debug]\n\noptional arguments:\n  -h, --help            show this help message and exit\n  -v, --version         show version info and exit\n  -lc, --low-color      disable truecolor, converts 24-bit colors to 256-color\n  -t, --tty_on          force (ON) tty mode, max 16 colors and tty friendly graph symbols\n  +t, --tty_off         force (OFF) tty mode\n  --utf-foce\t\t\tforce start even if no UTF-8 locale was detected  --debug               start with loglevel set to DEBUG, overriding value set in config\n\n" ∧
    (argumentParser ["-t", "--version"] World.init).2 = .exit 0 ∧
    (argumentParser ["-t", "--version"] World.init).1.cout = "btop version: 0.0.30\n" :=
  have hopt : ∀ a ∈ ["-lc", "-t", "+t", "--debug"], isOption a := by
    simp [isOption, isLowColor, isTtyOn, isTtyOff]
  have h1 := argumentParser_scan ["-lc", "-t", "+t", "--debug"] World.init
  have h2 := (argumentParser_scan ["-lc", "+t", "--bogus", "-h"] World.init).2.2
    ["-lc", "+t"] "--bogus" ["-h"] rfl
    (by simp [isOption, isLowColor, isTtyOn, isTtyOff])
    (by simp [isOption, isLowColor, isTtyOn, isTtyOff])
  have h3 := h2.2.2 (by simp [isHelp]) (by simp [isVersion])
  have h4 := ((argumentParser_scan ["--debug", "-h", "--bogus"] World.init).2.2
    ["--debug"] "-h" ["--bogus"] rfl
    (by simp [isOption, isLowColor, isTtyOn, isTtyOff])
    (by simp [isOption, isLowColor, isTtyOn, isTtyOff])).1 (by simp [isHelp])
  have h5 := ((argumentParser_scan ["-t", "--version"] World.init).2.2
    ["-t"] "--version" [] rfl
    (by simp [isOption, isLowColor, isTtyOn, isTtyOff])
    (by simp [isOption, isLowColor, isTtyOn, isTtyOff])).2.1
    (by simp [isHelp]) (by simp [isVersion])
  ⟨h1.1.mpr hopt,
    ((h1.2.1 hopt).2.2.2.2.2.2 ["-lc", "-t"] "+t" ["--debug"] rfl
      (by simp [isTtyOn, isTtyOff])).2 (Or.inl rfl),
    h3.1, h3.2.trans (by decide), h4.1, h4.2.trans usage_text, h5.1,
    h5.2.trans (by decide)⟩

/-! ## C8: `clean_quit` is idempotent -/

theorem clean_quit_when_quitting (q : QuitEnv) (sig : Int) (w : World)
    (h : w.quitting = true) : clean_quit q sig w = (w, .returned) := by
  simp [clean_quit, h]

/-- The world a first call of `clean_quit` leaves: that of `stop()`, with the cleanup
events appended and, when a message is recorded, the message on `cerr`. -/
theorem clean_quit_first (q : QuitEnv) (sig : Int) (w : World) (h : w.quitting = false) :
    ∃ w1 ev err, Runner.stop q.trylock q.others { w with quitting := true } = (w1, .returned) ∧
      w1.quitting = true ∧
      (clean_quit q sig w).1 = { w1 with events := w1.events ++ ev, cerr := w1.cerr ++ err } ∧
      ev.count Event.config_write = 1 ∧ ev.count Event.input_clear = 1 := by
  obtain ⟨hs, hq⟩ :=
    Runner.stop_returns_when_quitting q.trylock q.others { w with quitting := true } rfl
  rcases hst : Runner.stop q.trylock q.others { w with quitting := true } with ⟨w1, c⟩
  rw [hst] at hs hq
  simp only at hs hq
  subst hs
  refine ⟨w1,
    (if !w1.exit_error_msg.isEmpty then [Event.log_error w1.exit_error_msg] else [])
      ++ [Event.config_write, Event.input_clear, Event.log_info]
      ++ List.replicate (lockWait q.active_locks 100 0) (Event.sleep_ms 10)
      ++ (if w1.term_initialized then [Event.term_restore] else []),
    (if !w1.exit_error_msg.isEmpty then "ERROR: " ++ w1.exit_error_msg ++ "\n" else ""),
    rfl, hq, ?_, ?_, ?_⟩
  · unfold clean_quit
    simp only [h, Bool.false_eq_true, if_false, hst]
    cases hm : w1.exit_error_msg.isEmpty <;> cases ht : w1.term_initialized <;>
      by_cases hl : q.active_locks (lockWait q.active_locks 100 0 + 1) > 0 <;>
      by_cases hsig : sig = -1 <;>
      simp [hm, ht, hl, hsig, List.append_assoc]
  · cases hm : w1.exit_error_msg.isEmpty <;> cases ht : w1.term_initialized <;>
      simp [List.count_append, List.count_cons, List.count_replicate]
  · cases hm : w1.exit_error_msg.isEmpty <;> cases ht : w1.term_initialized <;>
      simp [List.count_append, List.count_cons, List.count_replicate]

theorem clean_quit_sets_quitting (q : QuitEnv) (sig : Int) (w : World) :
    (clean_quit q sig w).1.quitting = true := by
  cases h : w.quitting
  · obtain ⟨w1, ev, err, _, hq, hw, _, _⟩ := clean_quit_first q sig w h
    rw [hw]
    exact hq
  · rw [clean_quit_when_quitting q sig w h]
    exact h

/-- C8: a call of `clean_quit` made while `Global::quitting` is true returns at once and
leaves the world as it is: no `Runner::stop()`, no log, no `Config::write()`, no
`Input::clear()`, no `Term::restore()`, no exit, every flag unchanged.  Every call leaves
`quitting` set, so a second call, whatever its exit code and whatever it meets, is such a
no-op, and so is `_exit_handler` when the first call ends the process through `exit`.
A first call performs the cleanup once (one `Config::write()`, one `Input::clear()`) on
top of the world `Runner::stop()` returned, and two calls leave exactly that world. -/
theorem clean_quit_idempotent (q q' : QuitEnv) (sig sig' : Int) (w : World) :
    (w.quitting = true → clean_quit q sig w = (w, .returned)) ∧
    (clean_quit q sig w).1.quitting = true ∧
    clean_quit q' sig' (clean_quit q sig w).1 = ((clean_quit q sig w).1, .returned) ∧
    _exit_handler q' (clean_quit q sig w).1 = ((clean_quit q sig w).1, .returned) ∧
    (∀ code, exit_process q' code (clean_quit q sig w).1 = ((clean_quit q sig w).1, code)) ∧
    (w.quitting = false →
      ∃ w1 ev err,
        Runner.stop q.trylock q.others { w with quitting := true } = (w1, .returned) ∧
        (clean_quit q sig w).1 = { w1 with events := w1.events ++ ev, cerr := w1.cerr ++ err } ∧
        (clean_quit q' sig' (clean_quit q sig w).1).1
          = { w1 with events := w1.events ++ ev, cerr := w1.cerr ++ err } ∧
        ev.count Event.config_write = 1 ∧ ev.count Event.input_clear = 1) := by
  have hq := clean_quit_sets_quitting q sig w
  have h2 := clean_quit_when_quitting q' sig' _ hq
  have h3 : _exit_handler q' (clean_quit q sig w).1 = ((clean_quit q sig w).1, .returned) :=
    clean_quit_when_quitting q' (-1) _ hq
  refine ⟨clean_quit_when_quitting q sig w, hq, h2, h3, fun code => ?_, fun h => ?_⟩
  · unfold exit_process
    rw [h3]
  · obtain ⟨w1, ev, err, hs, _, hw, hc1, hc2⟩ := clean_quit_first q sig w h
    refine ⟨w1, ev, err, hs, hw, ?_, hc1, hc2⟩
    rw [h2]
    exact hw

/-- C8, witness: a call with `quitting` set changes nothing; a first call `clean_quit(0)`
cleans up once and calls `exit(0)`, and the exit handler that follows is a no-op. -/
theorem clean_quit_idempotent_witness :
    clean_quit quietQuit 0 { World.init with quitting := true }
      = ({ World.init with quitting := true }, .returned) ∧
    (clean_quit quietQuit 0 World.init).2 = .exit 0 ∧
    (clean_quit quietQuit 0 World.init).1.events
      = [.mutex_unlock, .sleep_ms 1, .config_write, .input_clear, .log_info] ∧
    exit_process quietQuit 0 (clean_quit quietQuit 0 World.init).1
      = ((clean_quit quietQuit 0 World.init).1, 0) :=
  ⟨(clean_quit_idempotent quietQuit quietQuit 0 0 { World.init with quitting := true }).1 rfl,
    by decide, by decide,
    (clean_quit_idempotent quietQuit quietQuit 0 0 World.init).2.2.2.2.1 0⟩

namespace Resize

/-! ## C7: one coordinating call of `term_resize` -/

theorem outerOk_congr (s s' : RState) (h : outerOk s) (ho : s'.outer = s.outer)
    (hm : s'.marks = s.marks) (hs : s'.stops = s.stops) (hi : s'.interrupt = s.interrupt)
    (hr : s.resizing ≤ s'.resizing) : outerOk s' := by
  unfold outerOk at *
  rw [ho, hm, hs, hi]
  split <;> simp_all <;> omega

theorem outerOk_resizing (s : RState) (h : outerOk s) (hd : s.outer.pc ≠ .done) :
    1 ≤ s.resizing := by
  unfold outerOk at h
  split at h <;> simp_all <;> omega

theorem stmt_frame (s : RState) (f : Frame) (b : Bool) :
    (stmt s f b).1.outer = s.outer ∧ (stmt s f b).1.nested = s.nested := by
  unfold stmt
  split <;> (try split) <;> exact ⟨rfl, rfl⟩

/-- A harmless nested call stays harmless, and leaves the first call as it is. -/
theorem stmt_harmless (s : RState) (f : Frame) (b : Bool) (ho : outerOk s)
    (hd : s.outer.pc ≠ .done) (hf : harmless f.pc) :
    harmless (stmt s f b).2.pc ∧ outerOk (stmt s f b).1 := by
  have hr := outerOk_resizing s ho hd
  unfold stmt
  rcases hpc : f.pc with _ | r | _ | rez | rez | rez | rez | rez | rez | rez | _ | _ | _
  all_goals rw [hpc] at hf
  all_goals simp only [harmless] at hf
  · exact ⟨trivial, ho⟩
  · simp only
    split
    · exact ⟨trivial, ho⟩
    · exact ⟨trivial, ho⟩
  · refine ⟨?_, ?_⟩
    · show s.resizing + 1 > 1
      omega
    · exact outerOk_congr s _ ho rfl rfl rfl rfl (by show s.resizing ≤ s.resizing + 1; omega)
  · simp only [hf, if_true]
    exact ⟨trivial, ho⟩
  · refine ⟨?_, ho⟩
    show harmless f.pc
    rw [hpc]
    trivial

/-- A statement of the first call keeps what holds of it. -/
theorem stmt_outer (s : RState) (b : Bool) (ho : outerOk s) (hd : s.outer.pc ≠ .done) :
    outerOk { (stmt s s.outer b).1 with outer := (stmt s s.outer b).2 } := by
  unfold outerOk at ho
  unfold outerOk stmt
  rcases hpc : s.outer.pc with _ | r | _ | rez | rez | rez | rez | rez | rez | rez | _ | _ | _
  all_goals rw [hpc] at ho
  all_goals simp only at ho
  · obtain ⟨h1, h2, h3, h4⟩ := ho
    subst h1
    simp [h2, h3, h4]
  · obtain ⟨h1, h2, h3, h4⟩ := ho
    simp [h1, h2, h3, h4]
  · obtain ⟨h1, h2, h3, h4⟩ := ho
    simp [h1, h2, h3, h4]
  · obtain ⟨h1, h2, h3, h4⟩ := ho
    cases hf : s.outer.force
    · simp [h1, h2, h3, h4]
    · simp [h3, h4]
      omega
  · obtain ⟨h1, h2, h3, h4⟩ := ho
    simp [h1, h2, h3, h4]
  · obtain ⟨h1, h2, h3, h4⟩ := ho
    by_cases hne : rez = s.resizing
    · simp [hne, h3, h4]
      omega
    · simp [hne, h3, h4]
      omega
  · obtain ⟨h1, h2, h3, h4⟩ := ho
    cases b
    · simp [h3, h4]
      omega
    · simp [h1, h2, h3, h4]
  · obtain ⟨h1, h2, h3⟩ := ho
    simp [h1, h2, h3]
  · simp
  · exact absurd hpc hd

theorem rstep_inv (s s' : RState) (a : RAct) (h : RInv s) (hs : rstep s a = some s') :
    RInv s' := by
  cases a with
  | signal force =>
    simp only [rstep, Option.some.injEq] at hs
    subst hs
    refine ⟨h.outer, fun hd f hf => ?_⟩
    rcases List.mem_cons.mp hf with rfl | hf
    · trivial
    · exact h.nested hd f hf
  | step b =>
    simp only [rstep] at hs
    split at hs
    · rename_i hn
      split at hs
      · simp at hs
      · rename_i hd
        simp only [Option.some.injEq] at hs
        subst hs
        refine ⟨stmt_outer s b h.outer hd, fun _ f hf => ?_⟩
        have : (stmt s s.outer b).1.nested = [] := by rw [(stmt_frame _ _ _).2, hn]
        simp only [this] at hf
        cases hf
    · rename_i f rest hn
      split at hs
      · simp only [Option.some.injEq] at hs
        subst hs
        refine ⟨h.outer, fun hd g hg => ?_⟩
        exact h.nested hd g (by rw [hn]; exact List.mem_cons_of_mem _ hg)
      · simp only [Option.some.injEq] at hs
        subst hs
        by_cases hd : s.outer.pc = .done
        · refine ⟨?_, fun hd' => ?_⟩
          · show outerOk _
            unfold outerOk
            simp only [(stmt_frame s f b).1, hd]
          · exact absurd (by show (stmt s f b).1.outer.pc = _; rw [(stmt_frame s f b).1, hd]) hd'
        · have hf : harmless f.pc := h.nested hd f (by rw [hn]; exact List.mem_cons_self _ _)
          obtain ⟨h1, h2⟩ := stmt_harmless s f b h.outer hd hf
          refine ⟨?_, fun _ g hg => ?_⟩
          · exact outerOk_congr (stmt s f b).1 _ h2 rfl rfl rfl rfl (le_refl _)
          · rcases List.mem_cons.mp hg with rfl | hg
            · exact h1
            · exact h.nested hd g (by rw [hn]; exact List.mem_cons_of_mem _ hg)

theorem rexec_inv (acts : List RAct) (s s' : RState) (h : RInv s)
    (hs : rexec s acts = some s') : RInv s' := by
  induction acts generalizing s with
  | nil =>
    simp only [rexec, Option.some.injEq] at hs
    subst hs
    exact h
  | cons a rest ih =>
    simp only [rexec] at hs
    split at hs
    · simp at hs
    · rename_i s1 h1
      exact ih s1 (rstep_inv s s1 a h h1) hs

theorem inv_afterIncrement : RInv afterIncrement :=
  ⟨by simp [outerOk, afterIncrement], fun _ f hf => by simp [afterIncrement] at hf⟩

theorem outerOk_counts (s : RState) (h : outerOk s) (hd : s.outer.pc ≠ .done) :
    s.stops ≤ 1 ∧ s.marks ≤ 1 := by
  unfold outerOk at h
  split at h <;> simp_all

/-- C7 (amended): the first call `term_resize(false)` has taken `Global::resizing` from 0
to 1; after that any number of notifications are delivered, at any statement boundary, in
any order with its own statements.  As long as the first call has not returned, the counter
is at least 1, `Runner::stop()` has been called at most once and `Global::resized` set at
most once, and every nested call only reads the dimensions, increments the counter and
returns.  When the first call reaches line 161 with no handler running, `Runner::stop()`
has been called exactly once, `Global::resized` has been set exactly once,
`Input::interrupt` is set, and line 161 leaves `Global::resizing` at 0. -/
theorem one_coordinator (acts : List RAct) (s : RState)
    (hs : rexec afterIncrement acts = some s) :
    (s.outer.pc ≠ .done →
      1 ≤ s.resizing ∧ s.stops ≤ 1 ∧ s.marks ≤ 1 ∧ ∀ f ∈ s.nested, harmless f.pc) ∧
    (s.outer.pc = .reset → s.nested = [] →
      s.stops = 1 ∧ s.marks = 1 ∧ s.interrupt = true ∧
      ∀ b, ∃ s', rstep s (.step b) = some s' ∧ s'.outer.pc = .done ∧ s'.nested = [] ∧
        s'.resizing = 0 ∧ s'.stops = 1 ∧ s'.marks = 1 ∧ s'.interrupt = true) := by
  have h := rexec_inv acts afterIncrement s inv_afterIncrement hs
  refine ⟨fun hd => ?_, fun hpc hn => ?_⟩
  · obtain ⟨h1, h2⟩ := outerOk_counts s h.outer hd
    exact ⟨outerOk_resizing s h.outer hd, h1, h2, h.nested hd⟩
  · have ho := h.outer
    unfold outerOk at ho
    rw [hpc] at ho
    obtain ⟨_, hm, hst, hi⟩ := ho
    refine ⟨hst, hm, hi, fun b => ?_⟩
    refine ⟨{ (stmt s s.outer b).1 with outer := (stmt s s.outer b).2 }, ?_, ?_⟩
    · simp [rstep, hn, hpc]
    · simp [stmt, hpc, hn, hm, hst, hi]

/-- C7, counterexample (N = 2): the first call finds the dimensions changed with
`Global::resizing` at 0 and passes the test; before it executes line 150 a notification is
delivered.  The nested call takes the counter from 0 to 1, coordinates, and resets the
counter; the first call then takes it from 0 to 1 again and coordinates too:
`Runner::stop()` is called twice and `Global::resized` is set twice. -/
theorem early_notification_coordinates_twice :
    rexec atEntry [.step true, .step true] =
      some { atEntry with outer := { pc := .incr, force := false } } ∧
    rexec atEntry earlyNotification =
      some { resizing := 0, resized := true, interrupt := true,
             outer := { pc := .done, force := false }, nested := [],
             stops := 2, marks := 2 } := by
  decide

/-- C7, witness (N = 3): two notifications are delivered after the increment of the
first call; it reaches line 161 having coordinated alone. -/
theorem one_coordinator_witness :
    rexec atEntry [.step true, .step true, .step true] = some afterIncrement ∧
    rexec afterIncrement burstSchedule =
      some { resizing := 2, resized := true, interrupt := true,
             outer := { pc := .reset, force := false }, nested := [],
             stops := 1, marks := 1 } ∧
    ∃ s', rstep { resizing := 2, resized := true, interrupt := true,
                  outer := { pc := .reset, force := false }, nested := [],
                  stops := 1, marks := 1 } (.step true) = some s' ∧
      s'.outer.pc = .done ∧ s'.nested = [] ∧ s'.resizing = 0 ∧ s'.stops = 1 ∧
      s'.marks = 1 ∧ s'.interrupt = true :=
  ⟨by decide, by decide,
    ((one_coordinator burstSchedule _ (by decide)).2 rfl rfl).2.2.2 true⟩

end Resize

namespace Threads

/-! ## The invariant of the interleaved threads -/

theorem inv_init : Inv Sys.init := by
  constructor <;> simp [Sys.init, WPc.holds, WPc.sawActive, WPc.sawStopping, WPc.sawResized]

theorem holder_unique (s : Sys) (h : Inv s) (i j : Nat)
    (hi : (s.worker i).holds = true) (hj : (s.worker j).holds = true) : i = j := by
  have h1 := (h.holds_iff i).mp hi
  have h2 := (h.holds_iff j).mp hj
  rw [h1] at h2
  simpa using h2

theorem exists_update_running (f : Nat → WPc) (i : Nat) (pc : WPc) :
    (∃ k, Function.update f i pc k = .running) ↔
      (pc = .running ∨ ∃ k, k ≠ i ∧ f k = .running) := by
  constructor
  · rintro ⟨k, hk⟩
    by_cases hki : k = i
    · subst hki
      left
      simpa using hk
    · right
      exact ⟨k, hki, by simpa [Function.update_noteq hki] using hk⟩
  · rintro (h | ⟨k, hki, hk⟩)
    · exact ⟨i, by simp [h]⟩
    · exact ⟨k, by simpa [Function.update_noteq hki] using hk⟩

/-- Updating one worker: the obligations that re-establish the invariant. -/
theorem inv_update (s : Sys) (h : Inv s) (i : Nat) (pc : WPc) (a : Bool) (m : Option Owner)
    (rs : List (Nat × Flag × Bool)) (st sz : Bool)
    (hsub : ∀ e ∈ s.reads, e ∈ rs)
    (c1 : pc.holds = true ↔ m = some (.worker i))
    (c2 : ∀ k, k ≠ i → ((s.worker k).holds = true ↔ m = some (.worker k)))
    (c3 : a = true ↔ (pc = .running ∨ ∃ k, k ≠ i ∧ s.worker k = .running))
    (c4 : ∀ j, s.stop j = .acquired ↔ m = some (.stop j))
    (c5 : pc.sawActive = true → (i, Flag.active, false) ∈ rs)
    (c6 : pc.sawStopping = true → (i, Flag.stopping, false) ∈ rs)
    (c7 : pc.sawResized = true → (i, Flag.resized, false) ∈ rs) :
    Inv { active := a, stopping := st, resized := sz, quitting := s.quitting, mtx := m,
          worker := Function.update s.worker i pc, lock := s.lock, stop := s.stop,
          reads := rs } := by
  constructor
  · intro k
    by_cases hk : k = i
    · subst hk
      simpa using c1
    · simpa [Function.update_noteq hk] using c2 k hk
  · simp only [exists_update_running]
    exact c3
  · exact c4
  · intro k
    by_cases hk : k = i
    · subst hk
      simpa using c5
    · simp only [Function.update_noteq hk]
      intro hs
      exact hsub _ (h.saw_active k hs)
  · intro k
    by_cases hk : k = i
    · subst hk
      simpa using c6
    · simp only [Function.update_noteq hk]
      intro hs
      exact hsub _ (h.saw_stopping k hs)
  · intro k
    by_cases hk : k = i
    · subst hk
      simpa using c7
    · simp only [Function.update_noteq hk]
      intro hs
      exact hsub _ (h.saw_resized k hs)
  · exact h.lock_ok
  · exact h.not_dead

/-- Updating one call of `stop()`: the obligations that re-establish the invariant. -/
theorem inv_update_stop (s : Sys) (h : Inv s) (j : Nat) (pc : SPc)
    (hpc : pc ≠ .dead ∧ pc ≠ .marked) (m : Option Owner)
    (st sz : Bool)
    (c1 : ∀ k, (s.worker k).holds = true ↔ m = some (.worker k))
    (c2 : pc = .acquired ↔ m = some (.stop j))
    (c3 : ∀ k, k ≠ j → (s.stop k = .acquired ↔ m = some (.stop k))) :
    Inv { active := s.active, stopping := st, resized := sz, quitting := s.quitting,
          mtx := m, worker := s.worker, lock := s.lock,
          stop := Function.update s.stop j pc, reads := s.reads } := by
  constructor
  · exact c1
  · exact h.active_iff
  · intro k
    by_cases hk : k = j
    · subst hk
      simpa using c2
    · simpa [Function.update_noteq hk] using c3 k hk
  · exact h.saw_active
  · exact h.saw_stopping
  · exact h.saw_resized
  · exact h.lock_ok
  · intro k
    by_cases hk : k = j
    · subst hk
      simpa using hpc
    · simpa [Function.update_noteq hk] using h.not_dead k


/-- The other workers do not hold the mutex when worker `i` does. -/
theorem others_not_holding (s : Sys) (h : Inv s) (i : Nat) (hi : (s.worker i).holds = true)
    (k : Nat) (hk : k ≠ i) : (s.worker k).holds = false := by
  by_contra hc
  have hc' : (s.worker k).holds = true := by simpa using hc
  exact hk (holder_unique s h k i hc' hi)

/-- No other worker is running when worker `i` holds the mutex. -/
theorem others_not_running (s : Sys) (h : Inv s) (i : Nat) (hi : (s.worker i).holds = true) :
    ¬ ∃ k, k ≠ i ∧ s.worker k = .running := by
  rintro ⟨k, hk, hr⟩
  have := others_not_holding s h i hi k hk
  rw [hr] at this
  cases this

/-- A worker that holds the mutex and is not running finds `active` clear. -/
theorem active_false_of_holder (s : Sys) (h : Inv s) (i : Nat)
    (hi : (s.worker i).holds = true) (hr : s.worker i ≠ .running) : s.active = false := by
  by_contra hc
  have hc' : s.active = true := by simpa using hc
  obtain ⟨k, hk⟩ := h.active_iff.mp hc'
  by_cases hki : k = i
  · subst hki
    exact hr hk
  · exact others_not_running s h i hi ⟨k, hki, hk⟩

/-- A move of worker `i` between two places where it holds the mutex and neither sets nor
clears `active`. -/
theorem inv_move (s : Sys) (h : Inv s) (i : Nat) (pc : WPc)
    (rs : List (Nat × Flag × Bool)) (st sz : Bool)
    (hsub : ∀ e ∈ s.reads, e ∈ rs)
    (hold : (s.worker i).holds = true) (hold' : pc.holds = true)
    (hrun : s.worker i ≠ .running) (hrun' : pc ≠ .running)
    (c5 : pc.sawActive = true → (i, Flag.active, false) ∈ rs)
    (c6 : pc.sawStopping = true → (i, Flag.stopping, false) ∈ rs)
    (c7 : pc.sawResized = true → (i, Flag.resized, false) ∈ rs) :
    Inv { active := s.active, stopping := st, resized := sz, quitting := s.quitting,
          mtx := s.mtx, worker := Function.update s.worker i pc, lock := s.lock,
          stop := s.stop, reads := rs } := by
  have hm := (h.holds_iff i).mp hold
  apply inv_update s h i pc s.active s.mtx rs st sz hsub
  · simp [hold', hm]
  · intro k hk
    exact h.holds_iff k
  · rw [active_false_of_holder s h i hold hrun]
    simp [hrun', others_not_running s h i hold]
  · exact h.acquired_iff
  · exact c5
  · exact c6
  · exact c7

theorem workStep_inv (s s' : Sys) (i : Nat) (h : Inv s) (hs : workStep s i 0 = some s') :
    Inv s' := by
  have hlock : Function.update s.lock i 0 = s.lock := by
    funext k
    by_cases hk : k = i
    · subst hk
      simp [h.lock_ok k]
    · simp [Function.update_noteq hk]
  unfold workStep at hs
  split at hs
  · simp at hs
  · -- created: `pthread_mutex_lock` returns 0 once the mutex is free
    rename_i hpc
    rw [if_neg (not_not.mpr rfl)] at hs
    split at hs
    · rename_i hm
      simp only [Option.some.injEq] at hs
      subst hs
      rw [hlock]
      have hnone : ∀ k, (s.worker k).holds = false := by
        intro k
        by_contra hc
        have := (h.holds_iff k).mp (by simpa using hc)
        rw [hm] at this
        cases this
      apply inv_update s h i .locked s.active _ s.reads s.stopping s.resized (fun _ he => he)
      · simp [WPc.holds]
      · intro k hk
        simp [hnone k, Ne.symm hk]
      · constructor
        · intro ha
          obtain ⟨k, hk⟩ := h.active_iff.mp ha
          right
          refine ⟨k, ?_, hk⟩
          rintro rfl
          rw [hpc] at hk
          cases hk
        · rintro (hc | ⟨k, _, hk⟩)
          · cases hc
          · exact h.active_iff.mpr ⟨k, hk⟩
      · intro j
        rw [h.acquired_iff j, hm]
        simp
      · simp [WPc.sawActive]
      · simp [WPc.sawStopping]
      · simp [WPc.sawResized]
    · simp at hs
  · -- locked: read `active`
    rename_i hpc
    simp only [Option.some.injEq] at hs
    subst hs
    have hold : (s.worker i).holds = true := by rw [hpc]; rfl
    have hact := active_false_of_holder s h i hold (by rw [hpc]; simp)
    apply inv_move s h i _ _ s.stopping s.resized (fun e he => List.mem_append_left _ he) hold
    · split <;> rfl
    · rw [hpc]; simp
    · split <;> simp
    · simp [hact]
    · simp [hact, WPc.sawStopping]
    · simp [hact, WPc.sawResized]
  · -- readActive: read `stopping`
    rename_i hpc
    simp only [Option.some.injEq] at hs
    subst hs
    have hold : (s.worker i).holds = true := by rw [hpc]; rfl
    have hsaw := h.saw_active i (by rw [hpc]; rfl)
    apply inv_move s h i _ _ s.stopping s.resized (fun e he => List.mem_append_left _ he) hold
    · split <;> rfl
    · rw [hpc]; simp
    · split <;> simp
    · intro _
      exact List.mem_append_left _ hsaw
    · cases hst : s.stopping <;> simp [WPc.sawStopping]
    · cases hst : s.stopping <;> simp [WPc.sawResized]
  · -- readStopping: read `Global::resized`
    rename_i hpc
    simp only [Option.some.injEq] at hs
    subst hs
    have hold : (s.worker i).holds = true := by rw [hpc]; rfl
    have hsaw := h.saw_active i (by rw [hpc]; rfl)
    have hsaw2 := h.saw_stopping i (by rw [hpc]; rfl)
    apply inv_move s h i _ _ s.stopping s.resized (fun e he => List.mem_append_left _ he) hold
    · split <;> rfl
    · rw [hpc]; simp
    · split <;> simp
    · intro _
      exact List.mem_append_left _ hsaw
    · intro _
      exact List.mem_append_left _ hsaw2
    · cases hst : s.resized <;> simp [WPc.sawResized]
  · -- passed: `atomic_lock lck(active)`
    rename_i hpc
    simp only [Option.some.injEq] at hs
    subst hs
    have hold : (s.worker i).holds = true := by rw [hpc]; rfl
    have hm := (h.holds_iff i).mp hold
    apply inv_update s h i .running true s.mtx s.reads s.stopping s.resized (fun _ he => he)
    · simp [WPc.holds, hm]
    · intro k _
      exact h.holds_iff k
    · simp
    · exact h.acquired_iff
    · intro _
      exact h.saw_active i (by rw [hpc]; rfl)
    · intro _
      exact h.saw_stopping i (by rw [hpc]; rfl)
    · intro _
      exact h.saw_resized i (by rw [hpc]; rfl)
  · -- running: the destructor of `lck`
    rename_i hpc
    simp only [Option.some.injEq] at hs
    subst hs
    have hold : (s.worker i).holds = true := by rw [hpc]; rfl
    have hm := (h.holds_iff i).mp hold
    apply inv_update s h i .cleared false s.mtx s.reads s.stopping s.resized (fun _ he => he)
    · simp [WPc.holds, hm]
    · intro k _
      exact h.holds_iff k
    · simp [others_not_running s h i hold]
    · exact h.acquired_iff
    · intro _
      exact h.saw_active i (by rw [hpc]; rfl)
    · intro _
      exact h.saw_stopping i (by rw [hpc]; rfl)
    · intro _
      exact h.saw_resized i (by rw [hpc]; rfl)
  · -- cleared: the destructor of `pt_lck`
    rename_i hpc
    rw [if_pos (by simp [h.lock_ok i])] at hs
    simp only [Option.some.injEq] at hs
    subst hs
    have hold : (s.worker i).holds = true := by rw [hpc]; rfl
    have hm := (h.holds_iff i).mp hold
    have hact := active_false_of_holder s h i hold (by rw [hpc]; simp)
    apply inv_update s h i .exited s.active none s.reads s.stopping s.resized (fun _ he => he)
    · simp [WPc.holds]
    · intro k hk
      simp [others_not_holding s h i hold k hk]
    · simp [hact, others_not_running s h i hold]
    · intro j
      rw [h.acquired_iff j, hm]
      simp
    · simp [WPc.sawActive]
    · simp [WPc.sawStopping]
    · simp [WPc.sawResized]
  · -- aborting: the destructor of `pt_lck`
    rename_i hpc
    rw [if_pos (by simp [h.lock_ok i])] at hs
    simp only [Option.some.injEq] at hs
    subst hs
    have hold : (s.worker i).holds = true := by rw [hpc]; rfl
    have hm := (h.holds_iff i).mp hold
    have hact := active_false_of_holder s h i hold (by rw [hpc]; simp)
    apply inv_update s h i .exited s.active none s.reads s.stopping s.resized (fun _ he => he)
    · simp [WPc.holds]
    · intro k hk
      simp [others_not_holding s h i hold k hk]
    · simp [hact, others_not_running s h i hold]
    · intro j
      rw [h.acquired_iff j, hm]
      simp
    · simp [WPc.sawActive]
    · simp [WPc.sawStopping]
    · simp [WPc.sawResized]
  · simp at hs


theorem trylock_free (s : Sys) (hm : s.mtx = none) : trylock s 0 = 0 := by
  simp [trylock, hm]

theorem trylock_held (s : Sys) (o : Owner) (hm : s.mtx = some o) : trylock s 0 = EBUSY := by
  simp [trylock, hm]

theorem stopStep_inv (s s' : Sys) (j : Nat) (h : Inv s) (hs : stopStep s j 0 = some s') :
    Inv s' := by
  unfold stopStep at hs
  split at hs
  · simp at hs
  · -- entry: `stopping = true`
    rename_i hpc
    simp only [Option.some.injEq] at hs
    subst hs
    apply inv_update_stop s h j .raised (by decide) s.mtx true s.resized h.holds_iff
    · have := h.acquired_iff j
      rw [hpc] at this
      simpa using this
    · intro k _
      exact h.acquired_iff k
  · -- raised: `pthread_mutex_trylock` returns 0 or `EBUSY`
    rename_i hpc
    cases hm : s.mtx with
    | none =>
      rw [trylock_free s hm] at hs
      simp only [EOWNERDEAD, ENOTRECOVERABLE, EBUSY, OfNat.zero_ne_ofNat, or_self, if_false,
        if_true, Option.some.injEq] at hs
      subst hs
      apply inv_update_stop s h j .acquired (by decide) _ s.stopping s.resized
      · intro k
        rw [h.holds_iff k, hm]
        simp
      · simp
      · intro k hk
        rw [h.acquired_iff k, hm]
        simp [Ne.symm hk]
    | some o =>
      rw [trylock_held s o hm] at hs
      simp only [EOWNERDEAD, ENOTRECOVERABLE, EBUSY, Nat.reduceEqDiff, or_self, if_false,
        if_true, Option.some.injEq] at hs
      subst hs
      apply inv_update_stop s h j .busy (by decide) s.mtx s.stopping s.resized h.holds_iff
      · have := h.acquired_iff j
        rw [hpc] at this
        simpa using this
      · intro k _
        exact h.acquired_iff k
  · -- dead: not reached without a failing lock call
    rename_i hpc
    exact absurd hpc (h.not_dead j).1
  · -- marked: not reached without a failing lock call
    rename_i hpc
    exact absurd hpc (h.not_dead j).2
  · simp at hs
  · -- busy: `atomic_wait(active)`
    rename_i hpc
    split at hs
    · simp only [Option.some.injEq] at hs
      subst hs
      apply inv_update_stop s h j .pause (by decide) s.mtx s.stopping s.resized h.holds_iff
      · have := h.acquired_iff j
        rw [hpc] at this
        simpa using this
      · intro k _
        exact h.acquired_iff k
    · simp at hs
  · -- acquired: `pthread_mutex_unlock`
    rename_i hpc
    simp only [Option.some.injEq] at hs
    subst hs
    have hm := (h.acquired_iff j).mp hpc
    apply inv_update_stop s h j .pause (by decide) none s.stopping s.resized
    · intro k
      rw [h.holds_iff k, hm]
      simp
    · simp
    · intro k hk
      rw [h.acquired_iff k, hm]
      simp [Ne.symm hk]
  · -- pause: `stopping = false`
    rename_i hpc
    simp only [Option.some.injEq] at hs
    subst hs
    apply inv_update_stop s h j .returned (by decide) s.mtx false s.resized h.holds_iff
    · have := h.acquired_iff j
      rw [hpc] at this
      simpa using this
    · intro k _
      exact h.acquired_iff k
  · simp at hs

theorem step_inv (s s' : Sys) (a : Act) (hc : a.clean = true) (h : Inv s)
    (hs : step s a = some s') : Inv s' := by
  cases a with
  | spawn i =>
    simp only [step] at hs
    split at hs
    · rename_i hpc
      simp only [Option.some.injEq] at hs
      subst hs
      apply inv_update s h i .created s.active s.mtx s.reads s.stopping s.resized
        (fun _ he => he)
      · have := h.holds_iff i
        rw [hpc] at this
        simpa [WPc.holds] using this
      · intro k _
        exact h.holds_iff k
      · rw [h.active_iff]
        constructor
        · rintro ⟨k, hk⟩
          right
          refine ⟨k, ?_, hk⟩
          rintro rfl
          rw [hpc] at hk
          cases hk
        · rintro (hc | ⟨k, _, hk⟩)
          · cases hc
          · exact ⟨k, hk⟩
      · exact h.acquired_iff
      · simp [WPc.sawActive]
      · simp [WPc.sawStopping]
      · simp [WPc.sawResized]
    · simp at hs
  | work i => exact workStep_inv s s' i h hs
  | lockFails i status => cases hc
  | fault i =>
    simp only [step] at hs
    split at hs
    · simp only [Option.some.injEq] at hs
      subst hs
      exact ⟨h.holds_iff, h.active_iff, h.acquired_iff, h.saw_active, h.saw_stopping,
        h.saw_resized, h.lock_ok, h.not_dead⟩
    · simp at hs
  | call j =>
    simp only [step] at hs
    split at hs
    · rename_i hpc
      simp only [Option.some.injEq] at hs
      subst hs
      apply inv_update_stop s h j .entry (by decide) s.mtx s.stopping s.resized h.holds_iff
      · have := h.acquired_iff j
        rw [hpc] at this
        simpa using this
      · intro k _
        exact h.acquired_iff k
    · simp at hs
  | stopStep j => exact stopStep_inv s s' j h hs
  | trylockFails j err => cases hc
  | resize b =>
    simp only [step, Option.some.injEq] at hs
    subst hs
    exact ⟨h.holds_iff, h.active_iff, h.acquired_iff, h.saw_active, h.saw_stopping,
      h.saw_resized, h.lock_ok, h.not_dead⟩
  | quit =>
    simp only [step, Option.some.injEq] at hs
    subst hs
    exact ⟨h.holds_iff, h.active_iff, h.acquired_iff, h.saw_active, h.saw_stopping,
      h.saw_resized, h.lock_ok, h.not_dead⟩

theorem exec_inv (acts : List Act) (s s' : Sys) (hc : ∀ a ∈ acts, a.clean = true)
    (h : Inv s) (hs : exec s acts = some s') : Inv s' := by
  induction acts generalizing s with
  | nil =>
    simp only [exec, Option.some.injEq] at hs
    subst hs
    exact h
  | cons a rest ih =>
    simp only [exec] at hs
    split at hs
    · simp at hs
    · rename_i s1 h1
      exact ih s1 (fun b hb => hc b (List.mem_cons_of_mem _ hb))
        (step_inv s s1 a (hc a (List.mem_cons_self _ _)) h h1) hs

/-! ## C2: at most one active worker, and a worker whose lock fails -/

/-- Mutual exclusion when no lock call fails: after every schedule of worker
steps, `run()` thread creations, `stop()` calls and writes to `Global::resized` and
`Global::quitting` in which `pthread_mutex_lock` and `pthread_mutex_trylock` never return
an error, at most one worker is between `atomic_lock lck(active)` and the end of its
thread, and `active` is set exactly when there is one.  That worker holds `mtx` and has
read `active`, `stopping` and `Global::resized` as false in line 325; `mtx` is held by a
worker exactly while that worker is between line 317 and the release at its exit, and
`active` is clear whenever no worker holds `mtx`, so it is cleared before `mtx` is
released. -/
theorem at_most_one_active_worker (acts : List Act) (s : Sys)
    (hc : ∀ a ∈ acts, a.clean = true)
    (hs : exec Sys.init acts = some s) :
    (∀ i j, s.worker i = .running → s.worker j = .running → i = j) ∧
    (s.active = true ↔ ∃ i, s.worker i = .running) ∧
    (∀ i, s.worker i = .running →
      s.mtx = some (.worker i) ∧
      (i, Flag.active, false) ∈ s.reads ∧
      (i, Flag.stopping, false) ∈ s.reads ∧
      (i, Flag.resized, false) ∈ s.reads) ∧
    (∀ i, s.mtx = some (.worker i) ↔ (s.worker i).holds = true) ∧
    (s.active = true → ∃ i, s.mtx = some (.worker i)) := by
  have h := exec_inv acts Sys.init s hc inv_init hs
  refine ⟨?_, h.active_iff, ?_, fun i => (h.holds_iff i).symm, ?_⟩
  · intro i j hi hj
    exact holder_unique s h i j (by rw [hi]; rfl) (by rw [hj]; rfl)
  · intro i hi
    exact ⟨(h.holds_iff i).mp (by rw [hi]; rfl), h.saw_active i (by rw [hi]; rfl),
      h.saw_stopping i (by rw [hi]; rfl), h.saw_resized i (by rw [hi]; rfl)⟩
  · intro ha
    obtain ⟨i, hi⟩ := h.active_iff.mp ha
    exact ⟨i, (h.holds_iff i).mp (by rw [hi]; rfl)⟩

/-- An instance of `at_most_one_active_worker`: two workers are created, worker 0 takes
the mutex and passes line 325; it is the only active one. -/
theorem at_most_one_active_worker_witness :
    ∃ s, exec Sys.init oneWorkerSchedule = some s ∧
      s.active = true ∧ s.worker 0 = .running ∧ s.worker 1 = .created ∧
      (∀ i j, s.worker i = .running → s.worker j = .running → i = j) :=
  ⟨_, rfl, rfl, rfl, rfl,
    (at_most_one_active_worker oneWorkerSchedule _ (by decide) rfl).1⟩

/-- C2, the code at the failing schedules: at most one worker is to hold `active` at any
instant, and a worker is to set it only while holding `mtx`.  In the first schedule the
`pthread_mutex_lock` of worker 1 returns `EINVAL`; the worker sets `stopping`
(line 322), a call of `stop()` that was sleeping in line 502 clears it (line 503), and the
worker reads `active`, `stopping` and `Global::resized` as false in line 325 and executes
`atomic_lock lck(active)` without holding `mtx`, which worker 0 holds: both workers are
between line 330 and their exit, `active` is set, and `stop()` has returned.  In the second
schedule the mutex is not recoverable for any caller while the process is quitting: the
trylock of `stop()` and the locks of both workers return `ENOTRECOVERABLE`, `stop()`
clears the `stopping` the workers have set, and both workers are between line 330 and
their exit while nobody holds `mtx`. -/
theorem failed_lock_worker_becomes_active :
    (exec Sys.init failedLockSchedule).map
        (fun s => (s.worker 0, s.worker 1, s.active, s.mtx))
      = some (.running, .running, true, some (.worker 0)) ∧
    (exec Sys.init failedLockSchedule).map
        (fun s => (s.lock 0, s.lock 1, s.stopping, s.stop 0))
      = some (0, EINVAL, false, .returned) ∧
    (exec Sys.init unrecoverableSchedule).map
        (fun s => (s.worker 0, s.worker 1, s.active, s.mtx))
      = some (.running, .running, true, none) ∧
    (exec Sys.init unrecoverableSchedule).map
        (fun s => (s.lock 0, s.lock 1, s.stopping, s.stop 0))
      = some (ENOTRECOVERABLE, ENOTRECOVERABLE, false, .returned) :=
  ⟨by decide, by decide, by decide, by decide⟩

/-! ## C3: `stop()` and a worker that has not yet set `active` -/

/-- C3, the code at the failing schedule: the worker has taken `mtx` and passed the
condition of line 325 when `stop()` raises `stopping`; `pthread_mutex_trylock` returns
`EBUSY`, `atomic_wait(active)` returns at once because `active` is still clear, the worker
then sets `active`, and `stop()` clears `stopping` and returns: `active` is true and the
worker runs on with `stopping` false. -/
theorem stop_returns_while_worker_active :
    (exec Sys.init raceSchedule).map
        (fun s => (s.stop 0, s.active, s.stopping, s.worker 0, s.mtx))
      = some (.returned, true, false, .running, some (.worker 0)) := by
  decide

end Threads

namespace Runner

/-! ## C11: the bit pairs only move forward -/

theorem ns_inj (p q : Panel) : p.ns = q.ns ↔ p = q := by
  cases p <;> cases q <;> decide

theorem started_append_collect (p q : Panel) (evs : List Event) (b : Bool) :
    started q (evs ++ [Event.collect p.ns b]) = started q evs + (if p = q then 1 else 0) := by
  simp only [started, List.countP_append, List.countP_cons, List.countP_nil, ns_inj]
  by_cases h : p = q <;> simp [h]

theorem drawn_append_collect (p q : Panel) (evs : List Event) (b : Bool) :
    drawn q (evs ++ [Event.collect p.ns b]) = drawn q evs := by
  simp [drawn, List.countP_append, List.countP_cons]

theorem started_append_draw (p q : Panel) (evs : List Event) (a b : Bool) :
    started q (evs ++ [Event.draw p.ns a b]) = started q evs := by
  simp [started, List.countP_append, List.countP_cons]

theorem drawn_append_draw (p q : Panel) (evs : List Event) (a b : Bool) :
    drawn q (evs ++ [Event.draw p.ns a b]) = drawn q evs + (if p = q then 1 else 0) := by
  simp only [drawn, List.countP_append, List.countP_cons, List.countP_nil, ns_inj]
  by_cases h : p = q <;> simp [h]

theorem forward_refl (a : PStatus) : forward a a := Or.inl rfl

theorem forward_rank (a b : PStatus) (h : forward a b) : a.rank ≤ b.rank := by
  rcases h with h | ⟨h1, h2⟩ | ⟨h1, h2⟩
  · rw [h]
  · rw [h1, h2]; decide
  · rw [h1, h2]; decide


theorem moves_same {Info : Type} (boxes : List String) (ev0 : List Event)
    (a b : LoopState Info) (ho : Once boxes ev0 a) (hm : b.box_mask = a.box_mask)
    (he : b.w.events = a.w.events) (hf : ∀ p, a.fut p = none → b.fut p = none) :
    Moves boxes ev0 a b := by
  obtain ⟨new, hev, hall⟩ := ho
  refine ⟨⟨new, by rw [he, hev], fun p => ?_⟩, fun p => ?_, Or.inl hm⟩
  · obtain ⟨h1, h2, h3, h4, h5, h6, h7⟩ := hall p
    rw [hm]
    exact ⟨h1, h2, h3, h4, h5, fun hc => ⟨(h6 hc).1, fun hd => hf p ((h6 hc).2 hd)⟩, h7⟩
  · rw [hm]
    exact forward_refl _

theorem panelStep_moves {Info : Type} (x : Ext Info) (conf : runner_conf) (k : Nat)
    (p : Panel) (boxes : List String) (ev0 : List Event) (s : LoopState Info)
    (ho : Once boxes ev0 s) : Moves boxes ev0 s (panelStep x conf k p s).1 := by
  have hsame : Moves boxes ev0 s s := moves_same boxes ev0 s s ho rfl rfl (fun _ h => h)
  obtain ⟨new, hev, hall⟩ := ho
  obtain ⟨hA, hP, hC⟩ := status_bits s.box_mask p
  unfold panelStep
  by_cases h1 : bitset_test s.box_mask p.present = true
  swap
  · simp only [h1]
    exact hsame
  simp only [h1, if_true]
  by_cases h2 : bitset_test s.box_mask p.running = true
  swap
  · -- the collector is started
    have h2' : bitset_test s.box_mask p.running = false := by simpa using h2
    have hst : status s.box_mask p = .pending := hP.mpr ⟨h1, h2'⟩
    simp only [h2', Bool.not_false, if_true]
    refine ⟨⟨new ++ [Event.collect p.ns conf.no_update], by simp [hev], fun q => ?_⟩,
      fun q => ?_, Or.inr ⟨p, Or.inl ⟨h1, h2', rfl⟩⟩⟩
    · obtain ⟨q1, q2, q3, q4, q5, q6, q7⟩ := hall q
      rw [started_append_collect, drawn_append_collect]
      by_cases hq : p = q
      · subst hq
        have h0 := q5 hst
        have hreq : requested boxes p ≠ false := by
          intro hr
          have := (q4 hr).1
          rw [hst] at this
          cases this
        simp only [status_set_self _ _ hst, if_true]
        refine ⟨by simp, by omega, by omega, fun hr => absurd hr hreq, by simp, fun _ => ?_,
          by simp⟩
        exact ⟨by omega, fun hd => by omega⟩
      · simp only [status_set_other _ _ _ hq, if_neg hq, Nat.add_zero]
        refine ⟨q1, q2, q3, q4, q5, fun hc => ⟨(q6 hc).1, fun hd => ?_⟩, q7⟩
        show Function.update s.fut p _ q = none
        rw [Function.update_noteq (Ne.symm hq)]
        exact (q6 hc).2 hd
    · by_cases hq : p = q
      · subst hq
        show forward _ (status (bitset_set s.box_mask p.running) p)
        rw [status_set_self _ _ hst]
        exact Or.inr (Or.inl ⟨hst, rfl⟩)
      · show forward _ (status (bitset_set s.box_mask p.running) q)
        rw [status_set_other _ _ _ hq]
        exact forward_refl _
  · have hst : status s.box_mask p = .collecting := hC.mpr ⟨h1, h2⟩
    simp only [h2, Bool.not_true, Bool.false_eq_true, if_false]
    cases hf : s.fut p with
    | none => exact hsame
    | some r =>
      simp only
      by_cases hr : x.ready p k = true
      swap
      · simp only [hr]
        exact hsame
      simp only [hr, if_true]
      have hd0 : drawn p new = 0 := by
        obtain ⟨_, _, q3, _, _, q6, _⟩ := hall p
        by_contra hne
        have h1 : drawn p new = 1 := by omega
        have := (q6 hst).2 h1
        rw [hf] at this
        cases this
      cases r with
      | error err =>
        simp only
        refine moves_same boxes ev0 s { s with fut := Function.update s.fut p none }
          ⟨new, hev, hall⟩ rfl rfl ?_
        intro q hq
        show Function.update s.fut p none q = none
        by_cases hpq : q = p
        · subst hpq
          simp
        · rw [Function.update_noteq hpq]
          exact hq
      | ok info =>
        simp only
        cases hdr : x.draw p info conf.force_redraw conf.no_update with
        | error err =>
          simp only
          refine ⟨⟨new ++ [Event.draw p.ns conf.force_redraw conf.no_update], by simp [hev],
            fun q => ?_⟩, fun q => forward_refl _, Or.inl rfl⟩
          obtain ⟨q1, q2, q3, q4, q5, q6, q7⟩ := hall q
          rw [started_append_draw, drawn_append_draw]
          by_cases hq : p = q
          · subst hq
            have hreq : requested boxes p ≠ false := by
              intro hr
              have := (q4 hr).1
              rw [hst] at this
              cases this
            simp only [if_true]
            refine ⟨q1, q2, by omega, fun hr => absurd hr hreq, ?_, fun hc => ?_, ?_⟩
            · intro hp
              rw [hst] at hp
              cases hp
            · refine ⟨(q6 hc).1, fun _ => ?_⟩
              show Function.update s.fut p none p = none
              simp
            · intro _ hp
              rw [hst] at hp
              cases hp
          · simp only [if_neg hq, Nat.add_zero]
            refine ⟨q1, q2, q3, q4, q5, fun hc => ⟨(q6 hc).1, fun hd => ?_⟩, q7⟩
            show Function.update s.fut p none q = none
            rw [Function.update_noteq (Ne.symm hq)]
            exact (q6 hc).2 hd
        | ok text =>
          simp only
          refine ⟨⟨new ++ [Event.draw p.ns conf.force_redraw conf.no_update], by simp [hev],
            fun q => ?_⟩, fun q => ?_, Or.inr ⟨p, Or.inr ⟨h1, h2, rfl⟩⟩⟩
          · obtain ⟨q1, q2, q3, q4, q5, q6, q7⟩ := hall q
            rw [started_append_draw, drawn_append_draw]
            by_cases hq : p = q
            · subst hq
              have hreq : requested boxes p ≠ false := by
                intro hr
                have := (q4 hr).1
                rw [hst] at this
                cases this
              show status (s.box_mask ^^^ p.done) p ≠ .invalid ∧ _
              simp only [status_xor_self _ _ hst, if_true]
              have hs1 := (q6 hst).1
              refine ⟨by simp, q2, by omega, fun hr => absurd hr hreq, by simp, by simp,
                fun _ _ => ⟨hs1, by omega⟩⟩
            · show status (s.box_mask ^^^ p.done) q ≠ .invalid ∧ _
              simp only [status_xor_other _ _ _ hq, if_neg hq, Nat.add_zero]
              refine ⟨q1, q2, q3, q4, q5, fun hc => ⟨(q6 hc).1, fun hd => ?_⟩, q7⟩
              show Function.update s.fut p none q = none
              rw [Function.update_noteq (Ne.symm hq)]
              exact (q6 hc).2 hd
          · by_cases hq : p = q
            · subst hq
              show forward _ (status (s.box_mask ^^^ p.done) p)
              rw [status_xor_self _ _ hst]
              exact Or.inr (Or.inr ⟨hst, rfl⟩)
            · show forward _ (status (s.box_mask ^^^ p.done) q)
              rw [status_xor_other _ _ _ hq]
              exact forward_refl _


theorem passBody_mem_trace {Info : Type} (x : Ext Info) (conf : runner_conf) (k : Nat)
    (ps : List Panel) (s : LoopState Info) :
    (passBody x conf k ps s).1 ∈ s :: passTrace x conf k ps s := by
  induction ps generalizing s with
  | nil => simp [passBody]
  | cons p ps ih =>
    simp only [passBody, passTrace]
    rcases h : panelStep x conf k p s with ⟨s1, _ | msg⟩
    · simp only
      exact List.mem_cons_of_mem _ (ih s1)
    · simp

theorem passTrace_chain {Info : Type} (x : Ext Info) (conf : runner_conf) (k : Nat)
    (boxes : List String) (ev0 : List Event) (ps : List Panel) (s : LoopState Info)
    (rest : List (LoopState Info)) (ho : Once boxes ev0 s)
    (hrest : Once boxes ev0 (passBody x conf k ps s).1 →
      List.Chain (Moves boxes ev0) (passBody x conf k ps s).1 rest) :
    List.Chain (Moves boxes ev0) s (passTrace x conf k ps s ++ rest) := by
  induction ps generalizing s with
  | nil => exact hrest ho
  | cons p ps ih =>
    have hstep := panelStep_moves x conf k p boxes ev0 s ho
    simp only [passBody, passTrace] at hrest ⊢
    rcases h : panelStep x conf k p s with ⟨s1, _ | msg⟩
    · rw [h] at hstep hrest
      simp only at hstep hrest ⊢
      exact List.Chain.cons hstep (ih s1 hstep.1 hrest)
    · rw [h] at hstep hrest
      simp only at hstep hrest ⊢
      exact List.Chain.cons hstep (hrest hstep.1)

theorem schedTrace_chain {Info : Type} (x : Ext Info) (e : Env) (conf : runner_conf)
    (boxes : List String) (ev0 : List Event) (fuel k : Nat) (s : LoopState Info)
    (ho : Once boxes ev0 s) :
    List.Chain (Moves boxes ev0) s (schedTrace x e conf fuel k s) := by
  induction fuel generalizing k s with
  | zero => exact List.Chain.nil
  | succ fuel ih =>
    simp only [schedTrace]
    by_cases h0 : s.box_mask = 0
    · simp only [h0, if_true]
      exact List.Chain.nil
    simp only [h0, if_false]
    have hobs : Moves boxes ev0 s { s with w := observe (e.atPass k) s.w } :=
      moves_same boxes ev0 s _ ho rfl (observe_fields _ _).2.2.2.2.2.1 (fun _ h => h)
    by_cases hs : (observe (e.atPass k) s.w).stopping = true
    · simp only [hs, if_true]
      exact List.Chain.cons hobs List.Chain.nil
    simp only [hs]
    rcases h : passBody x conf k Panel.order { s with w := observe (e.atPass k) s.w }
      with ⟨s1, _ | msg⟩
    · simp only
      refine List.Chain.cons hobs (passTrace_chain x conf k boxes ev0 _ _ _ hobs.1 ?_)
      rw [h]
      intro ho1
      exact ih (k + 1) s1 ho1
    · simp only
      refine List.Chain.cons hobs (passTrace_chain x conf k boxes ev0 _ _ _ hobs.1 ?_)
      rw [h]
      intro ho1
      exact List.Chain.cons
        (moves_same boxes ev0 s1 { s1 with w := catchFault msg s1.w } ho1 rfl rfl (fun _ h => h))
        List.Chain.nil

theorem schedLoop_mem_trace {Info : Type} (x : Ext Info) (e : Env) (conf : runner_conf)
    (fuel k : Nat) (s s' : LoopState Info) (h : schedLoop x e conf fuel k s = some s') :
    s' ∈ s :: schedTrace x e conf fuel k s := by
  induction fuel generalizing k s with
  | zero =>
    simp only [schedLoop] at h
    split at h
    · simp only [Option.some.injEq] at h
      simp [h]
    · simp at h
  | succ fuel ih =>
    simp only [schedLoop, schedTrace] at h ⊢
    by_cases h0 : s.box_mask = 0
    · simp only [h0, if_true, Option.some.injEq] at h
      simp [h]
    simp only [h0, if_false] at h ⊢
    by_cases hs : (observe (e.atPass k) s.w).stopping = true
    · simp only [hs, if_true, Option.some.injEq] at h
      simp [hs, h]
    simp only [hs] at h ⊢
    have hmem := passBody_mem_trace x conf k Panel.order { s with w := observe (e.atPass k) s.w }
    rcases hb : passBody x conf k Panel.order { s with w := observe (e.atPass k) s.w }
      with ⟨s1, _ | msg⟩
    · rw [hb] at h hmem
      simp only at h hmem ⊢
      have := ih (k + 1) s1 h
      rcases List.mem_cons.mp this with h1 | h1
      · subst h1
        rcases List.mem_cons.mp hmem with h2 | h2
        · simp [h2]
        · simp [h2]
      · simp [h1]
    · rw [hb] at h
      simp only [Bool.false_eq_true, if_false, Option.some.injEq] at h
      simp [← h]

theorem chain_once {Info : Type} (boxes : List String) (ev0 : List Event)
    (s : LoopState Info) (l : List (LoopState Info)) (ho : Once boxes ev0 s)
    (h : List.Chain (Moves boxes ev0) s l) : ∀ t ∈ s :: l, Once boxes ev0 t := by
  induction l generalizing s with
  | nil =>
    intro t ht
    simp only [List.mem_singleton] at ht
    exact ht ▸ ho
  | cons a l ih =>
    obtain ⟨h1, h2⟩ := List.chain_cons.mp h
    intro t ht
    rcases List.mem_cons.mp ht with h3 | h3
    · exact h3 ▸ ho
    · exact ih a h1.1 h2 t h3

theorem build_mask_valid (boxes : List String) (m0 m : Nat)
    (h : build_mask boxes m0 = some m) : ∀ b ∈ boxes, (box_bits b).isSome = true := by
  induction boxes generalizing m0 with
  | nil => simp
  | cons b rest ih =>
    simp only [build_mask] at h
    cases hb : box_bits b with
    | none => simp [hb] at h
    | some v =>
      rw [hb] at h
      simp only at h
      intro b' hb'
      rcases List.mem_cons.mp hb' with h1 | h1
      · rw [h1, hb]
        rfl
      · exact ih _ h b' h1

theorem once_entry {Info : Type} (boxes : List String) (w : World) (m : Nat)
    (hm : build_mask boxes 0 = some m) :
    Once boxes w.events (loopEntry w m : LoopState Info) := by
  obtain ⟨m', hm', _, hmb⟩ := build_mask_ok boxes 0 (by norm_num) (build_mask_valid boxes 0 m hm)
  rw [hm] at hm'
  simp only [Option.some.injEq] at hm'
  subst hm'
  have hbit0 : ∀ i, bitset_test 0 i = false := fun i => by simp [bitset_test]
  refine ⟨[], by simp [loopEntry], fun p => ?_⟩
  obtain ⟨h1, h2⟩ := hmb p
  rw [hbit0, Bool.false_or] at h1
  rw [hbit0] at h2
  obtain ⟨hA, hP, hC⟩ := status_bits m p
  have hmask : (loopEntry w m : LoopState Info).box_mask = m := rfl
  rw [hmask]
  by_cases hr : requested boxes p = true
  · rw [hr] at h1
    have hst := hP.mpr ⟨h1, h2⟩
    simp [started, drawn, hst, hr]
  · have hr' : requested boxes p = false := by simpa using hr
    rw [hr'] at h1
    have hst := hA.mpr ⟨h1, h2⟩
    simp [started, drawn, hst, hr']


theorem pbits_status (m : Nat) (p : Panel) :
    (status m p = .invalid ↔ pbits m p = (false, true)) ∧
    (status m p = .absent ↔ pbits m p = (false, false)) ∧
    (status m p = .pending ↔ pbits m p = (true, false)) ∧
    (status m p = .collecting ↔ pbits m p = (true, true)) := by
  unfold status
  rcases pbits m p with ⟨a, b⟩
  cases a <;> cases b <;> simp

theorem lockFault_events (st : Nat) (w : World) : (lockFault st w).events = w.events := by
  unfold lockFault
  split <;> rfl

theorem afterLoop_events {Info : Type} (x : Ext Info) (e : Env) (conf : runner_conf)
    (s : LoopState Info) : (afterLoop x e conf s).world.events = s.w.events := by
  have h := (observe_fields e.atFinal s.w).2.2.2.2.2.1
  simp only [afterLoop]
  split <;> simpa [Outcome.world, writeFrame] using h

/-- C11: in a run of `Runner::_runner` whose box list is accepted (the mask `m` is built,
whether or not a box is named more than once), take the states the loop goes through
during any number of passes, whatever the collectors, renderers and polls do and whenever
the foreground writes `stopping`.  At entry the bit pair (present, running) of a block is
`(1,0)` when the block is asked for and `(0,0)` when it is not.  In every state no block has
the pair `(0,1)`, a block not asked for has the pair `(0,0)`, and since the entry the
collector of each block was started at most once and its renderer invoked at most once
(never, for a block not asked for).  From one state to the next the pair of every block
stays or moves one step along Pending `(1,0)`, Collecting `(1,1)`, `(0,0)`, and the mask
changes by nothing, by `set(running)` on a pair `(1,0)`, or by `^= done` on a block whose
two bits are set; so no later state has a block at an earlier place.  The state the loop
returns is one of these states, and the events of the world in which the thread ends
contain at most one start of each collector and one call of each renderer. -/
theorem panel_state_moves_forward {Info : Type} (x : Ext Info) (e : Env)
    (conf : runner_conf) (w : World) (m fuel : Nat)
    (hm : build_mask conf.boxes 0 = some m) :
    (∀ p, pbits (loopEntry w m : LoopState Info).box_mask p = (requested conf.boxes p, false)) ∧
    (∀ s ∈ loopEntry w m :: schedTrace x e conf fuel 0 (loopEntry w m), ∀ p,
      pbits s.box_mask p ≠ (false, true) ∧
      (requested conf.boxes p = false → pbits s.box_mask p = (false, false)) ∧
      ∃ new, s.w.events = w.events ++ new ∧ started p new ≤ 1 ∧ drawn p new ≤ 1 ∧
        (requested conf.boxes p = false → started p new = 0 ∧ drawn p new = 0)) ∧
    List.Chain'
      (fun a b : LoopState Info =>
        (∀ p, forward (status a.box_mask p) (status b.box_mask p)) ∧
        maskStep a.box_mask b.box_mask)
      (loopEntry w m :: schedTrace x e conf fuel 0 (loopEntry w m)) ∧
    List.Pairwise
      (fun a b : LoopState Info =>
        ∀ p, (status a.box_mask p).rank ≤ (status b.box_mask p).rank)
      (loopEntry w m :: schedTrace x e conf fuel 0 (loopEntry w m)) ∧
    (∀ s', schedLoop x e conf fuel 0 (loopEntry w m) = some s' →
      s' ∈ loopEntry w m :: schedTrace x e conf fuel 0 (loopEntry w m)) ∧
    (∀ st out, _runner x e st conf fuel w = some out →
      ∃ new, out.world.events = w.events ++ new ∧
        ∀ p, started p new ≤ 1 ∧ drawn p new ≤ 1 ∧
          (requested conf.boxes p = false → started p new = 0 ∧ drawn p new = 0)) := by
  have hentry : ∀ w0 : World, Once conf.boxes w0.events (loopEntry w0 m : LoopState Info) :=
    fun w0 => once_entry conf.boxes w0 m hm
  have hchain : ∀ w0 : World, List.Chain (Moves conf.boxes w0.events)
      (loopEntry w0 m : LoopState Info) (schedTrace x e conf fuel 0 (loopEntry w0 m)) :=
    fun w0 => schedTrace_chain x e conf conf.boxes w0.events fuel 0 _ (hentry w0)
  have honce := fun w0 : World => chain_once conf.boxes w0.events _ _ (hentry w0) (hchain w0)
  refine ⟨fun p => ?_, fun s hs p => ?_, ?_, ?_, ?_, ?_⟩
  · obtain ⟨m', hm', _, hmb⟩ :=
      build_mask_ok conf.boxes 0 (by norm_num) (build_mask_valid conf.boxes 0 m hm)
    rw [hm] at hm'
    simp only [Option.some.injEq] at hm'
    subst hm'
    obtain ⟨h1, h2⟩ := hmb p
    have hbit0 : ∀ i, bitset_test 0 i = false := fun i => by simp [bitset_test]
    rw [hbit0, Bool.false_or] at h1
    rw [hbit0] at h2
    show pbits m p = _
    simp only [pbits, h1, h2]
  · obtain ⟨new, hev, hall⟩ := honce w s hs
    obtain ⟨q1, q2, q3, q4, _, _, _⟩ := hall p
    obtain ⟨hI, hA, _, _⟩ := pbits_status s.box_mask p
    exact ⟨fun h => q1 (hI.mpr h), fun hr => hA.mp (q4 hr).1,
      new, hev, q2, q3, fun hr => (q4 hr).2⟩
  · exact List.Chain.imp (fun a b h => h.2) (hchain w)
  · have hc : List.Chain'
        (fun a b : LoopState Info =>
          ∀ p, (status a.box_mask p).rank ≤ (status b.box_mask p).rank)
        (loopEntry w m :: schedTrace x e conf fuel 0 (loopEntry w m)) :=
      List.Chain.imp (fun a b h p => forward_rank _ _ (h.2.1 p)) (hchain w)
    haveI : IsTrans (LoopState Info)
        (fun a b => ∀ p, (status a.box_mask p).rank ≤ (status b.box_mask p).rank) :=
      ⟨fun a b c h1 h2 p => le_trans (h1 p) (h2 p)⟩
    exact List.chain'_iff_pairwise.mp hc
  · exact fun s' h => schedLoop_mem_trace x e conf fuel 0 _ s' h
  · intro st out hout
    have hev2 : (observe e.atEntry (lockFault st w)).events = w.events := by
      rw [(observe_fields _ _).2.2.2.2.2.1, lockFault_events]
    unfold _runner at hout
    simp only at hout
    split at hout
    · simp only [Option.some.injEq] at hout
      subst hout
      refine ⟨[], by simp [Outcome.world, hev2], fun p => ?_⟩
      simp [started, drawn]
    · rw [hm] at hout
      simp only [Option.map_eq_some'] at hout
      obtain ⟨s', hs', hout⟩ := hout
      subst hout
      obtain ⟨new, hev, hall⟩ := honce (observe e.atEntry (lockFault st w)) s'
        (schedLoop_mem_trace x e conf fuel 0 _ s' hs')
      refine ⟨new, ?_, fun p => ?_⟩
      · rw [afterLoop_events, hev, hev2]
      · obtain ⟨_, q2, q3, q4, _, _, _⟩ := hall p
        exact ⟨q2, q3, fun hr => (q4 hr).2⟩

/-- C11, witness: boxes = [cpu, cpu, mem], which names cpu twice, with the cpu future ready
in pass 1 and the mem future in pass 2.  The mask built is `0b01000100`; the masks of the
states of the run show mem and then cpu started, cpu done in pass 1 and mem in pass 2; the
events hold one start and one draw of each of the two blocks. -/
theorem panel_state_moves_forward_witness :
    build_mask ["cpu", "cpu", "mem"] 0 = some 0b01000100 ∧
    (loopEntry World.init 0b01000100 ::
        schedTrace (sampleExt cpuFirst) Env.quiet (sampleConf ["cpu", "cpu", "mem"]) 3 0
          (loopEntry World.init 0b01000100)).map (fun s => s.box_mask)
      = [0b01000100, 0b01000100, 0b01000100, 0b01001100, 0b01001100, 0b11001100,
         0b11001100, 0b11001100, 0b11001100, 0b11001100, 0b00001100,
         0b00001100, 0b00001100, 0b00000000, 0b00000000, 0b00000000] ∧
    ∀ s ∈ loopEntry World.init 0b01000100 ::
        schedTrace (sampleExt cpuFirst) Env.quiet (sampleConf ["cpu", "cpu", "mem"]) 3 0
          (loopEntry World.init 0b01000100),
      ∀ p, pbits s.box_mask p ≠ (false, true) ∧
        ∃ new, s.w.events = World.init.events ++ new ∧ started p new ≤ 1 ∧ drawn p new ≤ 1 :=
  ⟨by decide, by decide, fun s hs p =>
    have h := (panel_state_moves_forward (sampleExt cpuFirst) Env.quiet
      (sampleConf ["cpu", "cpu", "mem"]) World.init 0b01000100 3 (by decide)).2.1 s hs p
    ⟨h.1, h.2.2.imp (fun _ hn => ⟨hn.1, hn.2.1, hn.2.2.1⟩)⟩⟩


/-! ## C12: the loop ends, and no block waits for another -/

theorem exists_readyAt {Info : Type} (x : Ext Info) (boxes : List String)
    (hready : ∀ p, requested boxes p = true → ∃ k, 1 ≤ k ∧ x.ready p k = true) :
    ∃ readyAt : Panel → Nat, ∀ p, requested boxes p = true →
      1 ≤ readyAt p ∧ x.ready p (readyAt p) = true ∧
      ∀ k, 1 ≤ k → k < readyAt p → x.ready p k = false := by
  classical
  refine ⟨fun p => if h : ∃ k, 1 ≤ k ∧ x.ready p k = true then Nat.find h else 0, ?_⟩
  intro p hp
  have h := hready p hp
  simp only [dif_pos h]
  refine ⟨(Nat.find_spec h).1, (Nat.find_spec h).2, fun k hk hlt => ?_⟩
  have := Nat.find_min h hlt
  simp only [not_and, Bool.not_eq_true] at this
  exact this hk

theorem schedLoop_passStart {Info : Type} (x : Ext Info) (e : Env) (conf : runner_conf)
    (n k fuel : Nat) (s t : LoopState Info) (h : passStart x e conf n k s = some t) :
    schedLoop x e conf (n + fuel) k s = schedLoop x e conf fuel (k + n) t := by
  induction n generalizing k s with
  | zero =>
    simp only [passStart, Option.some.injEq] at h
    subst h
    simp
  | succ n ih =>
    simp only [passStart] at h
    by_cases h0 : s.box_mask = 0
    · simp [h0] at h
    simp only [h0, if_false] at h
    by_cases hs : (observe (e.atPass k) s.w).stopping = true
    · simp [hs] at h
    simp only [hs] at h
    have hf : n + 1 + fuel = (n + fuel) + 1 := by omega
    rw [hf]
    simp only [schedLoop, h0, if_false, hs]
    rcases hb : passBody x conf k Panel.order { s with w := observe (e.atPass k) s.w }
      with ⟨s1, _ | msg⟩
    · rw [hb] at h
      simp only [Bool.false_eq_true, if_false] at h ⊢
      rw [ih (k + 1) s1 h]
      congr 1
      omega
    · rw [hb] at h
      simp at h

theorem passStart_ok {Info : Type} (x : Ext Info) (e : Env) (conf : runner_conf)
    (readyAt : Panel → Nat)
    (hpass : ∀ k, e.atPass k ≠ some true)
    (hok : ∀ p, requested conf.boxes p = true → noFault x conf p)
    (hready : ∀ p, requested conf.boxes p = true →
      1 ≤ readyAt p ∧ x.ready p (readyAt p) = true ∧
      ∀ k, 1 ≤ k → k < readyAt p → x.ready p k = false)
    (n k : Nat) (s : LoopState Info) (ht : Tidy x conf s)
    (hst : ∀ p, status s.box_mask p = expected conf.boxes readyAt k p)
    (hstop : s.w.stopping = false)
    (hn : ∀ j, k ≤ j → j < k + n → ∃ p, requested conf.boxes p = true ∧ j ≤ readyAt p) :
    ∃ s', passStart x e conf n k s = some s' ∧ Tidy x conf s' ∧
      (∀ p, status s'.box_mask p = expected conf.boxes readyAt (k + n) p) ∧
      s'.w.stopping = false := by
  induction n generalizing k s with
  | zero => exact ⟨s, rfl, ht, hst, hstop⟩
  | succ n ih =>
    have h0 : s.box_mask ≠ 0 := by
      intro h0
      obtain ⟨p, hp, hle⟩ := hn k le_rfl (by omega)
      have h1 := hst p
      rw [h0, status_zero] at h1
      unfold expected at h1
      simp only [hp, if_true] at h1
      by_cases hk : k = 0
      · simp [hk] at h1
      · simp [hk, hle] at h1
    have hobs : observe (e.atPass k) s.w = s.w := observe_eq _ _ (hpass k) hstop
    obtain ⟨s1, h1, ht1, hs1, _, hw1⟩ :=
      passBody_ok x conf k Panel.order order_nodup s ht (by
        intro p _ hp _
        apply hok p
        have := hst p
        unfold expected at this
        by_contra hr
        simp only [hr] at this
        rw [hp] at this
        simp at this)
    have hst1 : ∀ p, status s1.box_mask p = expected conf.boxes readyAt (k + 1) p := by
      intro p
      rw [hs1 p, if_pos (mem_order p), hst p]
      exact expected_next x conf.boxes readyAt hready k p
    have hstop1 : s1.w.stopping = false := by rw [hw1]; exact hstop
    obtain ⟨s', h2, ht2, hst2, hstop2⟩ := ih (k + 1) s1 ht1 hst1 hstop1
      (fun j hj1 hj2 => hn j (by omega) (by omega))
    refine ⟨s', ?_, ht2, ?_, hstop2⟩
    · simp only [passStart, h0, if_false, hobs, hstop]
      have : ({ s with w := s.w } : LoopState Info) = s := rfl
      simp only [this, h1]
      exact h2
    · intro p
      rw [hst2 p]
      congr 1
      omega


theorem entry_tidy {Info : Type} (x : Ext Info) (conf : runner_conf) (readyAt : Panel → Nat)
    (w : World) (m : Nat) (hm : build_mask conf.boxes 0 = some m) :
    Tidy x conf (loopEntry w m : LoopState Info) ∧
    ∀ p, status (loopEntry w m : LoopState Info).box_mask p =
      expected conf.boxes readyAt 0 p := by
  obtain ⟨m', hm', hmlt, hmb⟩ :=
    build_mask_ok conf.boxes 0 (by norm_num) (build_mask_valid conf.boxes 0 m hm)
  rw [hm] at hm'
  simp only [Option.some.injEq] at hm'
  subst hm'
  have hbit0 : ∀ i, bitset_test 0 i = false := fun i => by simp [bitset_test]
  have hst0 : ∀ p, status m p = expected conf.boxes readyAt 0 p := by
    intro p
    obtain ⟨h1, h2⟩ := hmb p
    rw [hbit0, Bool.false_or] at h1
    rw [hbit0] at h2
    unfold expected
    by_cases hr : requested conf.boxes p = true
    · rw [hr] at h1
      simp only [hr, if_true]
      exact (status_bits m p).2.1.mpr ⟨h1, h2⟩
    · simp only [hr]
      have hr' : requested conf.boxes p = false := by simpa using hr
      rw [hr'] at h1
      exact (status_bits m p).1.mpr ⟨h1, h2⟩
  refine ⟨⟨hmlt, fun p => ?_⟩, hst0⟩
  show status m p ≠ .invalid ∧ (status m p = .collecting → _)
  rw [hst0 p]
  unfold expected
  by_cases hr : requested conf.boxes p = true <;> simp [hr]

/-- C12: take a run whose box list is accepted (the mask `m` is built), in which the
foreground never raises `stopping`, no collector or renderer of a requested block raises,
and the future of every requested block reports ready at some poll (the poll of pass `k`,
for some `k` of at least 1).  Then the loop of lines 350-437 ends: there is a number of
passes `N` such that with any fuel of at least `N` the loop returns, with `box_mask = 0`,
`stopping` clear, no fault recorded, and with each requested block started once and
drawn once.  And no block waits for another: when pass `k` is the first whose poll finds
the future of a requested block `p` ready, the loop reaches the head of pass `k` with `p`
collecting, and the body of that pass, without throwing, renders `p` (its pair becomes
`(0,0)` and the output grows by the texts of the blocks that are collecting and ready in
that pass, `p` among them), while every block that is collecting and not ready in that
pass is still collecting after it. -/
theorem sched_loop_terminates {Info : Type} (x : Ext Info) (e : Env) (conf : runner_conf)
    (w : World) (m : Nat)
    (hm : build_mask conf.boxes 0 = some m)
    (hstop : w.stopping = false) (hpass : ∀ k, e.atPass k ≠ some true)
    (hok : ∀ p, requested conf.boxes p = true → noFault x conf p)
    (hready : ∀ p, requested conf.boxes p = true → ∃ k, 1 ≤ k ∧ x.ready p k = true) :
    (∃ N, ∀ fuel, N ≤ fuel →
      ∃ s', schedLoop x e conf fuel 0 (loopEntry w m) = some s' ∧ s'.box_mask = 0 ∧
        s'.w.stopping = false ∧ s'.w.thread_exception = w.thread_exception ∧
        ∃ new, s'.w.events = w.events ++ new ∧
          ∀ p, requested conf.boxes p = true → started p new = 1 ∧ drawn p new = 1) ∧
    (∀ p k, requested conf.boxes p = true → 1 ≤ k → x.ready p k = true →
      (∀ j, 1 ≤ j → j < k → x.ready p j = false) →
      ∃ s s1, passStart x e conf k 0 (loopEntry w m) = some s ∧
        (∀ fuel, schedLoop x e conf (k + fuel) 0 (loopEntry w m) =
          schedLoop x e conf fuel k s) ∧
        pbits s.box_mask p = (true, true) ∧
        passBody x conf k Panel.order { s with w := observe (e.atPass k) s.w } = (s1, none) ∧
        pbits s1.box_mask p = (false, false) ∧
        s1.w.output = s.w.output ++ textOf x conf
          (Panel.order.filter
            (fun q => decide (pbits s.box_mask q = (true, true)) && x.ready q k)) ∧
        ∀ q, pbits s.box_mask q = (true, true) → x.ready q k = false →
          pbits s1.box_mask q = (true, true)) := by
  obtain ⟨readyAt, hra⟩ := exists_readyAt x conf.boxes hready
  obtain ⟨ht0, hst0⟩ := entry_tidy x conf readyAt w m hm
  have hstop0 : (loopEntry w m : LoopState Info).w.stopping = false := hstop
  constructor
  · refine ⟨lastPass conf.boxes readyAt + 1, fun fuel hfuel => ?_⟩
    obtain ⟨s', hloop, hzero, _, hw⟩ :=
      schedLoop_ok x e conf readyAt hpass hok hra fuel 0 (loopEntry w m) ht0 hst0 hstop0
        (by omega)
    have hmem := schedLoop_mem_trace x e conf fuel 0 _ s' hloop
    obtain ⟨new, hev, hall⟩ :=
      chain_once conf.boxes w.events _ _ (once_entry conf.boxes w m hm)
        (schedTrace_chain x e conf conf.boxes w.events fuel 0 _ (once_entry conf.boxes w m hm))
        s' hmem
    refine ⟨s', hloop, hzero, ?_, ?_, new, hev, fun p hp => ?_⟩
    · rw [hw]
      exact hstop
    · rw [hw]
      rfl
    · obtain ⟨_, _, _, _, _, _, q7⟩ := hall p
      apply q7 hp
      rw [hzero]
      exact status_zero p
  · intro p k hp hk hrk hfirst
    obtain ⟨h1, h2, h3⟩ := hra p hp
    have hkeq : readyAt p = k := by
      rcases Nat.lt_trichotomy (readyAt p) k with hlt | heq | hgt
      · have := hfirst (readyAt p) h1 hlt
        rw [h2] at this
        cases this
      · exact heq
      · have := h3 k hk hgt
        rw [hrk] at this
        cases this
    obtain ⟨s, hps, hts, hsts, hstops⟩ :=
      passStart_ok x e conf readyAt hpass hok hra k 0 (loopEntry w m) ht0 hst0 hstop0
        (fun j _ hj => ⟨p, hp, by omega⟩)
    have hsts' : ∀ q, status s.box_mask q = expected conf.boxes readyAt k q := by
      intro q
      have := hsts q
      simpa using this
    have hobs : observe (e.atPass k) s.w = s.w := observe_eq _ _ (hpass k) hstops
    have hself : ({ s with w := observe (e.atPass k) s.w } : LoopState Info) = s := by
      rw [hobs]
    obtain ⟨s1, hb, _, hs1, hout, _⟩ :=
      passBody_ok x conf k Panel.order order_nodup s hts (by
        intro q _ hq _
        apply hok q
        have := hsts' q
        unfold expected at this
        by_contra hr
        simp only [hr] at this
        rw [hq] at this
        simp at this)
    have hcol : status s.box_mask p = .collecting := by
      rw [hsts' p]
      unfold expected
      have hk0 : k ≠ 0 := by omega
      have hle : k ≤ readyAt p := by omega
      simp [hp, hk0, hle]
    have hpc : ∀ q, (pbits s.box_mask q = (true, true)) ↔ status s.box_mask q = .collecting :=
      fun q => (pbits_status s.box_mask q).2.2.2.symm
    refine ⟨s, s1, hps, fun fuel => ?_, (hpc p).mpr hcol, ?_, ?_, ?_, ?_⟩
    · have := schedLoop_passStart x e conf k 0 fuel _ s hps
      simpa using this
    · rw [hself]
      exact hb
    · apply (pbits_status s1.box_mask p).2.1.mp
      rw [hs1 p, if_pos (mem_order p), hcol, hrk]
      rfl
    · rw [hout]
      congr 2
      apply List.filter_congr
      intro q _
      simp only [hpc q]
    · intro q hq hnr
      apply (pbits_status s1.box_mask q).2.2.2.mp
      rw [hs1 q, if_pos (mem_order q), (hpc q).mp hq, hnr]
      rfl

/-- C12, witness: boxes = [cpu, mem] with the cpu future ready in pass 1 and the mem future
in pass 2.  The loop returns after three passes with an empty mask; at the head of pass 1
both blocks are collecting (mask `0b11001100`), and the pass renders cpu, leaving mem
collecting (mask `0b00001100`) and "Cpu" in the output. -/
theorem sched_loop_terminates_witness :
    (∃ N, ∀ fuel, N ≤ fuel →
      ∃ s', schedLoop (sampleExt cpuFirst) Env.quiet (sampleConf ["cpu", "mem"]) fuel 0
          (loopEntry World.init 0b01000100) = some s' ∧ s'.box_mask = 0) ∧
    (schedLoop (sampleExt cpuFirst) Env.quiet (sampleConf ["cpu", "mem"]) 3 0
        (loopEntry World.init 0b01000100)).map (fun s => (s.box_mask, s.w.output))
      = some (0, "CpuMem") ∧
    (passStart (sampleExt cpuFirst) Env.quiet (sampleConf ["cpu", "mem"]) 1 0
        (loopEntry World.init 0b01000100)).map
        (fun s => (s.box_mask,
          (passBody (sampleExt cpuFirst) (sampleConf ["cpu", "mem"]) 1 Panel.order s).1.box_mask,
          (passBody (sampleExt cpuFirst) (sampleConf ["cpu", "mem"]) 1 Panel.order s).1.w.output))
      = some (0b11001100, 0b00001100, "Cpu") :=
  have h := (sched_loop_terminates (sampleExt cpuFirst) Env.quiet (sampleConf ["cpu", "mem"])
    World.init 0b01000100 (by decide) (by decide) (by intro k; simp [Env.quiet])
    (by intro p _; exact ⟨(), p.ns, rfl, rfl⟩)
    (by
      intro p _
      exact ⟨2, by decide, by cases p <;> decide⟩)).1
  ⟨h.imp (fun _ hN fuel hf => (hN fuel hf).imp (fun _ hs => ⟨hs.1, hs.2.1⟩)),
    by decide, by decide⟩

end Runner

end Btop
